import Mathlib

/-!
# Memory-scanning engine: a shallow embedding

The native sources (`error_handler.cpp`, `process_manager.cpp`, `memory_helpers.cpp`,
`memory_scanner.cpp`) are rendered as Lean functions.

* Addresses and sizes (`uintptr_t`, `size_t`, `SIZE_T`, `ULONG_PTR`) are natural numbers;
  where the source adds or subtracts them the result is reduced modulo `2 ^ 64`.
* A byte is a natural number (values below 256 by convention), a buffer is a list of bytes.
* The operating system is a record: the address-space layout answers `VirtualQueryEx`,
  and `ReadProcessMemory` is a function of the address and the size.
* A loop that pushes results and leaves through `break` or `return` is a recursive function
  carrying the result vector; a fuel argument bounds the number of iterations.
* A function whose loop can read outside its buffer returns `Option`; `none` stands for such
  an out-of-bounds read.
* A text (`std::string`) is a list of characters; the token extraction of
  `std::istringstream` and the conversions `std::stoul` and `std::stoi` follow the C++
  standard.
-/

set_option autoImplicit false

/-! ## Machine arithmetic -/

/-- Reduction of an address or a size to 64 bits. -/
def wrap64 (n : Nat) : Nat := n % 2 ^ 64

/-- Unsigned 64-bit subtraction `a - b` (for `a, b < 2 ^ 64`). -/
def usub64 (a b : Nat) : Nat := (a + 2 ^ 64 - b) % 2 ^ 64

/-! ## The C++ standard library: token extraction and number parsing -/

/-- The function `isspace` of the "C" locale. -/
def isspace (c : Char) : Bool :=
  c = ' ' || c = '\t' || c = '\n' || c = Char.ofNat 11 || c = Char.ofNat 12 || c = '\r'

/-- The tokens that the loop `while (stream >> token)` extracts from a string stream over
`text`: the maximal runs of characters that are not white space, in order; `current` is the
token being read. -/
def extractTokens.go : List Char → List Char → List (List Char)
  | [], current => if current.isEmpty then [] else [current]
  | c :: rest, current =>
    if isspace c then
      if current.isEmpty then extractTokens.go rest []
      else current :: extractTokens.go rest []
    else extractTokens.go rest (current ++ [c])

def extractTokens (text : List Char) : List (List Char) := extractTokens.go text []

/-- The value of a hexadecimal digit, `none` for any other character. -/
def hexDigitValue (c : Char) : Option Nat :=
  if '0' ≤ c ∧ c ≤ '9' then some (c.toNat - '0'.toNat)
  else if 'a' ≤ c ∧ c ≤ 'f' then some (c.toNat - 'a'.toNat + 10)
  else if 'A' ≤ c ∧ c ≤ 'F' then some (c.toNat - 'A'.toNat + 10)
  else none

/-- The value of the longest run of hexadecimal digits at the head of the string, after
`acc`. -/
def leadingHexValue : List Char → Nat → Nat
  | [], acc => acc
  | c :: rest, acc =>
    match hexDigitValue c with
    | some d => leadingHexValue rest (16 * acc + d)
    | none => acc

/-- The magnitude that `strtoul` and `strtol` read in base 16 from a string without leading
white space and sign: an optional `0x` or `0X` in front of a digit is skipped, then the
longest run of digits is taken; `none` when there is no digit to convert. -/
def hexMagnitude (s : List Char) : Option Nat :=
  let body :=
    match s with
    | '0' :: x :: h :: rest =>
      if (x = 'x' ∨ x = 'X') ∧ (hexDigitValue h).isSome then h :: rest else s
    | _ => s
  match body with
  | [] => none
  | c :: _ => if (hexDigitValue c).isSome then some (leadingHexValue body 0) else none

/-- The sign in front of a number and the rest of the string. -/
def splitSign : List Char → Bool × List Char
  | '-' :: rest => (true, rest)
  | '+' :: rest => (false, rest)
  | s => (false, s)

/-- The call `std::stoul(str, nullptr, 16)` on a token (which has no white space to skip):
`none` when it throws `std::invalid_argument` (nothing to convert) or `std::out_of_range`
(the magnitude does not fit `unsigned long`, 32 bits on Windows); a minus sign negates the
value in `unsigned long`. -/
def stoul16 (str : List Char) : Option Nat :=
  match hexMagnitude (splitSign str).2 with
  | none => none
  | some m =>
    if m ≥ 2 ^ 32 then none
    else some (if (splitSign str).1 then (2 ^ 32 - m) % 2 ^ 32 else m)

/-- The call `std::stoi(str, nullptr, 16)` on a token: `none` when it throws
`std::invalid_argument` or `std::out_of_range` (the value does not fit `int`). -/
def stoi16 (str : List Char) : Option Int :=
  match hexMagnitude (splitSign str).2 with
  | none => none
  | some m =>
    let value : Int := if (splitSign str).1 then -(m : Int) else (m : Int)
    if value < -2 ^ 31 ∨ value ≥ 2 ^ 31 then none else some value

/-! ## Windows constants (from the platform headers) -/

def MEM_COMMIT : Nat := 0x1000
def PAGE_NOACCESS : Nat := 0x01
def PAGE_READONLY : Nat := 0x02
def PAGE_READWRITE : Nat := 0x04
def PAGE_WRITECOPY : Nat := 0x08
def PAGE_EXECUTE : Nat := 0x10
def PAGE_EXECUTE_READ : Nat := 0x20
def PAGE_EXECUTE_READWRITE : Nat := 0x40
def PAGE_EXECUTE_WRITECOPY : Nat := 0x80
def PAGE_GUARD : Nat := 0x100

/-! ## The target process -/

/-- The record `MEMORY_BASIC_INFORMATION` filled in by `VirtualQueryEx`. -/
structure MEMORY_BASIC_INFORMATION where
  BaseAddress : Nat
  RegionSize : Nat
  State : Nat
  Protect : Nat
  Type_ : Nat
  deriving DecidableEq, Repr

/-- The target process as the engine sees it through the operating system.
`attached` is `m_processHandle != nullptr`; `handleValid` is the outcome of
`ErrorHandler::isValidProcessHandle` (a usable handle whose process is still active);
`layout` lists the regions of the address space, lowest address first;
`ReadProcessMemory address size` is `none` when the call fails and otherwise the bytes
that were transferred. -/
structure TargetProcess where
  attached : Bool
  handleValid : Bool
  layout : List MEMORY_BASIC_INFORMATION
  ReadProcessMemory : Nat → Nat → Option (List Nat)

/-- Embedding of `VirtualQueryEx`: the region of the layout holding `address`, if any.
(The system call reports the page of `address` as base and the size from there to the end of
the region; the end of the region, on which the callers depend, is the same.) -/
def VirtualQueryEx (p : TargetProcess) (address : Nat) : Option MEMORY_BASIC_INFORMATION :=
  p.layout.find? fun r =>
    decide (r.BaseAddress ≤ address) && decide (address < r.BaseAddress + r.RegionSize)

/-- The bytes of `mem` at `address, address + 1, ..., address + size - 1`. -/
def bytesAt (mem : Nat → Nat) (address size : Nat) : List Nat :=
  (List.range size).map fun k => mem (address + k)

/-- A live, attached process with the given layout whose reads always transfer
the whole range out of the memory `mem`. -/
def TargetProcess.ofMemory (layout : List MEMORY_BASIC_INFORMATION) (mem : Nat → Nat) :
    TargetProcess :=
  { attached := true
    handleValid := true
    layout := layout
    ReadProcessMemory := fun address size => some (bytesAt mem address size) }

/-! ## `error_handler.cpp` -/

namespace ErrorHandler

/-- Embedding of `ErrorHandler::isValidProcessHandle`. -/
def isValidProcessHandle (p : TargetProcess) : Bool := p.handleValid

/-- Embedding of `ErrorHandler::safeVirtualQuery`. -/
def safeVirtualQuery (p : TargetProcess) (address : Nat) : Option MEMORY_BASIC_INFORMATION :=
  if !isValidProcessHandle p then none else VirtualQueryEx p address

/-- Embedding of `ErrorHandler::isAddressAccessible`. -/
def isAddressAccessible (p : TargetProcess) (address size : Nat) : Bool :=
  if !isValidProcessHandle p || address == 0 || size == 0 then false
  else
    match safeVirtualQuery p address with
    | none => false
    | some mbi =>
      if mbi.State != MEM_COMMIT || (mbi.Protect &&& PAGE_GUARD) != 0
          || (mbi.Protect &&& PAGE_NOACCESS) != 0 then false
      else
        let startAddr := address
        let endAddr := usub64 (wrap64 (startAddr + size)) 1
        let regionStart := mbi.BaseAddress
        let regionEnd := usub64 (wrap64 (regionStart + mbi.RegionSize)) 1
        decide (startAddr ≥ regionStart) && decide (endAddr ≤ regionEnd)

/-- Embedding of `ErrorHandler::safeReadMemory`: `none` when it returns `false`, otherwise the
`bytesRead` bytes placed in the caller's buffer. -/
def safeReadMemory (p : TargetProcess) (address size : Nat) : Option (List Nat) :=
  if !isValidProcessHandle p then none
  else if !isAddressAccessible p address size then none
  else
    match p.ReadProcessMemory address size with
    | none => none
    | some bytes => some (bytes.take size)

end ErrorHandler

/-! ## `process_manager.cpp` -/

namespace ProcessManager

/-- Embedding of `ProcessManager::isProcessAttached`. -/
def isProcessAttached (p : TargetProcess) : Bool := p.attached

/-- Embedding of `ProcessManager::readMemory`: `some bytes` when it returns `true` (the whole range
was transferred), `none` when it returns `false`. -/
def readMemory (p : TargetProcess) (address size : Nat) : Option (List Nat) :=
  if !isProcessAttached p then none
  else if address == 0 || size == 0 then none
  else
    match ErrorHandler.safeReadMemory p address size with
    | none => none
    | some bytes => if bytes.length == size then some bytes else none

end ProcessManager

/-! ## `memory_helpers.cpp` -/

structure PointerResult where
  address : Nat
  pointsTo : Nat
  offset : Nat
  deriving DecidableEq, Repr

structure PatternMatch where
  address : Nat
  size : Nat
  data : List Nat
  deriving DecidableEq, Repr

/-- The record `MemoryRegionEx` (the best-effort module name is left out). -/
structure MemoryRegionEx where
  startAddress : Nat
  endAddress : Nat
  size : Nat
  protection : Nat
  type : Nat
  deriving DecidableEq, Repr

namespace MemoryHelpers

def MAX_SCAN_SIZE : Nat := 100 * 1024 * 1024
def MAX_RESULTS : Nat := 10000

/-- Embedding of `MemoryHelpers::ReadMemoryChunk`: the bytes read, empty on failure. -/
def ReadMemoryChunk (p : TargetProcess) (address size : Nat) : List Nat :=
  match ErrorHandler.safeReadMemory p address size with
  | none => []
  | some bytes => bytes

/-- Embedding of `MemoryHelpers::MatchesPattern`; `data` is the buffer from the pointer on
(a position past its end reads as 0). -/
def MatchesPattern (data pattern : List Nat) (mask : List Bool) : Bool :=
  (List.range pattern.length).all fun i =>
    !(mask.getD i false && data.getD i 0 != pattern.getD i 0)

/-- The `while` loop of `MemoryHelpers::GetMemoryRegions`, from `address` on. -/
def GetMemoryRegions.loop (p : TargetProcess) (executableOnly writableOnly : Bool) :
    Nat → Nat → List MemoryRegionEx
  | 0, _ => []
  | fuel + 1, address =>
    match VirtualQueryEx p address with
    | none => []
    | some mbi =>
      let rest := GetMemoryRegions.loop p executableOnly writableOnly fuel
        (wrap64 (mbi.BaseAddress + mbi.RegionSize))
      if mbi.State == MEM_COMMIT then
        let excludedAsNotExecutable := executableOnly &&
          (mbi.Protect &&& (PAGE_EXECUTE ||| PAGE_EXECUTE_READ ||| PAGE_EXECUTE_READWRITE)) == 0
        let excludedAsNotWritable := writableOnly &&
          (mbi.Protect &&& (PAGE_READWRITE ||| PAGE_EXECUTE_READWRITE)) == 0
        if !excludedAsNotExecutable && !excludedAsNotWritable then
          { startAddress := mbi.BaseAddress
            endAddress := wrap64 (mbi.BaseAddress + mbi.RegionSize)
            size := mbi.RegionSize
            protection := mbi.Protect
            type := mbi.Type_ } :: rest
        else rest
      else rest

/-- Embedding of `MemoryHelpers::GetMemoryRegions`. Every successful query of the walk returns a
region of the layout not returned before, so `layout.length` iterations are enough. -/
def GetMemoryRegions (p : TargetProcess) (executableOnly writableOnly : Bool) :
    List MemoryRegionEx :=
  GetMemoryRegions.loop p executableOnly writableOnly p.layout.length 0

/-- The loop `for (i = 0; i <= buffer.size() - pattern.size(); ++i)` of
`MemoryHelpers::SearchBytePattern` (the caller has checked
`pattern.size() <= buffer.size()`, so the bound does not wrap). -/
def SearchBytePattern.offsetLoop (start : Nat) (buffer pattern : List Nat) (mask : List Bool) :
    Nat → Nat → List PatternMatch → List PatternMatch
  | 0, _, results => results
  | fuel + 1, i, results =>
    if i ≤ buffer.length - pattern.length then
      if MatchesPattern (buffer.drop i) pattern mask then
        let results' := results ++
          [{ address := wrap64 (start + i)
             size := pattern.length
             data := (buffer.drop i).take pattern.length }]
        if results'.length ≥ MAX_RESULTS then results'
        else SearchBytePattern.offsetLoop start buffer pattern mask fuel (i + 1) results'
      else SearchBytePattern.offsetLoop start buffer pattern mask fuel (i + 1) results
    else results

/-- The loop over the regions of `MemoryHelpers::SearchBytePattern`. -/
def SearchBytePattern.regionLoop (p : TargetProcess) (pattern : List Nat) (mask : List Bool)
    (searchStart searchEnd : Nat) : List MemoryRegionEx → List PatternMatch → List PatternMatch
  | [], results => results
  | region :: rest, results =>
    let start := if searchStart > 0 then max searchStart region.startAddress
      else region.startAddress
    let end_ := if searchEnd > 0 then min searchEnd region.endAddress else region.endAddress
    if start ≥ end_ then SearchBytePattern.regionLoop p pattern mask searchStart searchEnd rest results
    else
      let regionSize := end_ - start
      if regionSize > MAX_SCAN_SIZE then
        SearchBytePattern.regionLoop p pattern mask searchStart searchEnd rest results
      else
        let buffer := ReadMemoryChunk p start regionSize
        if buffer.isEmpty || buffer.length < pattern.length then
          SearchBytePattern.regionLoop p pattern mask searchStart searchEnd rest results
        else
          let results' := SearchBytePattern.offsetLoop start buffer pattern mask
            (buffer.length - pattern.length + 1) 0 results
          if results'.length ≥ MAX_RESULTS then results'
          else SearchBytePattern.regionLoop p pattern mask searchStart searchEnd rest results'

/-- Embedding of `MemoryHelpers::SearchBytePattern`. -/
def SearchBytePattern (p : TargetProcess) (pattern : List Nat) (mask : List Bool)
    (searchStart searchEnd : Nat) : List PatternMatch :=
  if pattern.isEmpty || mask.length != pattern.length then []
  else SearchBytePattern.regionLoop p pattern mask searchStart searchEnd
    (GetMemoryRegions p false false) []

/-- The function `::tolower` of the "C" locale on a byte. -/
def tolower (c : Nat) : Nat := if 65 ≤ c ∧ c ≤ 90 then c + 32 else c

/-- The bytes of `std::wstring(pattern.begin(), pattern.end())`: each `char` becomes one
little-endian 2-byte `wchar_t` (a `char` of 128 or more is negative and sign-extends). -/
def widePatternBytes (pattern : List Nat) : List Nat :=
  (pattern.map fun c => [c, if c < 128 then 0 else 255]).flatten

/-- The ASCII loop `for (i = 0; i <= buffer.size() - pattern.size(); ++i)` of
`MemoryHelpers::SearchStringPattern`; the bound is computed in `size_t`, and `none` is
returned when the candidate window leaves the buffer. -/
def SearchStringPattern.asciiLoop (start : Nat) (buffer pattern searchStr : List Nat)
    (caseSensitive : Bool) : Nat → Nat → List PatternMatch → Option (List PatternMatch)
  | 0, _, results => some results
  | fuel + 1, i, results =>
    if i ≤ usub64 buffer.length pattern.length then
      if i + pattern.length > buffer.length then none
      else
        let candidate := (buffer.drop i).take pattern.length
        let candidate := if !caseSensitive then candidate.map tolower else candidate
        if candidate == searchStr then
          let results' := results ++
            [{ address := wrap64 (start + i)
               size := pattern.length
               data := (buffer.drop i).take pattern.length }]
          if results'.length ≥ MAX_RESULTS then some results'
          else SearchStringPattern.asciiLoop start buffer pattern searchStr caseSensitive
            fuel (i + 1) results'
        else SearchStringPattern.asciiLoop start buffer pattern searchStr caseSensitive
          fuel (i + 1) results
    else some results

/-- The UTF-16 loop `for (i = 0; i <= buffer.size() - wideSize; i += 2)` of
`MemoryHelpers::SearchStringPattern`; `none` when `memcmp` leaves the buffer. -/
def SearchStringPattern.wideLoop (start : Nat) (buffer wideBytes : List Nat) :
    Nat → Nat → List PatternMatch → Option (List PatternMatch)
  | 0, _, results => some results
  | fuel + 1, i, results =>
    if i ≤ usub64 buffer.length wideBytes.length then
      if i + wideBytes.length > buffer.length then none
      else if (buffer.drop i).take wideBytes.length == wideBytes then
        let results' := results ++
          [{ address := wrap64 (start + i)
             size := wideBytes.length
             data := (buffer.drop i).take wideBytes.length }]
        if results'.length ≥ MAX_RESULTS then some results'
        else SearchStringPattern.wideLoop start buffer wideBytes fuel (i + 2) results'
      else SearchStringPattern.wideLoop start buffer wideBytes fuel (i + 2) results
    else some results

/-- The loop over the regions of `MemoryHelpers::SearchStringPattern`. -/
def SearchStringPattern.regionLoop (p : TargetProcess) (pattern : List Nat)
    (caseSensitive unicode : Bool) (searchStart searchEnd : Nat) :
    List MemoryRegionEx → List PatternMatch → Option (List PatternMatch)
  | [], results => some results
  | region :: rest, results =>
    let start := if searchStart > 0 then max searchStart region.startAddress
      else region.startAddress
    let end_ := if searchEnd > 0 then min searchEnd region.endAddress else region.endAddress
    if start ≥ end_ then
      SearchStringPattern.regionLoop p pattern caseSensitive unicode searchStart searchEnd
        rest results
    else
      let regionSize := end_ - start
      if regionSize > MAX_SCAN_SIZE then
        SearchStringPattern.regionLoop p pattern caseSensitive unicode searchStart searchEnd
          rest results
      else
        let buffer := ReadMemoryChunk p start regionSize
        if buffer.isEmpty then
          SearchStringPattern.regionLoop p pattern caseSensitive unicode searchStart searchEnd
            rest results
        else
          let searchStr := if !caseSensitive then pattern.map tolower else pattern
          let scanned :=
            if unicode then
              SearchStringPattern.wideLoop start buffer (widePatternBytes pattern)
                (buffer.length + 1) 0 results
            else
              SearchStringPattern.asciiLoop start buffer pattern searchStr caseSensitive
                (buffer.length + 1) 0 results
          match scanned with
          | none => none
          | some results' =>
            if results'.length ≥ MAX_RESULTS then some results'
            else SearchStringPattern.regionLoop p pattern caseSensitive unicode searchStart
              searchEnd rest results'

/-- Embedding of `MemoryHelpers::SearchStringPattern` (the characters of `pattern` as bytes). -/
def SearchStringPattern (p : TargetProcess) (pattern : List Nat) (caseSensitive unicode : Bool)
    (searchStart searchEnd : Nat) : Option (List PatternMatch) :=
  if pattern.isEmpty then some []
  else SearchStringPattern.regionLoop p pattern caseSensitive unicode searchStart searchEnd
    (GetMemoryRegions p false false) []

/-- The value of the `uintptr_t` stored little-endian in `bytes`. -/
def littleEndian : List Nat → Nat
  | [] => 0
  | b :: rest => b + 256 * littleEndian rest

/-- The read `*reinterpret_cast<uintptr_t*>(&buffer[i])`. -/
def readPointer (buffer : List Nat) (i : Nat) : Nat :=
  littleEndian ((buffer.drop i).take 8)

/-- The slot loop `for (i = 0; i <= buffer.size() - sizeof(uintptr_t); i += sizeof(uintptr_t))`
of `MemoryHelpers::FindPointersTo`; the bound is computed in `size_t`, and `none` is returned
when the slot read leaves the buffer. -/
def FindPointersTo.slotLoop (start targetAddress : Nat) (buffer : List Nat) :
    Nat → Nat → List PointerResult → Option (List PointerResult)
  | 0, _, results => some results
  | fuel + 1, i, results =>
    if i ≤ usub64 buffer.length 8 then
      if i + 8 > buffer.length then none
      else if readPointer buffer i == targetAddress then
        let results' := results ++
          [{ address := wrap64 (start + i), pointsTo := targetAddress, offset := 0 }]
        if results'.length ≥ MAX_RESULTS then some results'
        else FindPointersTo.slotLoop start targetAddress buffer fuel (i + 8) results'
      else FindPointersTo.slotLoop start targetAddress buffer fuel (i + 8) results
    else some results

/-- The loop over the regions of `MemoryHelpers::FindPointersTo`. -/
def FindPointersTo.regionLoop (p : TargetProcess) (targetAddress searchStart searchEnd : Nat) :
    List MemoryRegionEx → List PointerResult → Option (List PointerResult)
  | [], results => some results
  | region :: rest, results =>
    let start := if searchStart > 0 then max searchStart region.startAddress
      else region.startAddress
    let end_ := if searchEnd > 0 then min searchEnd region.endAddress else region.endAddress
    if start ≥ end_ then
      FindPointersTo.regionLoop p targetAddress searchStart searchEnd rest results
    else
      let regionSize := end_ - start
      if regionSize > MAX_SCAN_SIZE then
        FindPointersTo.regionLoop p targetAddress searchStart searchEnd rest results
      else
        let buffer := ReadMemoryChunk p start regionSize
        if buffer.isEmpty then
          FindPointersTo.regionLoop p targetAddress searchStart searchEnd rest results
        else
          (FindPointersTo.slotLoop start targetAddress buffer (buffer.length / 8 + 1) 0
            results).bind fun results' =>
              if results'.length ≥ MAX_RESULTS then some results'
              else FindPointersTo.regionLoop p targetAddress searchStart searchEnd rest results'

/-- Embedding of `MemoryHelpers::FindPointersTo`. -/
def FindPointersTo (p : TargetProcess) (targetAddress searchStart searchEnd : Nat) :
    Option (List PointerResult) :=
  FindPointersTo.regionLoop p targetAddress searchStart searchEnd
    (GetMemoryRegions p false false) []

/-- The loop `for (const auto& existingPtr : results)` of `MemoryHelpers::FindPointerChain`
at one depth, filling `newResults`; `chainOffset` is the offset attached at that depth. -/
def FindPointerChain.expandLoop (p : TargetProcess) (finalAddress chainOffset : Nat) :
    List PointerResult → List PointerResult → Option (List PointerResult)
  | [], newResults => some newResults
  | existingPtr :: rest, newResults =>
    match FindPointersTo p existingPtr.address 0 0 with
    | none => none
    | some chainPointers =>
      FindPointerChain.expandLoop p finalAddress chainOffset rest
        (newResults ++ chainPointers.map fun chainPtr =>
          { address := chainPtr.address, pointsTo := finalAddress, offset := chainOffset })

/-- The loop `for (int depth = 1; depth < maxDepth; ++depth)` of
`MemoryHelpers::FindPointerChain`. -/
def FindPointerChain.depthLoop (p : TargetProcess) (finalAddress : Nat) (maxDepth : Int)
    (offsets : List Nat) : Nat → Nat → List PointerResult → Option (List PointerResult)
  | 0, _, results => some results
  | fuel + 1, depth, results =>
    if (depth : Int) < maxDepth then
      let chainOffset := if depth < offsets.length then offsets.getD depth 0 else 0
      match FindPointerChain.expandLoop p finalAddress chainOffset results [] with
      | none => none
      | some newResults =>
        let results' := results ++ newResults
        if results'.length ≥ MAX_RESULTS then some results'
        else FindPointerChain.depthLoop p finalAddress maxDepth offsets fuel (depth + 1) results'
    else some results

/-- Embedding of `MemoryHelpers::FindPointerChain`. -/
def FindPointerChain (p : TargetProcess) (finalAddress : Nat) (maxDepth : Int)
    (offsets : List Nat) : Option (List PointerResult) :=
  match FindPointersTo p finalAddress 0 0 with
  | none => none
  | some directPointers =>
    if !offsets.isEmpty && maxDepth > 1 then
      FindPointerChain.depthLoop p finalAddress maxDepth offsets maxDepth.toNat 1 directPointers
    else some directPointers

/-- The loop `for (i = 0; i <= buffer.size() - sizeof(uintptr_t); i += sizeof(uintptr_t))`
of `MemoryHelpers::FindNullPointers`; the bound is computed in `size_t`, and `none` is returned
when the slot read leaves the buffer. -/
def FindNullPointers.slotLoop (start : Nat) (buffer : List Nat) :
    Nat → Nat → List Nat → Option (List Nat)
  | 0, _, results => some results
  | fuel + 1, i, results =>
    if i ≤ usub64 buffer.length 8 then
      if i + 8 > buffer.length then none
      else if readPointer buffer i == 0 then
        let results' := results ++ [wrap64 (start + i)]
        if results'.length ≥ MAX_RESULTS then some results'
        else FindNullPointers.slotLoop start buffer fuel (i + 8) results'
      else FindNullPointers.slotLoop start buffer fuel (i + 8) results
    else some results

/-- The loop over the regions of `MemoryHelpers::FindNullPointers` (the bounds are used as
they are, without the test for 0 of the other scans). -/
def FindNullPointers.regionLoop (p : TargetProcess) (searchStart searchEnd : Nat) :
    List MemoryRegionEx → List Nat → Option (List Nat)
  | [], results => some results
  | region :: rest, results =>
    let start := max searchStart region.startAddress
    let end_ := min searchEnd region.endAddress
    if start ≥ end_ then FindNullPointers.regionLoop p searchStart searchEnd rest results
    else
      let regionSize := end_ - start
      if regionSize > MAX_SCAN_SIZE then
        FindNullPointers.regionLoop p searchStart searchEnd rest results
      else
        let buffer := ReadMemoryChunk p start regionSize
        if buffer.isEmpty then FindNullPointers.regionLoop p searchStart searchEnd rest results
        else
          (FindNullPointers.slotLoop start buffer (buffer.length / 8 + 1) 0 results).bind
            fun results' =>
              if results'.length ≥ MAX_RESULTS then some results'
              else FindNullPointers.regionLoop p searchStart searchEnd rest results'

/-- Embedding of `MemoryHelpers::FindNullPointers`. -/
def FindNullPointers (p : TargetProcess) (searchStart searchEnd : Nat) : Option (List Nat) :=
  FindNullPointers.regionLoop p searchStart searchEnd (GetMemoryRegions p false false) []

/-- The compiled regular expressions of the standard library, which the sources use through
`std::regex` and `std::sregex_iterator`: `compile` is the constructor (`none` when it throws
`std::regex_error`), `findAll` lists the position and length of the successive matches in a
text. -/
structure RegexEngine (R : Type) where
  compile : List Nat → Option R
  findAll : R → List Nat → List (Nat × Nat)

/-- The loop `for (; iter != end_iter && results.size() < MAX_RESULTS; ++iter)` of
`MemoryHelpers::SearchRegexPattern` over the matches of one buffer. -/
def SearchRegexPattern.matchLoop (start : Nat) (buffer : List Nat) :
    List (Nat × Nat) → List PatternMatch → List PatternMatch
  | [], results => results
  | found :: rest, results =>
    if results.length < MAX_RESULTS then
      SearchRegexPattern.matchLoop start buffer rest (results ++
        [{ address := wrap64 (start + found.1)
           size := found.2
           data := (buffer.drop found.1).take found.2 }])
    else results

/-- The loop over the regions of `MemoryHelpers::SearchRegexPattern`. -/
def SearchRegexPattern.regionLoop {R : Type} (engine : RegexEngine R) (p : TargetProcess)
    (regex : R) (searchStart searchEnd : Nat) :
    List MemoryRegionEx → List PatternMatch → List PatternMatch
  | [], results => results
  | region :: rest, results =>
    let start := if searchStart > 0 then max searchStart region.startAddress
      else region.startAddress
    let end_ := if searchEnd > 0 then min searchEnd region.endAddress else region.endAddress
    if start ≥ end_ then
      SearchRegexPattern.regionLoop engine p regex searchStart searchEnd rest results
    else
      let regionSize := end_ - start
      if regionSize > MAX_SCAN_SIZE then
        SearchRegexPattern.regionLoop engine p regex searchStart searchEnd rest results
      else
        let buffer := ReadMemoryChunk p start regionSize
        if buffer.isEmpty then
          SearchRegexPattern.regionLoop engine p regex searchStart searchEnd rest results
        else
          let results' := SearchRegexPattern.matchLoop start buffer
            (engine.findAll regex buffer) results
          if results'.length ≥ MAX_RESULTS then results'
          else SearchRegexPattern.regionLoop engine p regex searchStart searchEnd rest results'

/-- Embedding of `MemoryHelpers::SearchRegexPattern`: the returned vector. When the
constructor of `std::regex` throws, the `catch` block logs the message and the function
returns its still empty result vector. -/
def SearchRegexPattern {R : Type} (engine : RegexEngine R) (p : TargetProcess)
    (regexPattern : List Nat) (searchStart searchEnd : Nat) : List PatternMatch :=
  match engine.compile regexPattern with
  | none => []
  | some regex =>
    SearchRegexPattern.regionLoop engine p regex searchStart searchEnd
      (GetMemoryRegions p false false) []

structure NumericMatch where
  address : Nat
  dataType : String
  rawData : List Nat
  deriving DecidableEq, Repr

/-- The value of an unsigned number of `bits` bits read as a two's complement integer. -/
def toSigned (bits n : Nat) : Int :=
  if n < 2 ^ (bits - 1) then (n : Int) else (n : Int) - 2 ^ bits

/-- The read `*reinterpret_cast<int32_t*>(&buffer[i])`. -/
def readInt32 (buffer : List Nat) (i : Nat) : Int :=
  toSigned 32 (littleEndian ((buffer.drop i).take 4))

/-- The read `*reinterpret_cast<int64_t*>(&buffer[i])`. -/
def readInt64 (buffer : List Nat) (i : Nat) : Int :=
  toSigned 64 (littleEndian ((buffer.drop i).take 8))

/-- The loop `for (i = 0; i <= buffer.size() - sizeof(int32_t); i += step)` of
`MemoryHelpers::SearchInt32` (the caller has checked `sizeof(int32_t) <= buffer.size()`). -/
def SearchInt32.offsetLoop (start : Nat) (value : Int) (buffer : List Nat) (step : Nat) :
    Nat → Nat → List NumericMatch → List NumericMatch
  | 0, _, results => results
  | fuel + 1, i, results =>
    if i ≤ buffer.length - 4 then
      if readInt32 buffer i == value then
        let results' := results ++
          [{ address := wrap64 (start + i)
             dataType := "int32"
             rawData := (buffer.drop i).take 4 }]
        if results'.length ≥ MAX_RESULTS then results'
        else SearchInt32.offsetLoop start value buffer step fuel (i + step) results'
      else SearchInt32.offsetLoop start value buffer step fuel (i + step) results
    else results

/-- The loop over the regions of `MemoryHelpers::SearchInt32`. -/
def SearchInt32.regionLoop (p : TargetProcess) (value : Int) (searchStart searchEnd : Nat)
    (aligned : Bool) : List MemoryRegionEx → List NumericMatch → List NumericMatch
  | [], results => results
  | region :: rest, results =>
    let start := if searchStart > 0 then max searchStart region.startAddress
      else region.startAddress
    let end_ := if searchEnd > 0 then min searchEnd region.endAddress else region.endAddress
    if start ≥ end_ then SearchInt32.regionLoop p value searchStart searchEnd aligned rest results
    else
      let regionSize := end_ - start
      if regionSize > MAX_SCAN_SIZE then
        SearchInt32.regionLoop p value searchStart searchEnd aligned rest results
      else
        let buffer := ReadMemoryChunk p start regionSize
        if buffer.isEmpty || buffer.length < 4 then
          SearchInt32.regionLoop p value searchStart searchEnd aligned rest results
        else
          let step := if aligned then 4 else 1
          let results' := SearchInt32.offsetLoop start value buffer step
            (buffer.length - 4 + 1) 0 results
          if results'.length ≥ MAX_RESULTS then results'
          else SearchInt32.regionLoop p value searchStart searchEnd aligned rest results'

/-- Embedding of `MemoryHelpers::SearchInt32`. -/
def SearchInt32 (p : TargetProcess) (value : Int) (searchStart searchEnd : Nat)
    (aligned : Bool) : List NumericMatch :=
  SearchInt32.regionLoop p value searchStart searchEnd aligned (GetMemoryRegions p false false) []

/-- The loop `for (i = 0; i <= buffer.size() - sizeof(int64_t); i += step)` of
`MemoryHelpers::SearchInt64` (the caller has checked `sizeof(int64_t) <= buffer.size()`). -/
def SearchInt64.offsetLoop (start : Nat) (value : Int) (buffer : List Nat) (step : Nat) :
    Nat → Nat → List NumericMatch → List NumericMatch
  | 0, _, results => results
  | fuel + 1, i, results =>
    if i ≤ buffer.length - 8 then
      if readInt64 buffer i == value then
        let results' := results ++
          [{ address := wrap64 (start + i)
             dataType := "int64"
             rawData := (buffer.drop i).take 8 }]
        if results'.length ≥ MAX_RESULTS then results'
        else SearchInt64.offsetLoop start value buffer step fuel (i + step) results'
      else SearchInt64.offsetLoop start value buffer step fuel (i + step) results
    else results

/-- The loop over the regions of `MemoryHelpers::SearchInt64`. -/
def SearchInt64.regionLoop (p : TargetProcess) (value : Int) (searchStart searchEnd : Nat)
    (aligned : Bool) : List MemoryRegionEx → List NumericMatch → List NumericMatch
  | [], results => results
  | region :: rest, results =>
    let start := if searchStart > 0 then max searchStart region.startAddress
      else region.startAddress
    let end_ := if searchEnd > 0 then min searchEnd region.endAddress else region.endAddress
    if start ≥ end_ then SearchInt64.regionLoop p value searchStart searchEnd aligned rest results
    else
      let regionSize := end_ - start
      if regionSize > MAX_SCAN_SIZE then
        SearchInt64.regionLoop p value searchStart searchEnd aligned rest results
      else
        let buffer := ReadMemoryChunk p start regionSize
        if buffer.isEmpty || buffer.length < 8 then
          SearchInt64.regionLoop p value searchStart searchEnd aligned rest results
        else
          let step := if aligned then 8 else 1
          let results' := SearchInt64.offsetLoop start value buffer step
            (buffer.length - 8 + 1) 0 results
          if results'.length ≥ MAX_RESULTS then results'
          else SearchInt64.regionLoop p value searchStart searchEnd aligned rest results'

/-- Embedding of `MemoryHelpers::SearchInt64`. -/
def SearchInt64 (p : TargetProcess) (value : Int) (searchStart searchEnd : Nat)
    (aligned : Bool) : List NumericMatch :=
  SearchInt64.regionLoop p value searchStart searchEnd aligned (GetMemoryRegions p false false) []

/-- Embedding of `MemoryHelpers::ScanForCode`. -/
def ScanForCode (p : TargetProcess) (opcodes : List Nat) (searchStart searchEnd : Nat) :
    List PatternMatch :=
  SearchBytePattern p opcodes (List.replicate opcodes.length true) searchStart searchEnd

/-- The table `prologPatterns` of `MemoryHelpers::FindFunctionPrologs`. -/
def prologPatterns : List (List Nat) :=
  [[0x55, 0x8B, 0xEC], [0x48, 0x89, 0x5C, 0x24], [0x48, 0x83, 0xEC], [0x55, 0x48, 0x89, 0xE5]]

/-- The loop `for (const auto& match : matches)` of `MemoryHelpers::FindFunctionPrologs`. -/
def FindFunctionPrologs.matchLoop : List PatternMatch → List Nat → List Nat
  | [], results => results
  | m :: rest, results =>
    let results' := results ++ [m.address]
    if results'.length ≥ MAX_RESULTS then results'
    else FindFunctionPrologs.matchLoop rest results'

/-- The loop `for (const auto& pattern : prologPatterns)` of
`MemoryHelpers::FindFunctionPrologs`. -/
def FindFunctionPrologs.patternLoop (p : TargetProcess) (searchStart searchEnd : Nat) :
    List (List Nat) → List Nat → List Nat
  | [], results => results
  | pattern :: rest, results =>
    let mask := List.replicate pattern.length true
    let found := SearchBytePattern p pattern mask searchStart searchEnd
    let results' := FindFunctionPrologs.matchLoop found results
    if results'.length ≥ MAX_RESULTS then results'
    else FindFunctionPrologs.patternLoop p searchStart searchEnd rest results'

/-- The effect of `results.erase(std::unique(results.begin(), results.end()), results.end())`:
of each run of equal neighbours one element is kept. -/
def eraseUnique : List Nat → List Nat
  | [] => []
  | [a] => [a]
  | a :: b :: rest => if a = b then eraseUnique (b :: rest) else a :: eraseUnique (b :: rest)

/-- Embedding of `MemoryHelpers::FindFunctionPrologs`; `std::sort` is the ascending
rearrangement of the vector. -/
def FindFunctionPrologs (p : TargetProcess) (searchStart searchEnd : Nat) : List Nat :=
  eraseUnique ((FindFunctionPrologs.patternLoop p searchStart searchEnd prologPatterns
    []).insertionSort (· ≤ ·))

/-- The conversion of the `int32_t` displacement with bit pattern `d` to `uintptr_t`. -/
def signExtend32 (d : Nat) : Nat := if d < 2 ^ 31 then d else d + (2 ^ 64 - 2 ^ 32)

/-- The loop `for (i = 0; i < buffer.size() - 5; ++i)` of
`MemoryHelpers::FindCallInstructions`; the bound is computed in `size_t`, and `none` is
returned when `buffer[i]` or the displacement read leaves the buffer. -/
def FindCallInstructions.offsetLoop (start targetAddress : Nat) (buffer : List Nat) :
    Nat → Nat → List Nat → Option (List Nat)
  | 0, _, results => some results
  | fuel + 1, i, results =>
    if i < usub64 buffer.length 5 then
      if i ≥ buffer.length then none
      else if buffer.getD i 0 == 0xE8 then
        if i + 5 > buffer.length then none
        else
          let offset := littleEndian ((buffer.drop (i + 1)).take 4)
          let callTarget := wrap64 (start + i + 5 + signExtend32 offset)
          if callTarget == targetAddress then
            let results' := results ++ [wrap64 (start + i)]
            if results'.length ≥ MAX_RESULTS then some results'
            else FindCallInstructions.offsetLoop start targetAddress buffer fuel (i + 1)
              results'
          else FindCallInstructions.offsetLoop start targetAddress buffer fuel (i + 1) results
      else FindCallInstructions.offsetLoop start targetAddress buffer fuel (i + 1) results
    else some results

/-- The loop over the regions of `MemoryHelpers::FindCallInstructions`. -/
def FindCallInstructions.regionLoop (p : TargetProcess)
    (targetAddress searchStart searchEnd : Nat) :
    List MemoryRegionEx → List Nat → Option (List Nat)
  | [], results => some results
  | region :: rest, results =>
    let start := if searchStart > 0 then max searchStart region.startAddress
      else region.startAddress
    let end_ := if searchEnd > 0 then min searchEnd region.endAddress else region.endAddress
    if start ≥ end_ then
      FindCallInstructions.regionLoop p targetAddress searchStart searchEnd rest results
    else
      let regionSize := end_ - start
      if regionSize > MAX_SCAN_SIZE then
        FindCallInstructions.regionLoop p targetAddress searchStart searchEnd rest results
      else
        let buffer := ReadMemoryChunk p start regionSize
        if buffer.isEmpty then
          FindCallInstructions.regionLoop p targetAddress searchStart searchEnd rest results
        else
          (FindCallInstructions.offsetLoop start targetAddress buffer (buffer.length + 1) 0
            results).bind fun results' =>
              if results'.length ≥ MAX_RESULTS then some results'
              else FindCallInstructions.regionLoop p targetAddress searchStart searchEnd rest
                results'

/-- Embedding of `MemoryHelpers::FindCallInstructions`. -/
def FindCallInstructions (p : TargetProcess) (targetAddress searchStart searchEnd : Nat) :
    Option (List Nat) :=
  FindCallInstructions.regionLoop p targetAddress searchStart searchEnd
    (GetMemoryRegions p true false) []

/-- The loop `for (i = 0; i < buffer1.size(); ++i)` of `MemoryHelpers::CompareMemoryRegions`
(both buffers have the same size). -/
def CompareMemoryRegions.diffLoop (region1Start : Nat) (buffer1 buffer2 : List Nat) :
    Nat → Nat → List Nat → List Nat
  | 0, _, differences => differences
  | fuel + 1, i, differences =>
    if i < buffer1.length then
      if buffer1.getD i 0 != buffer2.getD i 0 then
        let differences' := differences ++ [wrap64 (region1Start + i)]
        if differences'.length ≥ MAX_RESULTS then differences'
        else CompareMemoryRegions.diffLoop region1Start buffer1 buffer2 fuel (i + 1)
          differences'
      else CompareMemoryRegions.diffLoop region1Start buffer1 buffer2 fuel (i + 1) differences
    else differences

/-- Embedding of `MemoryHelpers::CompareMemoryRegions`: the returned vector. The two
exceptions thrown inside the `try` block are caught there, and the function then returns its
still empty vector. -/
def CompareMemoryRegions (p : TargetProcess) (region1Start region2Start size : Nat) :
    List Nat :=
  if size > MAX_SCAN_SIZE then []
  else
    let buffer1 := ReadMemoryChunk p region1Start size
    let buffer2 := ReadMemoryChunk p region2Start size
    if buffer1.length != buffer2.length then []
    else CompareMemoryRegions.diffLoop region1Start buffer1 buffer2 buffer1.length 0 []

/-- The loop `while (iss >> byteStr)` of `MemoryHelpers::ParseBytePattern` over the extracted
tokens: a wildcard token pushes the placeholder 0, a token that `std::stoul` converts pushes
the value cast to `uint8_t`, and a token on which `std::stoul` throws is skipped. -/
def ParseBytePattern.loop : List (List Char) → List Nat → List Nat
  | [], bytes => bytes
  | byteStr :: rest, bytes =>
    if byteStr = ['?'] ∨ byteStr = ['?', '?'] then ParseBytePattern.loop rest (bytes ++ [0x00])
    else
      match stoul16 byteStr with
      | some byte => ParseBytePattern.loop rest (bytes ++ [byte % 256])
      | none => ParseBytePattern.loop rest bytes

/-- Embedding of `MemoryHelpers::ParseBytePattern`. -/
def ParseBytePattern (pattern : List Char) : List Nat :=
  ParseBytePattern.loop (extractTokens pattern) []

/-- The loop `while (iss >> byteStr)` of `MemoryHelpers::ParsePatternMask`. -/
def ParsePatternMask.loop : List (List Char) → List Bool → List Bool
  | [], mask => mask
  | byteStr :: rest, mask =>
    if byteStr = ['?'] ∨ byteStr = ['?', '?'] then ParsePatternMask.loop rest (mask ++ [false])
    else ParsePatternMask.loop rest (mask ++ [true])

/-- Embedding of `MemoryHelpers::ParsePatternMask`. -/
def ParsePatternMask (pattern : List Char) : List Bool :=
  ParsePatternMask.loop (extractTokens pattern) []

/-- The loop `while ((address & (alignment - 1)) == 0 && alignment <= 4096) alignment <<= 1;`
of `MemoryHelpers::GetAlignment`, on `size_t` values; `none` when the iterations allowed by
the first argument do not reach the exit. -/
def GetAlignment.loop (address : Nat) : Nat → Nat → Option Nat
  | 0, _ => none
  | fuel + 1, alignment =>
    if (address &&& usub64 alignment 1) == 0 && decide (alignment ≤ 4096) then
      GetAlignment.loop address fuel (wrap64 (alignment <<< 1))
    else some alignment

/-- Embedding of `MemoryHelpers::GetAlignment`; the loop is given 64 iterations, one for each
bit of `size_t`, and the result is `none` if it has not ended by then. -/
def GetAlignment (address : Nat) : Option Nat :=
  if address == 0 then some 0
  else (GetAlignment.loop address 64 1).map fun alignment => alignment >>> 1

end MemoryHelpers

/-! ## `memory_scanner.cpp` -/

/-- The record `MemoryRegion` of the scanner. -/
structure MemoryRegion where
  baseAddress : Nat
  size : Nat
  protection : Nat
  state : Nat
  type : Nat
  deriving DecidableEq, Repr

namespace MemoryScanner

def CHUNK_SIZE : Nat := 4096
def MAX_SCAN_SIZE : Nat := 100 * 1024 * 1024

/-- The `while` loop of `MemoryScanner::getMemoryRegions`, from `address` on. -/
def getMemoryRegions.loop (p : TargetProcess) : Nat → Nat → List MemoryRegion
  | 0, _ => []
  | fuel + 1, address =>
    match VirtualQueryEx p address with
    | none => []
    | some mbi =>
      { baseAddress := mbi.BaseAddress
        size := mbi.RegionSize
        protection := mbi.Protect
        state := mbi.State
        type := mbi.Type_ } ::
        getMemoryRegions.loop p fuel (wrap64 (mbi.BaseAddress + mbi.RegionSize))

/-- Embedding of `MemoryScanner::getMemoryRegions`. -/
def getMemoryRegions (p : TargetProcess) : List MemoryRegion :=
  if !ProcessManager.isProcessAttached p then []
  else getMemoryRegions.loop p p.layout.length 0

/-- The comparison loop over `j` inside `MemoryScanner::scanMemoryRegion`: does the pattern
match the chunk buffer at offset `i`? -/
def scanMemoryRegion.matchAt (buffer pattern : List Nat) (mask : List Bool) (i : Nat) : Bool :=
  (List.range pattern.length).all fun j =>
    !(mask.getD j false && buffer.getD (i + j) 0 != pattern.getD j 0)

/-- The loop `for (i = 0; i < searchEnd; ++i)` over one chunk; the flag tells whether the
function has returned on reaching the result limit. -/
def scanMemoryRegion.searchLoop (currentAddress : Nat) (buffer pattern : List Nat)
    (mask : List Bool) (searchEnd : Nat) : Nat → Nat → List Nat → List Nat × Bool
  | 0, _, results => (results, false)
  | fuel + 1, i, results =>
    if i < searchEnd then
      if scanMemoryRegion.matchAt buffer pattern mask i then
        let results' := results ++ [wrap64 (currentAddress + i)]
        if results'.length ≥ 10000 then (results', true)
        else scanMemoryRegion.searchLoop currentAddress buffer pattern mask searchEnd
          fuel (i + 1) results'
      else scanMemoryRegion.searchLoop currentAddress buffer pattern mask searchEnd
        fuel (i + 1) results
    else (results, false)

/-- The loop `for (offset = 0; offset < size; offset += CHUNK_SIZE)` of
`MemoryScanner::scanMemoryRegion`. -/
def scanMemoryRegion.chunkLoop (p : TargetProcess) (startAddress size : Nat)
    (pattern : List Nat) (mask : List Bool) : Nat → Nat → List Nat → List Nat
  | 0, _, results => results
  | fuel + 1, offset, results =>
    if offset < size then
      let readSize := min CHUNK_SIZE (size - offset)
      let currentAddress := wrap64 (startAddress + offset)
      if !ErrorHandler.isAddressAccessible p currentAddress readSize then
        scanMemoryRegion.chunkLoop p startAddress size pattern mask fuel
          (offset + CHUNK_SIZE) results
      else
        match ProcessManager.readMemory p currentAddress readSize with
        | some buffer =>
          let searchEnd := if readSize ≥ pattern.length then readSize - pattern.length + 1 else 0
          let scanned := scanMemoryRegion.searchLoop currentAddress buffer pattern mask
            searchEnd searchEnd 0 results
          if scanned.2 then scanned.1
          else scanMemoryRegion.chunkLoop p startAddress size pattern mask fuel
            (offset + CHUNK_SIZE) scanned.1
        | none =>
          scanMemoryRegion.chunkLoop p startAddress size pattern mask fuel
            (offset + CHUNK_SIZE) results
    else results

/-- Embedding of `MemoryScanner::scanMemoryRegion`: the returned flag and the result vector afterwards. -/
def scanMemoryRegion (p : TargetProcess) (startAddress size : Nat) (pattern : List Nat)
    (mask : List Bool) (results : List Nat) : Bool × List Nat :=
  if !ProcessManager.isProcessAttached p then (false, results)
  else if pattern.isEmpty || mask.length != pattern.length then (false, results)
  else
    let size := if size > MAX_SCAN_SIZE then MAX_SCAN_SIZE else size
    (true, scanMemoryRegion.chunkLoop p startAddress size pattern mask
      (size / CHUNK_SIZE + 1) 0 results)

/-- The loop over the regions of `MemoryScanner::scanForBytes`. -/
def scanForBytes.regionLoop (p : TargetProcess) (bytes : List Nat) (mask : List Bool) :
    List MemoryRegion → List Nat → List Nat
  | [], results => results
  | region :: rest, results =>
    if region.state == MEM_COMMIT && (region.protection &&& PAGE_GUARD) == 0
        && (region.protection &&& PAGE_NOACCESS) == 0 then
      scanForBytes.regionLoop p bytes mask rest
        (scanMemoryRegion p region.baseAddress region.size bytes mask results).2
    else scanForBytes.regionLoop p bytes mask rest results

/-- Embedding of `MemoryScanner::scanForBytes`. -/
def scanForBytes (p : TargetProcess) (bytes : List Nat) : List Nat :=
  if !ProcessManager.isProcessAttached p then []
  else scanForBytes.regionLoop p bytes (List.replicate bytes.length true)
    (getMemoryRegions p) []

/-- Embedding of `MemoryScanner::scanForString` (the characters of `text` as bytes). -/
def scanForString (p : TargetProcess) (text : List Nat) (caseSensitive : Bool) : List Nat :=
  let searchText := if !caseSensitive then text.map MemoryHelpers.tolower else text
  scanForBytes p searchText

/-- Embedding of `MemoryScanner::getExecutableRegions`. -/
def getExecutableRegions (p : TargetProcess) : List MemoryRegion :=
  (getMemoryRegions p).filter fun region =>
    region.protection &&& (PAGE_EXECUTE ||| PAGE_EXECUTE_READ ||| PAGE_EXECUTE_READWRITE |||
      PAGE_EXECUTE_WRITECOPY) != 0

/-- Embedding of `MemoryScanner::getWritableRegions`. -/
def getWritableRegions (p : TargetProcess) : List MemoryRegion :=
  (getMemoryRegions p).filter fun region =>
    region.protection &&& (PAGE_READWRITE ||| PAGE_EXECUTE_READWRITE ||| PAGE_WRITECOPY |||
      PAGE_EXECUTE_WRITECOPY) != 0

/-- The lowercase hexadecimal digit of a value below 16. -/
def lowerHexDigit (d : Nat) : Char :=
  if d < 10 then Char.ofNat ('0'.toNat + d) else Char.ofNat ('a'.toNat + (d - 10))

/-- Embedding of `MemoryScanner::bytesToHexString`: with `std::hex`, fill character `0` and
width 2, each `BYTE` (a value below 256) is written as two lowercase digits, then a space. -/
def bytesToHexString (bytes : List Nat) : List Char :=
  (bytes.map fun b => [lowerHexDigit (b / 16), lowerHexDigit (b % 16), ' ']).flatten

/-- The loop `while (ss >> byteString)` of `MemoryScanner::hexStringToBytes` over the
extracted tokens; `none` when `std::stoi` throws (the exception leaves the function). -/
def hexStringToBytes.loop : List (List Char) → List Nat → Option (List Nat)
  | [], bytes => some bytes
  | byteString :: rest, bytes =>
    if byteString.length == 2 then
      match stoi16 byteString with
      | none => none
      | some value => hexStringToBytes.loop rest (bytes ++ [(value % 256).toNat])
    else hexStringToBytes.loop rest bytes

/-- Embedding of `MemoryScanner::hexStringToBytes`. -/
def hexStringToBytes (hexString : List Char) : Option (List Nat) :=
  hexStringToBytes.loop (extractTokens hexString) []

end MemoryScanner

/-! ## Specification-side functions and concrete inputs

The functions below are not part of the sources. They describe what a loop collects when
no limit interferes, and they fix the concrete processes used by the closed theorems. -/

namespace MemoryHelpers

/-- The match record pushed by `SearchBytePattern` for offset `i`. -/
def patternMatchAt (start : Nat) (buffer : List Nat) (size i : Nat) : PatternMatch :=
  { address := wrap64 (start + i), size := size, data := (buffer.drop i).take size }

/-- The matches of one region by ascending offset, without any limit on their number. -/
def SearchBytePattern.regionMatches (p : TargetProcess) (pattern : List Nat) (mask : List Bool)
    (searchStart searchEnd : Nat) (region : MemoryRegionEx) : List PatternMatch :=
  let start := if searchStart > 0 then max searchStart region.startAddress
    else region.startAddress
  let end_ := if searchEnd > 0 then min searchEnd region.endAddress else region.endAddress
  if start ≥ end_ then []
  else if end_ - start > MAX_SCAN_SIZE then []
  else
    let buffer := ReadMemoryChunk p start (end_ - start)
    if buffer.isEmpty || buffer.length < pattern.length then []
    else
      ((List.range (buffer.length - pattern.length + 1)).filter fun i =>
        MatchesPattern (buffer.drop i) pattern mask).map
        (patternMatchAt start buffer pattern.length)

/-- Every match of the request in scan order (regions in enumeration order, offsets
ascending), without any limit on their number. -/
def SearchBytePattern.allMatches (p : TargetProcess) (pattern : List Nat) (mask : List Bool)
    (searchStart searchEnd : Nat) : List PatternMatch :=
  if pattern.isEmpty || mask.length != pattern.length then []
  else ((GetMemoryRegions p false false).map
    (SearchBytePattern.regionMatches p pattern mask searchStart searchEnd)).flatten

/-- Layout with one committed read-write region of `MAX_SCAN_SIZE + 4096` bytes at 0x10000. -/
def oversizeLayout : List MEMORY_BASIC_INFORMATION :=
  [ { BaseAddress := 0, RegionSize := 0x10000, State := 0x10000, Protect := PAGE_NOACCESS,
      Type_ := 0 },
    { BaseAddress := 0x10000, RegionSize := MAX_SCAN_SIZE + 0x1000, State := MEM_COMMIT,
      Protect := PAGE_READWRITE, Type_ := 0x20000 } ]

/-- A process whose only committed region is larger than `MAX_SCAN_SIZE`, every byte 0x90. -/
def oversizeProcess : TargetProcess := TargetProcess.ofMemory oversizeLayout fun _ => 0x90

end MemoryHelpers

namespace MemoryScanner

/-- The matches of the chunk at `offset` by ascending address, without any limit. -/
def scanMemoryRegion.chunkMatches (p : TargetProcess) (startAddress size : Nat)
    (pattern : List Nat) (mask : List Bool) (offset : Nat) : List Nat :=
  let readSize := min CHUNK_SIZE (size - offset)
  let currentAddress := wrap64 (startAddress + offset)
  if !ErrorHandler.isAddressAccessible p currentAddress readSize then []
  else
    match ProcessManager.readMemory p currentAddress readSize with
    | some buffer =>
      let searchEnd := if readSize ≥ pattern.length then readSize - pattern.length + 1 else 0
      ((List.range searchEnd).filter (scanMemoryRegion.matchAt buffer pattern mask)).map
        fun i => wrap64 (currentAddress + i)
    | none => []

/-- The matches of the chunks at `offset`, `offset + CHUNK_SIZE`, ... below `size`
(at most `fuel` chunks), without any limit. -/
def scanMemoryRegion.matchesFrom (p : TargetProcess) (startAddress size : Nat)
    (pattern : List Nat) (mask : List Bool) : Nat → Nat → List Nat
  | 0, _ => []
  | fuel + 1, offset =>
    if offset < size then
      scanMemoryRegion.chunkMatches p startAddress size pattern mask offset ++
        scanMemoryRegion.matchesFrom p startAddress size pattern mask fuel (offset + CHUNK_SIZE)
    else []

/-- How many further pushes `scanMemoryRegion` makes at most when it starts with `len`
results: it returns right after the push that brings the vector to 10000 or more. -/
def scanMemoryRegion.room (len : Nat) : Nat := max 1 (10000 - len)

/-- Layout with one committed read-write region of two chunks at 0x10000. -/
def chunkBoundaryLayout : List MEMORY_BASIC_INFORMATION :=
  [ { BaseAddress := 0, RegionSize := 0x10000, State := 0x10000, Protect := PAGE_NOACCESS,
      Type_ := 0 },
    { BaseAddress := 0x10000, RegionSize := 0x2000, State := MEM_COMMIT,
      Protect := PAGE_READWRITE, Type_ := 0x20000 } ]

/-- Memory holding the bytes DE AD at 0x10FFF and 0x11000, across the chunk boundary. -/
def chunkBoundaryMemory : Nat → Nat := fun a =>
  if a = 0x10FFF then 0xDE else if a = 0x11000 then 0xAD else 0

def chunkBoundaryProcess : TargetProcess :=
  TargetProcess.ofMemory chunkBoundaryLayout chunkBoundaryMemory

/-- Layout with two committed regions: three chunks at 0x10000, one chunk at 0x13000. -/
def capLayout : List MEMORY_BASIC_INFORMATION :=
  [ { BaseAddress := 0, RegionSize := 0x10000, State := 0x10000, Protect := PAGE_NOACCESS,
      Type_ := 0 },
    { BaseAddress := 0x10000, RegionSize := 0x3000, State := MEM_COMMIT,
      Protect := PAGE_READWRITE, Type_ := 0x20000 },
    { BaseAddress := 0x13000, RegionSize := 0x1000, State := MEM_COMMIT,
      Protect := PAGE_READONLY, Type_ := 0x20000 } ]

/-- A process with the layout `capLayout` in which every byte is 0x41. -/
def capProcess : TargetProcess := TargetProcess.ofMemory capLayout fun _ => 0x41

/-- The ASCII bytes of `SECRETVALUE`. -/
def secretBytes : List Nat := [0x53, 0x45, 0x43, 0x52, 0x45, 0x54, 0x56, 0x41, 0x4C, 0x55, 0x45]

/-- The ASCII bytes of `secretvalue`. -/
def secretBytesLower : List Nat :=
  [0x73, 0x65, 0x63, 0x72, 0x65, 0x74, 0x76, 0x61, 0x6C, 0x75, 0x65]

/-- Layout with one committed read-write region of one chunk at 0x10000. -/
def secretLayout : List MEMORY_BASIC_INFORMATION :=
  [ { BaseAddress := 0, RegionSize := 0x10000, State := 0x10000, Protect := PAGE_NOACCESS,
      Type_ := 0 },
    { BaseAddress := 0x10000, RegionSize := 0x1000, State := MEM_COMMIT,
      Protect := PAGE_READWRITE, Type_ := 0x20000 } ]

/-- Memory that holds `SECRETVALUE` at 0x10100 and zero everywhere else. -/
def secretMemory : Nat → Nat := fun a =>
  if 0x10100 ≤ a ∧ a < 0x1010B then secretBytes.getD (a - 0x10100) 0 else 0

def secretProcess : TargetProcess := TargetProcess.ofMemory secretLayout secretMemory

end MemoryScanner

namespace ErrorHandler

/-- Layout with one committed read-write region of 0x10000 bytes at 0x10000. -/
def wrapLayout : List MEMORY_BASIC_INFORMATION :=
  [ { BaseAddress := 0, RegionSize := 0x10000, State := 0x10000, Protect := PAGE_NOACCESS,
      Type_ := 0 },
    { BaseAddress := 0x10000, RegionSize := 0x10000, State := MEM_COMMIT,
      Protect := PAGE_READWRITE, Type_ := 0x20000 } ]

def wrapProcess : TargetProcess := TargetProcess.ofMemory wrapLayout fun _ => 0

end ErrorHandler

namespace MemoryHelpers

/-- Layout with one committed read-write page at 0x10000. -/
def selfPointerLayout : List MEMORY_BASIC_INFORMATION :=
  [ { BaseAddress := 0, RegionSize := 0x10000, State := 0x10000, Protect := PAGE_NOACCESS,
      Type_ := 0 },
    { BaseAddress := 0x10000, RegionSize := 0x1000, State := MEM_COMMIT,
      Protect := PAGE_READWRITE, Type_ := 0x20000 } ]

/-- Memory whose pointer slot at 0x10000 holds 0x10000 (bytes 00 00 01 00 00 00 00 00), all
other bytes zero: the slot points to itself, like the head of an empty circular list. -/
def selfPointerMemory : Nat → Nat := fun a => if a = 0x10002 then 1 else 0

def selfPointerProcess : TargetProcess :=
  TargetProcess.ofMemory selfPointerLayout selfPointerMemory

/-- The length of the result vector after the depth loop of `FindPointerChain` when every
depth doubles it, started at depth `depth` with `n` entries. -/
def doublingLength (maxDepth : Int) : Nat → Nat → Nat → Nat
  | 0, _, n => n
  | fuel + 1, depth, n =>
    if (depth : Int) < maxDepth then
      if n + n ≥ MAX_RESULTS then n + n else doublingLength maxDepth fuel (depth + 1) (n + n)
    else n

end MemoryHelpers

/-! ## Capped collection over stepped offsets -/

/-- The common shape of the scan loops: the offsets `i, i + step, ...` below `limit` are
tested in turn, `mk k` is pushed for each offset `k` that passes `test`, and the loop is left
as soon as the vector holds `cap` entries. -/
def cappedCollect {α : Type} (limit step cap : Nat) (test : Nat → Bool) (mk : Nat → α) :
    Nat → Nat → List α → List α
  | 0, _, results => results
  | fuel + 1, i, results =>
    if i < limit then
      if test i then
        let results' := results ++ [mk i]
        if results'.length ≥ cap then results'
        else cappedCollect limit step cap test mk fuel (i + step) results'
      else cappedCollect limit step cap test mk fuel (i + step) results
    else results

namespace MemoryHelpers

/-- The pointer slots of one region that hold `targetAddress`, by ascending offset, without
any limit on their number. -/
def FindPointersTo.regionMatches (p : TargetProcess) (targetAddress searchStart searchEnd : Nat)
    (region : MemoryRegionEx) : List PointerResult :=
  let start := if searchStart > 0 then max searchStart region.startAddress
    else region.startAddress
  let end_ := if searchEnd > 0 then min searchEnd region.endAddress else region.endAddress
  if start ≥ end_ then []
  else if end_ - start > MAX_SCAN_SIZE then []
  else
    let buffer := ReadMemoryChunk p start (end_ - start)
    if buffer.length < 8 then []
    else
      ((List.range (buffer.length - 8 + 1)).filter fun k =>
        decide (k % 8 = 0) && readPointer buffer k == targetAddress).map
        fun k => { address := wrap64 (start + k), pointsTo := targetAddress, offset := 0 }

/-- A pointer slot that the unbounded scans fetch: `address` lies in an enumerated region of
at most `MAX_SCAN_SIZE` bytes, at an offset that is a multiple of 8 from the base of the
region (regions start at page boundaries, so this is pointer alignment), all 8 bytes are in
the buffer read for the region, and they hold `value`. -/
def PointerSlot (p : TargetProcess) (address value : Nat) : Prop :=
  ∃ region ∈ GetMemoryRegions p false false,
    region.startAddress < region.endAddress ∧
    region.endAddress - region.startAddress ≤ MAX_SCAN_SIZE ∧
    ∃ i, i % 8 = 0 ∧
      i + 8 ≤ (ReadMemoryChunk p region.startAddress
        (region.endAddress - region.startAddress)).length ∧
      address = wrap64 (region.startAddress + i) ∧
      readPointer (ReadMemoryChunk p region.startAddress
        (region.endAddress - region.startAddress)) i = value

/-- Layout with one committed page at 0x10000 of protection `protect`, after a free block. -/
def pageLayout (protect : Nat) : List MEMORY_BASIC_INFORMATION :=
  [ { BaseAddress := 0, RegionSize := 0x10000, State := 0x10000, Protect := PAGE_NOACCESS,
      Type_ := 0 },
    { BaseAddress := 0x10000, RegionSize := 0x1000, State := MEM_COMMIT,
      Protect := protect, Type_ := 0x20000 } ]

/-- Memory in which the 8 bytes at 0x10004 and the aligned pointer slot at 0x10010 both hold
the value 0x10000 (the byte 01 at 0x10006 and at 0x10012), all other bytes zero. -/
def strideMemory : Nat → Nat := fun a =>
  if a = 0x10006 then 1 else if a = 0x10012 then 1 else 0

def strideProcess : TargetProcess :=
  TargetProcess.ofMemory (pageLayout PAGE_READWRITE) strideMemory

/-- Memory whose last five bytes of the page at 0x10000 are `E8 00 F0 FF FF`: a near call at
0x10FFB with displacement -0x1000, whose target is 0x10FFB + 5 - 0x1000 = 0x10000. -/
def lastCallMemory : Nat → Nat := fun a =>
  if a = 0x10FFB then 0xE8 else if a = 0x10FFC then 0 else if a = 0x10FFD then 0xF0
  else if a = 0x10FFE then 0xFF else if a = 0x10FFF then 0xFF else 0

def lastCallProcess : TargetProcess :=
  TargetProcess.ofMemory (pageLayout PAGE_EXECUTE_READ) lastCallMemory

/-- Memory holding the bytes `55 8B EC` at 0x10010, all other bytes zero. -/
def dataPageMemory : Nat → Nat := fun a =>
  if a = 0x10010 then 0x55 else if a = 0x10011 then 0x8B else if a = 0x10012 then 0xEC else 0

/-- A process whose only committed page is a read-write data page (no execute flag). -/
def dataPageProcess : TargetProcess :=
  TargetProcess.ofMemory (pageLayout PAGE_READWRITE) dataPageMemory

/-- The test for an execute flag, `protection & (PAGE_EXECUTE | PAGE_EXECUTE_READ |
PAGE_EXECUTE_READWRITE | PAGE_EXECUTE_WRITECOPY)`, as in `MemoryScanner::getExecutableRegions`. -/
def hasExecuteFlag (protection : Nat) : Bool :=
  protection &&& (PAGE_EXECUTE ||| PAGE_EXECUTE_READ ||| PAGE_EXECUTE_READWRITE |||
    PAGE_EXECUTE_WRITECOPY) != 0

/-- A small regular-expression engine for concrete inputs: a text compiles when it has as
many `(` as `)` and then stands for itself, and it matches where it occurs literally. On the
texts `(` (a `std::regex_error`) and `Z` it agrees with `std::regex`. -/
def literalEngine : RegexEngine (List Nat) where
  compile := fun text => if text.count 0x28 = text.count 0x29 then some text else none
  findAll := fun regex text =>
    if regex.isEmpty then []
    else ((List.range (text.length - regex.length + 1)).filter fun i =>
      (text.drop i).take regex.length == regex).map fun i => (i, regex.length)

/-- The `width` bytes of the little-endian encoding of `n`, lowest byte first. -/
def encodeLE : Nat → Nat → List Nat
  | 0, _ => []
  | width + 1, n => n % 256 :: encodeLE width (n / 256)

/-- Every pointer slot of the unbounded scan that holds `targetAddress`, in scan order
(regions in enumeration order, offsets ascending), without any limit on their number. -/
def FindPointersTo.allMatches (p : TargetProcess) (targetAddress : Nat) : List PointerResult :=
  ((GetMemoryRegions p false false).map
    (FindPointersTo.regionMatches p targetAddress 0 0)).flatten

/-- The reads of the enumerated regions transfer nothing or at least one whole pointer slot,
so that the slot loop of the unbounded pointer scan stays inside the fetched buffer. -/
def WholeSlotReads (p : TargetProcess) : Prop :=
  ∀ region ∈ GetMemoryRegions p false false,
    ReadMemoryChunk p region.startAddress (region.endAddress - region.startAddress) = [] ∨
      8 ≤ (ReadMemoryChunk p region.startAddress
        (region.endAddress - region.startAddress)).length

/-- Memory of a two-link chain: the slot at 0x10008 holds 0x10000 (byte 01 at 0x1000A) and
the slot at 0x10010 holds 0x10008 (byte 08 at 0x10010, byte 01 at 0x10012); all other bytes
are zero. -/
def chainMemory : Nat → Nat := fun a =>
  if a = 0x1000A then 1 else if a = 0x10010 then 8 else if a = 0x10012 then 1 else 0

def chainProcess : TargetProcess :=
  TargetProcess.ofMemory (pageLayout PAGE_READWRITE) chainMemory

end MemoryHelpers

namespace MemoryHelpers

/-- Layout of a mapped image with copy-on-write pages: a committed page at 0x10000 of
protection `PAGE_EXECUTE_WRITECOPY` and a committed page at 0x11000 of protection
`PAGE_WRITECOPY`, after a free block. -/
def copyOnWriteLayout : List MEMORY_BASIC_INFORMATION :=
  [ { BaseAddress := 0, RegionSize := 0x10000, State := 0x10000, Protect := PAGE_NOACCESS,
      Type_ := 0 },
    { BaseAddress := 0x10000, RegionSize := 0x1000, State := MEM_COMMIT,
      Protect := PAGE_EXECUTE_WRITECOPY, Type_ := 0x1000000 },
    { BaseAddress := 0x11000, RegionSize := 0x1000, State := MEM_COMMIT,
      Protect := PAGE_WRITECOPY, Type_ := 0x1000000 } ]

def copyOnWriteProcess : TargetProcess := TargetProcess.ofMemory copyOnWriteLayout fun _ => 0

/-- Memory with the call opcode `E8` at 0x10FFD, three bytes before the end of the page at
0x10000; all other bytes are zero. -/
def shortCallMemory : Nat → Nat := fun a => if a = 0x10FFD then 0xE8 else 0

def shortCallProcess : TargetProcess :=
  TargetProcess.ofMemory (pageLayout PAGE_EXECUTE_READ) shortCallMemory

end MemoryHelpers

/-! ## Pattern texts and hexadecimal tokens -/

/-- The hexadecimal digits. -/
def hexChars : List Char := "0123456789abcdefABCDEF".toList

/-- The wildcard tokens `?` and `??` of a pattern text. -/
def isWildcardToken (token : List Char) : Bool :=
  decide (token = ['?'] ∨ token = ['?', '?'])

/-- A token of one or two hexadecimal digits. -/
def isHexByteToken : List Char → Bool
  | [c] => decide (c ∈ hexChars)
  | [c, d] => decide (c ∈ hexChars) && decide (d ∈ hexChars)
  | _ => false

/-- The value of a token of hexadecimal digits read as a hexadecimal number. -/
def hexTokenValue (token : List Char) : Nat :=
  token.foldl (fun acc c => 16 * acc + (hexDigitValue c).getD 0) 0

/-- The byte that a token of a pattern text stands for: 0 for a wildcard, otherwise its
hexadecimal value. -/
def patternByte (token : List Char) : Nat :=
  if isWildcardToken token then 0x00 else hexTokenValue token

/-- The mask entry that a token of a pattern text stands for: `false` for a wildcard. -/
def patternMaskBit (token : List Char) : Bool := !isWildcardToken token

namespace MemoryHelpers

/-- The call sites of one executable region that resolve to `targetAddress`, by ascending
offset, without any limit on their number: the offsets `i` of the fetched buffer with
`i + 5 < |buffer|` that hold the opcode `E8` followed by a displacement leading to the
target. -/
def FindCallInstructions.regionSites (p : TargetProcess)
    (targetAddress searchStart searchEnd : Nat) (region : MemoryRegionEx) : List Nat :=
  let start := if searchStart > 0 then max searchStart region.startAddress
    else region.startAddress
  let end_ := if searchEnd > 0 then min searchEnd region.endAddress else region.endAddress
  if start ≥ end_ then []
  else if end_ - start > MAX_SCAN_SIZE then []
  else
    let buffer := ReadMemoryChunk p start (end_ - start)
    if buffer.length < 5 then []
    else
      ((List.range (buffer.length - 5)).filter fun i =>
        buffer.getD i 0 == 0xE8 &&
          wrap64 (start + i + 5 + signExtend32 (littleEndian ((buffer.drop (i + 1)).take 4)))
            == targetAddress).map fun i => wrap64 (start + i)

/-- A call site to `targetAddress` inside the caller bound: `s` lies in a committed region
with an execute flag that `GetMemoryRegions` enumerates, the five bytes from `s` on lie inside
the bound and inside the buffer fetched for the region, the first of them is `E8`, and
`s + 5 + d = targetAddress` modulo `2 ^ 64` for the sign-extended little-endian displacement
`d` in the other four. -/
def CallSite (p : TargetProcess) (targetAddress searchStart searchEnd s : Nat) : Prop :=
  ∃ region ∈ GetMemoryRegions p true false,
    (∃ mbi ∈ p.layout, mbi.State = MEM_COMMIT ∧ mbi.BaseAddress = region.startAddress ∧
      mbi.Protect = region.protection) ∧
    region.protection &&& (PAGE_EXECUTE ||| PAGE_EXECUTE_READ ||| PAGE_EXECUTE_READWRITE) ≠ 0 ∧
    ∃ start end_ i,
      start = (if searchStart > 0 then max searchStart region.startAddress
        else region.startAddress) ∧
      end_ = (if searchEnd > 0 then min searchEnd region.endAddress else region.endAddress) ∧
      s = start + i ∧ s + 5 ≤ end_ ∧
      i + 5 ≤ (ReadMemoryChunk p start (end_ - start)).length ∧
      (ReadMemoryChunk p start (end_ - start)).getD i 0 = 0xE8 ∧
      wrap64 (s + 5 + signExtend32 (littleEndian
        (((ReadMemoryChunk p start (end_ - start)).drop (i + 1)).take 4))) = targetAddress

/-- Memory with the call `E8 01 F0 FF FF` at 0x10FFA (displacement -0xFFF, target
0x10FFA + 5 - 0xFFF = 0x10000); all other bytes are zero. -/
def callMemory : Nat → Nat := fun a =>
  if a = 0x10FFA then 0xE8 else if a = 0x10FFB then 1 else if a = 0x10FFC then 0xF0
  else if a = 0x10FFD then 0xFF else if a = 0x10FFE then 0xFF else 0

def callProcess : TargetProcess :=
  TargetProcess.ofMemory (pageLayout PAGE_EXECUTE_READ) callMemory

end MemoryHelpers

namespace MemoryHelpers

/-- The addresses that the direct scan `FindPointersTo(target)` over the unbounded range
reports, in its order (none when the scan reads outside a buffer). -/
def pointerAddresses (p : TargetProcess) (target : Nat) : List Nat :=
  match FindPointersTo p target 0 0 with
  | none => []
  | some found => found.map fun r => r.address

/-- The concatenation over `x` in `targets` of the addresses that `FindPointersTo(x)`
reports. -/
def pointersToAll (p : TargetProcess) (targets : List Nat) : List Nat :=
  (targets.map (pointerAddresses p)).flatten

end MemoryHelpers

/-! ## Theorems -/

namespace MemoryHelpers

/-! ### `MemoryHelpers::MatchesPattern` and the capped loops of the pattern searches -/

theorem getD_drop_nat (l : List Nat) (i j : Nat) : (l.drop i).getD j 0 = l.getD (i + j) 0 := by
  simp [List.getD_eq_getElem?_getD, List.getElem?_drop]

theorem take_eq_iff_getD (data p : List Nat) (h : p.length ≤ data.length) :
    data.take p.length = p ↔ ∀ j, j < p.length → data.getD j 0 = p.getD j 0 := by
  constructor
  · intro e j hj
    have : (data.take p.length).getD j 0 = p.getD j 0 := by rw [e]
    simpa [List.getD_eq_getElem?_getD, List.getElem?_take, hj] using this
  · intro e
    apply List.ext_getElem
    · simp [h]
    · intro j h1 h2
      have := e j h2
      have hd : j < data.length := by omega
      simpa [List.getD_eq_getElem?_getD, List.getElem?_eq_getElem, hd, h2] using this

theorem MatchesPattern_iff (data pattern : List Nat) (mask : List Bool) :
    MatchesPattern data pattern mask = true ↔
      ∀ j, j < pattern.length → mask.getD j false = true → data.getD j 0 = pattern.getD j 0 := by
  unfold MatchesPattern
  simp only [List.all_eq_true, List.mem_range]
  constructor
  · intro h j hj hm
    have := h j hj
    rw [hm] at this
    simpa using this
  · intro h j hj
    cases hm : mask.getD j false
    · rfl
    · have := h j hj hm
      rw [this]
      simp

theorem MatchesPattern_allTrue (data pattern : List Nat) (h : pattern.length ≤ data.length) :
    MatchesPattern data pattern (List.replicate pattern.length true) = true ↔
      data.take pattern.length = pattern := by
  rw [MatchesPattern_iff, take_eq_iff_getD data pattern h]
  constructor
  · intro e j hj
    apply e j hj
    simp [List.getD_eq_getElem?_getD, List.getElem?_replicate, hj]
  · intro e j hj _
    exact e j hj

theorem take_sub_cons {α : Type} (cap len : Nat) (x : α) (xs : List α) (h : len < cap) :
    (x :: xs).take (cap - len) = x :: xs.take (cap - (len + 1)) := by
  have : cap - len = (cap - (len + 1)) + 1 := by omega
  rw [this, List.take_succ_cons]

theorem capped_filter_pos (f : Nat → Bool) (i : Nat) (l : List Nat) (cap len : Nat)
    (hf : f i = true) (h : len < cap) :
    ((i :: l).filter f).take (cap - len) = i :: (l.filter f).take (cap - (len + 1)) := by
  rw [List.filter_cons, if_pos hf, take_sub_cons _ _ _ _ h]

theorem capped_filter_neg (f : Nat → Bool) (i : Nat) (l : List Nat) (n : Nat)
    (hf : ¬ f i = true) :
    ((i :: l).filter f).take n = (l.filter f).take n := by
  rw [List.filter_cons, if_neg hf]

theorem offsetLoop_eq (start : Nat) (buffer pattern : List Nat) (mask : List Bool) :
    ∀ (fuel i : Nat) (results : List PatternMatch), results.length < MAX_RESULTS →
      buffer.length - pattern.length + 1 ≤ i + fuel →
      SearchBytePattern.offsetLoop start buffer pattern mask fuel i results =
        results ++ (((List.range' i (buffer.length - pattern.length + 1 - i)).filter
          fun k => MatchesPattern (buffer.drop k) pattern mask).take
            (MAX_RESULTS - results.length)).map (patternMatchAt start buffer pattern.length) := by
  intro fuel
  induction fuel with
  | zero =>
    intro i results _ hf
    have : buffer.length - pattern.length + 1 - i = 0 := by omega
    simp [SearchBytePattern.offsetLoop, this]
  | succ fuel ih =>
    intro i results hlen hf
    unfold SearchBytePattern.offsetLoop
    by_cases hi : i ≤ buffer.length - pattern.length
    · have hr : buffer.length - pattern.length + 1 - i
          = (buffer.length - pattern.length + 1 - (i + 1)) + 1 := by omega
      rw [if_pos hi, hr, List.range'_succ]
      by_cases hm : MatchesPattern (buffer.drop i) pattern mask = true
      · rw [if_pos hm, capped_filter_pos (fun k => MatchesPattern (buffer.drop k) pattern mask)
          i _ _ _ hm hlen]
        simp only [List.map_cons]
        by_cases hc : (results ++ [patternMatchAt start buffer pattern.length i]).length
            ≥ MAX_RESULTS
        · have hz : MAX_RESULTS - (results.length + 1) = 0 := by
            simp at hc; omega
          simp only [patternMatchAt] at hc ⊢
          rw [if_pos hc, hz]
          simp
        · simp only [patternMatchAt] at hc ⊢
          rw [if_neg hc, ih (i + 1) _ (by simp at hc ⊢; omega) (by omega)]
          simp [patternMatchAt]
      · rw [if_neg hm, capped_filter_neg (fun k => MatchesPattern (buffer.drop k) pattern mask)
          i _ _ hm, ih (i + 1) results hlen (by omega)]
    · have : buffer.length - pattern.length + 1 - i = 0 := by omega
      rw [if_neg hi, this]
      simp

theorem capped_append_full {α : Type} (results ms rest : List α) (cap : Nat)
    (h : cap ≤ (results ++ ms.take (cap - results.length)).length) :
    (ms ++ rest).take (cap - results.length) = ms.take (cap - results.length) := by
  apply List.take_append_of_le_length
  simp only [List.length_append, List.length_take] at h
  omega

theorem capped_append_more {α : Type} (results ms rest : List α) (cap : Nat)
    (h : (results ++ ms.take (cap - results.length)).length < cap) :
    ms.take (cap - results.length) = ms ∧
      (ms ++ rest).take (cap - results.length) =
        ms ++ rest.take (cap - (results ++ ms.take (cap - results.length)).length) := by
  simp only [List.length_append, List.length_take] at h
  have hl : ms.length ≤ cap - results.length := by omega
  have h1 : ms.take (cap - results.length) = ms := List.take_of_length_le hl
  refine ⟨h1, ?_⟩
  rw [h1, List.take_append_eq_append_take, List.take_of_length_le hl]
  simp only [List.length_append]
  congr 2
  omega

theorem regionLoop_eq (p : TargetProcess) (pattern : List Nat) (mask : List Bool)
    (searchStart searchEnd : Nat) :
    ∀ (regions : List MemoryRegionEx) (results : List PatternMatch),
      results.length < MAX_RESULTS →
      SearchBytePattern.regionLoop p pattern mask searchStart searchEnd regions results =
        results ++ ((regions.map
          (SearchBytePattern.regionMatches p pattern mask searchStart searchEnd)).flatten).take
            (MAX_RESULTS - results.length) := by
  intro regions
  induction regions with
  | nil => intro results _; simp [SearchBytePattern.regionLoop]
  | cons region rest ih =>
    intro results hlen
    rw [SearchBytePattern.regionLoop, List.map_cons, List.flatten_cons,
      SearchBytePattern.regionMatches]
    simp only []
    generalize (if searchStart > 0 then max searchStart region.startAddress
      else region.startAddress) = start
    generalize (if searchEnd > 0 then min searchEnd region.endAddress
      else region.endAddress) = end_
    generalize ReadMemoryChunk p start (end_ - start) = buffer
    by_cases h1 : start ≥ end_
    · simpa [h1] using ih results hlen
    rw [if_neg h1, if_neg h1]
    by_cases h2 : end_ - start > MAX_SCAN_SIZE
    · simpa [h2] using ih results hlen
    rw [if_neg h2, if_neg h2]
    by_cases h3 : (buffer.isEmpty || decide (buffer.length < pattern.length)) = true
    · simpa [h3] using ih results hlen
    rw [if_neg h3, if_neg h3, offsetLoop_eq _ _ _ _ _ _ _ hlen (by omega)]
    simp only [Nat.sub_zero, ← List.range_eq_range', List.map_take]
    by_cases h4 : MAX_RESULTS ≤ (results ++ (((List.range (buffer.length - pattern.length
        + 1)).filter fun k => MatchesPattern (buffer.drop k) pattern mask).map
        (patternMatchAt start buffer pattern.length)).take
        (MAX_RESULTS - results.length)).length
    · rw [if_pos h4, capped_append_full _ _ _ _ h4]
    · rw [if_neg h4]
      have h4' := Nat.lt_of_not_le h4
      obtain ⟨e1, e2⟩ := capped_append_more _ _
        ((rest.map (SearchBytePattern.regionMatches p pattern mask searchStart
          searchEnd)).flatten) _ h4'
      rw [ih _ h4', e2, e1, List.append_assoc]

theorem usub64_of_le (a b : Nat) (h : b ≤ a) (ha : a < 2 ^ 64) : usub64 a b = a - b := by
  unfold usub64
  have : a + 2 ^ 64 - b = (a - b) + 2 ^ 64 := by omega
  rw [this, Nat.add_mod_right, Nat.mod_eq_of_lt (by omega)]

theorem replicate_window (c n i : Nat) (h : i < n) :
    ((List.replicate n c).drop i).take 1 = [c] := by
  rw [List.drop_replicate, List.take_replicate]
  have : min 1 (n - i) = 1 := by omega
  rw [this]
  rfl

theorem mem_capped_filter {f : Nat → Bool} {l : List Nat} {n i : Nat}
    (h : i ∈ (l.filter f).take n) : f i = true :=
  (List.mem_filter.mp (List.mem_of_mem_take h)).2

/-- C2: when the pattern matches at offset `i`, overwriting the buffer byte under a wildcard
position `j` (`mask[j] = false`) with any value `v` leaves the match at offset `i` in place. -/
theorem C2_wildcard_byte_never_removes_match (b p : List Nat) (m : List Bool) (i j v : Nat)
    (hj : j < m.length) (hwild : m[j] = false)
    (hmatch : MatchesPattern (b.drop i) p m = true) :
    MatchesPattern ((b.set (i + j) v).drop i) p m = true := by
  rw [MatchesPattern_iff] at hmatch ⊢
  intro k hk hmk
  have hkj : k ≠ j := by
    intro e
    subst e
    have : m.getD k false = false := by
      simp [List.getD_eq_getElem?_getD, List.getElem?_eq_getElem, hj, hwild]
    rw [this] at hmk
    exact Bool.noConfusion hmk
  rw [← hmatch k hk hmk, getD_drop_nat, getD_drop_nat]
  have : i + j ≠ i + k := by omega
  simp [List.getD_eq_getElem?_getD, List.getElem?_set, this]

theorem C2_witness :
    MatchesPattern (([0xAA, 0x11, 0xBB, 0xCC] : List Nat).drop 1) [0x11, 0x00, 0xCC]
        [true, false, true] = true ∧
      MatchesPattern (([0xAA, 0x11, 0xBB, 0xCC].set (1 + 1) 0x77).drop 1) [0x11, 0x00, 0xCC]
        [true, false, true] = true :=
  ⟨by decide, C2_wildcard_byte_never_removes_match [0xAA, 0x11, 0xBB, 0xCC] [0x11, 0x00, 0xCC]
    [true, false, true] 1 1 0x77 (by decide) (by decide) (by decide)⟩

/-- C1 (amended): over a fetched buffer `b`, a non-empty pattern `p` with `|p| <= |b|` and the
all-true mask, `SearchBytePattern` pushes, after the `results` already collected, exactly the
offsets `i` with `0 <= i <= |b| - |p|` at which `b[i..i+|p|)` equals `p` byte for byte, in
ascending order and up to the result cap `MAX_RESULTS` of the whole request; each is reported
with address `start + i`, size `|p|` and data `p`. (For the empty pattern the function
returns at once, before any buffer is fetched.) -/
theorem C1_byte_pattern_is_exact_substring_search_up_to_cap (start : Nat) (b p : List Nat)
    (results : List PatternMatch) (_hp : p ≠ []) (hb : p.length ≤ b.length)
    (hres : results.length < MAX_RESULTS) :
    SearchBytePattern.offsetLoop start b p (List.replicate p.length true)
        (b.length - p.length + 1) 0 results =
      results ++ (((List.range (b.length - p.length + 1)).filter fun i =>
        decide ((b.drop i).take p.length = p)).take (MAX_RESULTS - results.length)).map
          fun i => { address := wrap64 (start + i), size := p.length, data := p } := by
  rw [offsetLoop_eq _ _ _ _ _ _ _ hres (by omega), Nat.sub_zero, ← List.range_eq_range']
  have hf : ((List.range (b.length - p.length + 1)).filter fun k =>
      MatchesPattern (b.drop k) p (List.replicate p.length true)) =
      (List.range (b.length - p.length + 1)).filter fun i =>
        decide ((b.drop i).take p.length = p) := by
    apply List.filter_congr
    intro k hk
    have hk' := List.mem_range.mp hk
    have hd : p.length ≤ (b.drop k).length := by rw [List.length_drop]; omega
    rw [Bool.eq_iff_iff, MatchesPattern_allTrue _ _ hd]
    simp
  rw [hf]
  congr 1
  apply List.map_congr_left
  intro i hi
  have := mem_capped_filter hi
  simp only [decide_eq_true_eq] at this
  simp [patternMatchAt, this]

theorem C1_witness :
    ([1, 2] : List Nat) ≠ [] ∧
      ([1, 2] : List Nat).length ≤ ([1, 2, 1, 2, 3] : List Nat).length ∧
      ([] : List PatternMatch).length < MAX_RESULTS ∧
      SearchBytePattern.offsetLoop 0x10000 [1, 2, 1, 2, 3] [1, 2] (List.replicate 2 true)
          (5 - 2 + 1) 0 [] =
        [{ address := 0x10000, size := 2, data := [1, 2] },
         { address := 0x10002, size := 2, data := [1, 2] }] :=
  ⟨by decide, by decide, by decide,
    (C1_byte_pattern_is_exact_substring_search_up_to_cap 0x10000 [1, 2, 1, 2, 3] [1, 2] []
      (by decide) (by decide) (by decide)).trans (by decide)⟩

/-- C1 as stated fails at the result cap: in a fetched buffer of 12288 bytes 0x90 the offset
10000 holds the pattern `[0x90]`, yet no match with address `start + 10000` is reported. -/
theorem C1_counterexample_cap :
    ((List.replicate 12288 0x90).drop 10000).take 1 = [0x90] ∧
      (0x10000 + 10000) ∉ (SearchBytePattern.offsetLoop 0x10000 (List.replicate 12288 0x90)
        [0x90] [true] ((List.replicate 12288 0x90).length - [0x90].length + 1) 0 []).map
          PatternMatch.address := by
  refine ⟨replicate_window _ _ _ (by decide), ?_⟩
  rw [offsetLoop_eq _ _ _ _ _ _ _ (by decide) (by omega)]
  simp only [Nat.sub_zero, ← List.range_eq_range', List.length_replicate, List.length_singleton,
    List.length_nil, List.nil_append]
  have hf : ((List.range (12288 - 1 + 1)).filter fun k =>
      MatchesPattern ((List.replicate 12288 0x90).drop k) [0x90] [true]) =
      List.range 12288 := by
    rw [List.filter_eq_self]
    intro k hk
    have hk' := List.mem_range.mp hk
    have := (MatchesPattern_allTrue ((List.replicate 12288 0x90).drop k) [0x90]
      (by rw [List.length_drop, List.length_replicate]; simp; omega)).mpr
      (replicate_window _ _ _ (by omega))
    exact this
  rw [hf, List.take_range]
  intro hmem
  simp only [List.mem_map, List.mem_range] at hmem
  obtain ⟨m, ⟨i, hi, rfl⟩, hm⟩ := hmem
  simp only [patternMatchAt, wrap64, MAX_RESULTS] at hm hi
  omega

/-- C4: the list returned by `SearchBytePattern` never has more than `MAX_RESULTS = 10000`
elements, and it is always the first `MAX_RESULTS` matches in scan order (regions in
enumeration order, offsets ascending); the function is total, so reaching the cap is not an
error. -/
theorem C4_SearchBytePattern_result_cap (p : TargetProcess) (pattern : List Nat)
    (mask : List Bool) (searchStart searchEnd : Nat) :
    MAX_RESULTS = 10000 ∧
      (SearchBytePattern p pattern mask searchStart searchEnd).length ≤ MAX_RESULTS ∧
      SearchBytePattern p pattern mask searchStart searchEnd =
        (SearchBytePattern.allMatches p pattern mask searchStart searchEnd).take MAX_RESULTS := by
  have h : SearchBytePattern p pattern mask searchStart searchEnd =
      (SearchBytePattern.allMatches p pattern mask searchStart searchEnd).take MAX_RESULTS := by
    unfold SearchBytePattern SearchBytePattern.allMatches
    split
    · rfl
    · rw [regionLoop_eq _ _ _ _ _ _ _ (by decide)]
      simp
  refine ⟨rfl, ?_, h⟩
  rw [h, List.length_take]
  omega

/-- C7 (amended): a region whose intersection with the caller bound is larger than
`MAX_SCAN_SIZE` is skipped as a whole by `SearchBytePattern`: the scan goes on as if the
region were not in the enumeration, so no occurrence inside it is reported. -/
theorem C7_oversize_region_is_skipped (p : TargetProcess) (pattern : List Nat)
    (mask : List Bool) (searchStart searchEnd : Nat) (region : MemoryRegionEx)
    (hbig : MAX_SCAN_SIZE <
      (if searchEnd > 0 then min searchEnd region.endAddress else region.endAddress) -
      (if searchStart > 0 then max searchStart region.startAddress else region.startAddress)) :
    ∀ (before after : List MemoryRegionEx) (results : List PatternMatch),
      SearchBytePattern.regionLoop p pattern mask searchStart searchEnd
          (before ++ region :: after) results =
        SearchBytePattern.regionLoop p pattern mask searchStart searchEnd
          (before ++ after) results := by
  intro before
  induction before with
  | nil =>
    intro after results
    rw [List.nil_append, List.nil_append, SearchBytePattern.regionLoop]
    simp only []
    generalize (if searchStart > 0 then max searchStart region.startAddress
      else region.startAddress) = start at hbig ⊢
    generalize (if searchEnd > 0 then min searchEnd region.endAddress
      else region.endAddress) = end_ at hbig ⊢
    have h1 : ¬ start ≥ end_ := by omega
    rw [if_neg h1, if_pos hbig]
  | cons r rest ih =>
    intro after results
    rw [List.cons_append, List.cons_append, SearchBytePattern.regionLoop,
      SearchBytePattern.regionLoop]
    simp only [ih]

theorem C7_witness :
    MAX_SCAN_SIZE < (0x10000 + MAX_SCAN_SIZE + 0x1000) - 0x10000 ∧
      SearchBytePattern.regionLoop oversizeProcess [0x90] [true] 0 0
          ([] ++ { startAddress := 0x10000, endAddress := 0x10000 + MAX_SCAN_SIZE + 0x1000,
                   size := MAX_SCAN_SIZE + 0x1000, protection := PAGE_READWRITE,
                   type := 0x20000 } :: []) [] =
        SearchBytePattern.regionLoop oversizeProcess [0x90] [true] 0 0 ([] ++ []) [] :=
  ⟨by decide, C7_oversize_region_is_skipped oversizeProcess [0x90] [true] 0 0
    { startAddress := 0x10000, endAddress := 0x10000 + MAX_SCAN_SIZE + 0x1000,
      size := MAX_SCAN_SIZE + 0x1000, protection := PAGE_READWRITE, type := 0x20000 }
    (by decide) [] [] []⟩

/-- C7 as stated fails: the only committed region is 4096 bytes larger than `MAX_SCAN_SIZE`,
its first 16 bytes are readable and all hold the pattern byte 0x90, and `SearchBytePattern`
reports nothing. -/
theorem C7_counterexample_no_clamp :
    GetMemoryRegions oversizeProcess false false =
        [{ startAddress := 0x10000, endAddress := 0x10000 + MAX_SCAN_SIZE + 0x1000,
           size := MAX_SCAN_SIZE + 0x1000, protection := PAGE_READWRITE, type := 0x20000 }] ∧
      ReadMemoryChunk oversizeProcess 0x10000 16 = List.replicate 16 0x90 ∧
      SearchBytePattern oversizeProcess [0x90] [true] 0 0 = [] := by
  decide!

end MemoryHelpers

namespace MemoryScanner

/-! ### The chunked scan of `MemoryScanner::scanMemoryRegion` -/

theorem searchLoop_eq (currentAddress : Nat) (buffer pattern : List Nat) (mask : List Bool)
    (searchEnd : Nat) :
    ∀ (fuel i : Nat) (results : List Nat), searchEnd ≤ i + fuel →
      scanMemoryRegion.searchLoop currentAddress buffer pattern mask searchEnd fuel i results =
        (results ++ (((List.range' i (searchEnd - i)).filter
            (scanMemoryRegion.matchAt buffer pattern mask)).take
              (scanMemoryRegion.room results.length)).map fun k => wrap64 (currentAddress + k),
          decide (scanMemoryRegion.room results.length ≤
            ((List.range' i (searchEnd - i)).filter
              (scanMemoryRegion.matchAt buffer pattern mask)).length)) := by
  intro fuel
  induction fuel with
  | zero =>
    intro i results hf
    have : searchEnd - i = 0 := by omega
    simp [scanMemoryRegion.searchLoop, this, scanMemoryRegion.room]
  | succ fuel ih =>
    intro i results hf
    unfold scanMemoryRegion.searchLoop
    by_cases hi : i < searchEnd
    · have hr : searchEnd - i = (searchEnd - (i + 1)) + 1 := by omega
      rw [if_pos hi, hr, List.range'_succ]
      by_cases hm : scanMemoryRegion.matchAt buffer pattern mask i = true
      · rw [if_pos hm, List.filter_cons, if_pos hm]
        simp only []
        by_cases hc : (results ++ [wrap64 (currentAddress + i)]).length ≥ 10000
        · rw [if_pos hc]
          have h1 : scanMemoryRegion.room results.length = 1 := by
            simp at hc; unfold scanMemoryRegion.room; omega
          rw [h1]
          simp
        · rw [if_neg hc, ih (i + 1) _ (by omega)]
          have hlen : results.length + 1 < 10000 := by simp at hc; omega
          have h1 : scanMemoryRegion.room results.length
              = scanMemoryRegion.room (results ++ [wrap64 (currentAddress + i)]).length + 1 := by
            simp only [List.length_append, List.length_singleton]
            unfold scanMemoryRegion.room; omega
          rw [h1, List.take_succ_cons]
          simp
      · rw [if_neg hm, List.filter_cons, if_neg hm, ih (i + 1) results (by omega)]
    · have : searchEnd - i = 0 := by omega
      rw [if_neg hi, this]
      simp [scanMemoryRegion.room]

theorem room_pos (len : Nat) : 1 ≤ scanMemoryRegion.room len := by
  unfold scanMemoryRegion.room; omega

theorem room_append (len k : Nat) (h : k < scanMemoryRegion.room len) :
    scanMemoryRegion.room (len + k) = scanMemoryRegion.room len - k := by
  unfold scanMemoryRegion.room at *; omega

theorem chunkLoop_eq (p : TargetProcess) (startAddress size : Nat) (pattern : List Nat)
    (mask : List Bool) :
    ∀ (fuel offset : Nat) (results : List Nat),
      scanMemoryRegion.chunkLoop p startAddress size pattern mask fuel offset results =
        results ++ (scanMemoryRegion.matchesFrom p startAddress size pattern mask fuel
          offset).take (scanMemoryRegion.room results.length) := by
  intro fuel
  induction fuel with
  | zero => intro offset results; simp [scanMemoryRegion.chunkLoop, scanMemoryRegion.matchesFrom]
  | succ fuel ih =>
    intro offset results
    unfold scanMemoryRegion.chunkLoop scanMemoryRegion.matchesFrom
    by_cases ho : offset < size
    · rw [if_pos ho, if_pos ho]
      unfold scanMemoryRegion.chunkMatches
      simp only []
      by_cases ha : (!ErrorHandler.isAddressAccessible p (wrap64 (startAddress + offset))
          (min CHUNK_SIZE (size - offset))) = true
      · rw [if_pos ha, if_pos ha, ih, List.nil_append]
      · rw [if_neg ha, if_neg ha]
        cases hrd : ProcessManager.readMemory p (wrap64 (startAddress + offset))
            (min CHUNK_SIZE (size - offset)) with
        | none => simp only []; rw [ih, List.nil_append]
        | some buffer =>
          simp only []
          rw [searchLoop_eq _ _ _ _ _ _ _ _ (by omega)]
          simp only [Nat.sub_zero, ← List.range_eq_range', decide_eq_true_eq]
          generalize ((List.range (if min CHUNK_SIZE (size - offset) ≥ pattern.length
            then min CHUNK_SIZE (size - offset) - pattern.length + 1 else 0)).filter
            (scanMemoryRegion.matchAt buffer pattern mask)) = ms
          by_cases hfull : scanMemoryRegion.room results.length ≤ ms.length
          · rw [if_pos hfull, List.map_take, List.take_append_of_le_length (by simpa using hfull)]
          · have hlt : ms.length < scanMemoryRegion.room results.length := by omega
            have e1 : ms.take (scanMemoryRegion.room results.length) = ms :=
              List.take_of_length_le (by omega)
            have e2 : (ms.map fun k => wrap64 (wrap64 (startAddress + offset) + k)).take
                (scanMemoryRegion.room results.length) =
                ms.map fun k => wrap64 (wrap64 (startAddress + offset) + k) :=
              List.take_of_length_le (by rw [List.length_map]; omega)
            rw [if_neg hfull, ih, e1, List.take_append_eq_append_take, e2, List.append_assoc,
              List.length_append, List.length_map, room_append _ _ hlt]
    · rw [if_neg ho, if_neg ho]
      simp

end MemoryScanner

/-! ### Reads in a process built by `TargetProcess.ofMemory` -/

theorem length_bytesAt (mem : Nat → Nat) (a n : Nat) : (bytesAt mem a n).length = n := by
  simp [bytesAt]

theorem getD_bytesAt (mem : Nat → Nat) (a n i : Nat) (h : i < n) :
    (bytesAt mem a n).getD i 0 = mem (a + i) := by
  simp [bytesAt, List.getD_eq_getElem?_getD, List.getElem?_map, List.getElem?_range, h]

theorem isAddressAccessible_ne_zero (p : TargetProcess) (a n : Nat)
    (h : ErrorHandler.isAddressAccessible p a n = true) : a ≠ 0 ∧ n ≠ 0 := by
  constructor
  · intro e
    subst e
    simp [ErrorHandler.isAddressAccessible] at h
  · intro e
    subst e
    simp [ErrorHandler.isAddressAccessible] at h

theorem safeReadMemory_ofMemory (layout : List MEMORY_BASIC_INFORMATION) (mem : Nat → Nat)
    (a n : Nat)
    (h : ErrorHandler.isAddressAccessible (TargetProcess.ofMemory layout mem) a n = true) :
    ErrorHandler.safeReadMemory (TargetProcess.ofMemory layout mem) a n
      = some (bytesAt mem a n) := by
  unfold ErrorHandler.safeReadMemory
  rw [h]
  simp [ErrorHandler.isValidProcessHandle, TargetProcess.ofMemory,
    List.take_of_length_le, length_bytesAt]

theorem readMemory_ofMemory (layout : List MEMORY_BASIC_INFORMATION) (mem : Nat → Nat)
    (a n : Nat)
    (h : ErrorHandler.isAddressAccessible (TargetProcess.ofMemory layout mem) a n = true) :
    ProcessManager.readMemory (TargetProcess.ofMemory layout mem) a n
      = some (bytesAt mem a n) := by
  obtain ⟨ha, hn⟩ := isAddressAccessible_ne_zero _ _ _ h
  unfold ProcessManager.readMemory
  rw [safeReadMemory_ofMemory _ _ _ _ h]
  simp [ProcessManager.isProcessAttached, TargetProcess.ofMemory, ha, hn, length_bytesAt]

theorem ReadMemoryChunk_ofMemory (layout : List MEMORY_BASIC_INFORMATION) (mem : Nat → Nat)
    (a n : Nat)
    (h : ErrorHandler.isAddressAccessible (TargetProcess.ofMemory layout mem) a n = true) :
    MemoryHelpers.ReadMemoryChunk (TargetProcess.ofMemory layout mem) a n = bytesAt mem a n := by
  unfold MemoryHelpers.ReadMemoryChunk
  rw [safeReadMemory_ofMemory _ _ _ _ h]

namespace MemoryScanner

/-! ### Claims on `MemoryScanner::scanForBytes` and `scanForString` -/

theorem matchAt_first_byte (buffer : List Nat) (c : Nat) (ps : List Nat) (ms : List Bool)
    (i : Nat) (h : scanMemoryRegion.matchAt buffer (c :: ps) (true :: ms) i = true) :
    buffer.getD i 0 = c := by
  unfold scanMemoryRegion.matchAt at h
  rw [List.all_eq_true] at h
  have := h 0 (by simp)
  simpa using this

theorem chunkMatches_eq_nil (layout : List MEMORY_BASIC_INFORMATION) (mem : Nat → Nat)
    (startAddress size c : Nat) (ps : List Nat) (ms : List Bool) (offset : Nat)
    (h : ∀ k, k + (ps.length + 1) ≤ min CHUNK_SIZE (size - offset) →
      mem (wrap64 (startAddress + offset) + k) ≠ c) :
    scanMemoryRegion.chunkMatches (TargetProcess.ofMemory layout mem) startAddress size
      (c :: ps) (true :: ms) offset = [] := by
  unfold scanMemoryRegion.chunkMatches
  simp only []
  split
  · rfl
  · rename_i ha
    rw [readMemory_ofMemory _ _ _ _ (by simpa using ha)]
    simp only [List.map_eq_nil_iff, List.filter_eq_nil_iff, List.mem_range, List.length_cons]
    intro i hi hm
    have hb := matchAt_first_byte _ _ _ _ _ hm
    split at hi
    · rename_i hge
      rw [getD_bytesAt _ _ _ _ (by omega)] at hb
      exact h i (by omega) hb
    · omega

theorem regionLoop_skip (p : TargetProcess) (bytes : List Nat) (mask : List Bool)
    (region : MemoryRegion) (rest : List MemoryRegion) (results : List Nat)
    (h : (region.state == MEM_COMMIT && (region.protection &&& PAGE_GUARD) == 0
        && (region.protection &&& PAGE_NOACCESS) == 0) = false) :
    scanForBytes.regionLoop p bytes mask (region :: rest) results =
      scanForBytes.regionLoop p bytes mask rest results := by
  rw [scanForBytes.regionLoop, h]
  rfl

theorem regionLoop_scan (p : TargetProcess) (bytes : List Nat) (mask : List Bool)
    (region : MemoryRegion) (rest : List MemoryRegion) (results : List Nat)
    (h : (region.state == MEM_COMMIT && (region.protection &&& PAGE_GUARD) == 0
        && (region.protection &&& PAGE_NOACCESS) == 0) = true) :
    scanForBytes.regionLoop p bytes mask (region :: rest) results =
      scanForBytes.regionLoop p bytes mask rest
        (scanMemoryRegion p region.baseAddress region.size bytes mask results).2 := by
  rw [scanForBytes.regionLoop, if_pos h]

theorem scanMemoryRegion_snd (p : TargetProcess) (startAddress size : Nat) (pattern : List Nat)
    (mask : List Bool) (results : List Nat) (ha : p.attached = true) (hp : pattern ≠ [])
    (hm : mask.length = pattern.length) (hs : size ≤ MAX_SCAN_SIZE) :
    (scanMemoryRegion p startAddress size pattern mask results).2 =
      results ++ (scanMemoryRegion.matchesFrom p startAddress size pattern mask
        (size / CHUNK_SIZE + 1) 0).take (scanMemoryRegion.room results.length) := by
  unfold scanMemoryRegion
  have h1 : (!ProcessManager.isProcessAttached p) = false := by
    simp [ProcessManager.isProcessAttached, ha]
  have h2 : (pattern.isEmpty || mask.length != pattern.length) = false := by
    cases pattern with
    | nil => exact absurd rfl hp
    | cons c ps => simp [hm]
  have h3 : ¬ size > MAX_SCAN_SIZE := by omega
  rw [h1, h2]
  simp only [Bool.false_eq_true, if_false, if_neg h3, chunkLoop_eq]

theorem scanForBytes_chunkBoundary : scanForBytes chunkBoundaryProcess [0xDE, 0xAD] = [] := by
  have hg : getMemoryRegions chunkBoundaryProcess =
      [ { baseAddress := 0, size := 0x10000, protection := PAGE_NOACCESS, state := 0x10000,
          type := 0 },
        { baseAddress := 0x10000, size := 0x2000, protection := PAGE_READWRITE,
          state := MEM_COMMIT, type := 0x20000 } ] := by decide!
  have h0 : scanMemoryRegion.chunkMatches chunkBoundaryProcess 0x10000 0x2000 [0xDE, 0xAD]
      [true, true] 0 = [] := by
    apply chunkMatches_eq_nil
    intro k hk
    simp only [wrap64, CHUNK_SIZE, List.length_singleton] at hk ⊢
    unfold chunkBoundaryMemory
    have e1 : ¬ ((65536 + 0) % 2 ^ 64 + k = 0x10FFF) := by omega
    have e2 : ¬ ((65536 + 0) % 2 ^ 64 + k = 0x11000) := by omega
    rw [if_neg e1, if_neg e2]
    decide
  have h1 : scanMemoryRegion.chunkMatches chunkBoundaryProcess 0x10000 0x2000 [0xDE, 0xAD]
      [true, true] 4096 = [] := by
    apply chunkMatches_eq_nil
    intro k hk
    simp only [wrap64, CHUNK_SIZE, List.length_singleton] at hk ⊢
    unfold chunkBoundaryMemory
    have e1 : ¬ ((65536 + 4096) % 2 ^ 64 + k = 0x10FFF) := by omega
    rw [if_neg e1]
    split <;> decide
  have hm : scanMemoryRegion.matchesFrom chunkBoundaryProcess 0x10000 0x2000 [0xDE, 0xAD]
      [true, true] 3 0 = [] := by
    simp [scanMemoryRegion.matchesFrom, h0, h1, CHUNK_SIZE]
  unfold scanForBytes
  rw [hg, regionLoop_skip chunkBoundaryProcess _ _
      { baseAddress := 0, size := 0x10000, protection := PAGE_NOACCESS, state := 0x10000,
        type := 0 } _ _ (by decide),
    regionLoop_scan chunkBoundaryProcess _ _
      { baseAddress := 0x10000, size := 0x2000, protection := PAGE_READWRITE,
        state := MEM_COMMIT, type := 0x20000 } _ _ (by decide),
    scanMemoryRegion_snd chunkBoundaryProcess 0x10000 0x2000 [0xDE, 0xAD] _ _ rfl (by decide)
      (by decide) (by decide)]
  have hfuel : 0x2000 / CHUNK_SIZE + 1 = 3 := by decide
  rw [hfuel]
  simp only [List.length_cons, List.length_nil, List.replicate]
  rw [hm]
  rfl

/-- C3 (failing input): one committed read-write region of two chunks at 0x10000 holds the
bytes DE AD at 0x10FFF and 0x11000. The range of two bytes at 0x10FFF is accessible and reads
back as DE AD, and `scanForBytes` with these bytes returns no address at all. -/
theorem C3_scanForBytes_misses_bytes_across_chunks :
    ErrorHandler.isAddressAccessible chunkBoundaryProcess 0x10FFF 2 = true ∧
      ProcessManager.readMemory chunkBoundaryProcess 0x10FFF 2 = some [0xDE, 0xAD] ∧
      scanForBytes chunkBoundaryProcess [0xDE, 0xAD] = [] :=
  ⟨by decide!, by decide!, scanForBytes_chunkBoundary⟩

theorem chunkMatches_uniform (layout : List MEMORY_BASIC_INFORMATION) (c startAddress size
    offset : Nat)
    (h : ErrorHandler.isAddressAccessible (TargetProcess.ofMemory layout fun _ => c)
      (wrap64 (startAddress + offset)) (min CHUNK_SIZE (size - offset)) = true) :
    scanMemoryRegion.chunkMatches (TargetProcess.ofMemory layout fun _ => c) startAddress size
        [c] [true] offset =
      (List.range (min CHUNK_SIZE (size - offset))).map
        fun i => wrap64 (wrap64 (startAddress + offset) + i) := by
  obtain ⟨_, hn⟩ := isAddressAccessible_ne_zero _ _ _ h
  unfold scanMemoryRegion.chunkMatches
  simp only []
  rw [h, readMemory_ofMemory _ _ _ _ h]
  have hge : min CHUNK_SIZE (size - offset) ≥ [c].length := by
    rw [List.length_singleton]; omega
  have he : min CHUNK_SIZE (size - offset) - [c].length + 1 = min CHUNK_SIZE (size - offset) := by
    rw [List.length_singleton]; omega
  simp only [Bool.not_true, Bool.false_eq_true, if_false, if_pos hge, he]
  congr 1
  rw [List.filter_eq_self]
  intro i hi
  have hi' := List.mem_range.mp hi
  unfold scanMemoryRegion.matchAt
  rw [List.all_eq_true]
  intro j hj
  have hj0 : j = 0 := by simpa using hj
  subst hj0
  have := getD_bytesAt (fun _ => c) (wrap64 (startAddress + offset))
    (min CHUNK_SIZE (size - offset)) i hi'
  simp only [Nat.add_zero, this]
  simp

theorem take_one_map_range (g : Nat → Nat) (n : Nat) (l : List Nat) (h : 0 < n) :
    ((List.range n).map g ++ l).take 1 = [g 0] := by
  cases n with
  | zero => omega
  | succ n => simp [List.range_succ_eq_map]

theorem scanForBytes_capProcess :
    (scanForBytes capProcess [0x41]).length = 10001 ∧
      scanForBytes capProcess [0x41] ≠ [] ∧
      (scanForBytes capProcess [0x41]).getLast? = some 0x13000 := by
  have hg : getMemoryRegions capProcess =
      [ { baseAddress := 0, size := 0x10000, protection := PAGE_NOACCESS, state := 0x10000,
          type := 0 },
        { baseAddress := 0x10000, size := 0x3000, protection := PAGE_READWRITE,
          state := MEM_COMMIT, type := 0x20000 },
        { baseAddress := 0x13000, size := 0x1000, protection := PAGE_READONLY,
          state := MEM_COMMIT, type := 0x20000 } ] := by decide!
  have c0 := chunkMatches_uniform capLayout 0x41 0x10000 0x3000 0 (by decide!)
  have c1 := chunkMatches_uniform capLayout 0x41 0x10000 0x3000 4096 (by decide!)
  have c2 := chunkMatches_uniform capLayout 0x41 0x10000 0x3000 8192 (by decide!)
  have d0 := chunkMatches_uniform capLayout 0x41 0x13000 0x1000 0 (by decide!)
  have hr1 : (scanMemoryRegion.matchesFrom capProcess 0x10000 0x3000 [0x41] [true] 4 0).length
      = 12288 := by
    simp only [scanMemoryRegion.matchesFrom, capProcess, c0, c1, c2, CHUNK_SIZE]
    simp
  have hr2 : (scanMemoryRegion.matchesFrom capProcess 0x13000 0x1000 [0x41] [true] 2 0).take 1
      = [0x13000] := by
    simp only [scanMemoryRegion.matchesFrom, capProcess, d0, CHUNK_SIZE]
    rw [if_pos (by decide), take_one_map_range _ _ _ (by decide)]
    rfl
  have hres : scanForBytes capProcess [0x41] =
      (scanMemoryRegion.matchesFrom capProcess 0x10000 0x3000 [0x41] [true] 4 0).take 10000
        ++ [0x13000] := by
    unfold scanForBytes
    rw [hg, regionLoop_skip capProcess _ _
        { baseAddress := 0, size := 0x10000, protection := PAGE_NOACCESS, state := 0x10000,
          type := 0 } _ _ (by decide),
      regionLoop_scan capProcess _ _
        { baseAddress := 0x10000, size := 0x3000, protection := PAGE_READWRITE,
          state := MEM_COMMIT, type := 0x20000 } _ _ (by decide),
      regionLoop_scan capProcess _ _
        { baseAddress := 0x13000, size := 0x1000, protection := PAGE_READONLY,
          state := MEM_COMMIT, type := 0x20000 } _ _ (by decide),
      scanMemoryRegion_snd capProcess 0x10000 0x3000 [0x41] _ _ rfl (by decide)
        (by decide) (by decide),
      scanMemoryRegion_snd capProcess 0x13000 0x1000 [0x41] _ _ rfl (by decide)
        (by decide) (by decide)]
    have hf1 : 0x3000 / CHUNK_SIZE + 1 = 4 := by decide
    have hf2 : 0x1000 / CHUNK_SIZE + 1 = 2 := by decide
    rw [hf1, hf2]
    have hmask : List.replicate [0x41].length true = [true] := rfl
    rw [hmask, List.nil_append, List.length_nil, List.length_take, hr1]
    have hroom0 : scanMemoryRegion.room 0 = 10000 := by decide
    have hroom1 : scanMemoryRegion.room (min (scanMemoryRegion.room 0) 12288) = 1 := by decide
    rw [hroom1, hr2, hroom0]
    rfl
  rw [hres]
  refine ⟨?_, List.append_ne_nil_of_right_ne_nil _ (List.cons_ne_nil _ _),
    List.getLast?_concat _⟩
  rw [List.length_append, List.length_take, hr1]
  rfl

/-- C6 (failing input): every byte of the two committed regions (three chunks at 0x10000,
one chunk at 0x13000) is 0x41. `scanForBytes` with the byte 0x41 returns 10001 addresses, and
the last one, 0x13000, comes from the second region. -/
theorem C6_scanForBytes_exceeds_cap_across_regions :
    (scanForBytes capProcess [0x41]).length = 10001 ∧
      (scanForBytes capProcess [0x41]).getLast? = some 0x13000 :=
  ⟨scanForBytes_capProcess.1, scanForBytes_capProcess.2.2⟩

theorem chunkMatches_ofMemory (layout : List MEMORY_BASIC_INFORMATION) (mem : Nat → Nat)
    (startAddress size : Nat) (pattern : List Nat) (mask : List Bool) (offset : Nat)
    (h : ErrorHandler.isAddressAccessible (TargetProcess.ofMemory layout mem)
      (wrap64 (startAddress + offset)) (min CHUNK_SIZE (size - offset)) = true) :
    scanMemoryRegion.chunkMatches (TargetProcess.ofMemory layout mem) startAddress size
        pattern mask offset =
      ((List.range (if min CHUNK_SIZE (size - offset) ≥ pattern.length
          then min CHUNK_SIZE (size - offset) - pattern.length + 1 else 0)).filter
        (scanMemoryRegion.matchAt (bytesAt mem (wrap64 (startAddress + offset))
          (min CHUNK_SIZE (size - offset))) pattern mask)).map
        fun i => wrap64 (wrap64 (startAddress + offset) + i) := by
  unfold scanMemoryRegion.chunkMatches
  simp only []
  rw [h, readMemory_ofMemory _ _ _ _ h]
  rfl

theorem filter_range_of_unique (f : Nat → Bool) (k : Nat) :
    ∀ n, (∀ i, i < n → (f i = true ↔ i = k)) →
      (List.range n).filter f = if k < n then [k] else [] := by
  intro n
  induction n with
  | zero => intro _; rfl
  | succ n ih =>
    intro h
    rw [List.range_succ, List.filter_append, ih (fun i hi => h i (by omega))]
    have hn := h n (by omega)
    by_cases hf : f n = true
    · have e := hn.mp hf
      subst e
      simp [hf]
    · have e : ¬ n = k := fun e => hf (hn.mpr e)
      have e1 : (k < n + 1) = (k < n) := by
        apply propext; constructor <;> intro <;> omega
      simp [hf, e1]

theorem secretMemory_eq_S (a : Nat) : secretMemory a = 0x53 ↔ a = 0x10100 := by
  unfold secretMemory
  constructor
  · intro h
    split at h
    · rename_i hr
      obtain ⟨n, hn⟩ : ∃ n, a = 0x10100 + n := ⟨a - 0x10100, by omega⟩
      subst hn
      have hlt : n < 11 := by omega
      rw [Nat.add_sub_cancel_left] at h
      interval_cases n <;> first | rfl | exact absurd h (by decide)
    · exact absurd h (by decide)
  · intro h
    subst h
    decide

theorem secretMemory_ne_s (a : Nat) : secretMemory a ≠ 0x73 := by
  unfold secretMemory
  intro h
  split at h
  · rename_i hr
    obtain ⟨n, hn⟩ : ∃ n, a = 0x10100 + n := ⟨a - 0x10100, by omega⟩
    subst hn
    have hlt : n < 11 := by omega
    rw [Nat.add_sub_cancel_left] at h
    interval_cases n <;> exact absurd h (by decide)
  · exact absurd h (by decide)

theorem scanForString_secretProcess :
    scanForString secretProcess secretBytes true = [0x10100] ∧
      scanForString secretProcess secretBytesLower false = [] := by
  have hg : getMemoryRegions secretProcess =
      [ { baseAddress := 0, size := 0x10000, protection := PAGE_NOACCESS, state := 0x10000,
          type := 0 },
        { baseAddress := 0x10000, size := 0x1000, protection := PAGE_READWRITE,
          state := MEM_COMMIT, type := 0x20000 } ] := by decide!
  have hfuel : 0x1000 / CHUNK_SIZE + 1 = 2 := by decide
  have hroom0 : scanMemoryRegion.room ([] : List Nat).length = 10000 := by decide
  have hscan : ∀ bytes : List Nat, bytes ≠ [] → scanForBytes secretProcess bytes =
      (scanMemoryRegion.chunkMatches secretProcess 0x10000 0x1000 bytes
        (List.replicate bytes.length true) 0).take 10000 := by
    intro bytes hb
    unfold scanForBytes
    rw [if_neg (show ¬ ((!ProcessManager.isProcessAttached secretProcess) = true) by decide),
      hg, regionLoop_skip secretProcess _ _
        { baseAddress := 0, size := 0x10000, protection := PAGE_NOACCESS, state := 0x10000,
          type := 0 } _ _ (by decide),
      regionLoop_scan secretProcess _ _
        { baseAddress := 0x10000, size := 0x1000, protection := PAGE_READWRITE,
          state := MEM_COMMIT, type := 0x20000 } _ _ (by decide),
      scanMemoryRegion_snd secretProcess 0x10000 0x1000 bytes _ _ rfl hb
        (List.length_replicate _ _) (by decide), hfuel, hroom0]
    simp only [scanMemoryRegion.matchesFrom, CHUNK_SIZE]
    rw [if_pos (show 0 < 4096 by decide), if_neg (show ¬ (0 + 4096 < 4096) by decide),
      List.append_nil, List.nil_append]
    rfl
  constructor
  · unfold scanForString
    rw [if_neg (by decide), hscan _ (by decide)]
    have hacc : ErrorHandler.isAddressAccessible (TargetProcess.ofMemory secretLayout
        secretMemory) (wrap64 (0x10000 + 0)) (min CHUNK_SIZE (0x1000 - 0)) = true := by decide!
    unfold secretProcess
    rw [chunkMatches_ofMemory _ _ _ _ _ _ _ hacc]
    have hse : (if min CHUNK_SIZE (0x1000 - 0) ≥ secretBytes.length
        then min CHUNK_SIZE (0x1000 - 0) - secretBytes.length + 1 else 0) = 4086 := by decide
    have haddr : wrap64 (0x10000 + 0) = 0x10000 := by decide
    have hrs : min CHUNK_SIZE (0x1000 - 0) = 4096 := by decide
    rw [hse, haddr, hrs, filter_range_of_unique _ 0x100]
    · decide
    · intro i hi
      constructor
      · intro hm
        have hb := matchAt_first_byte _ _ _ _ _ hm
        rw [getD_bytesAt _ _ _ _ (by omega), secretMemory_eq_S] at hb
        omega
      · intro e
        subst e
        unfold scanMemoryRegion.matchAt
        rw [List.all_eq_true]
        intro j hj
        have hj' : j < 11 := by simpa [secretBytes] using hj
        rw [getD_bytesAt _ _ _ _ (by omega)]
        interval_cases j <;> decide
  · unfold scanForString
    have hl : (if (!false) = true then secretBytesLower.map MemoryHelpers.tolower
        else secretBytesLower) = secretBytesLower := by decide
    rw [hl, hscan _ (by decide)]
    have := chunkMatches_eq_nil secretLayout secretMemory 0x10000 0x1000 0x73
      [0x65, 0x63, 0x72, 0x65, 0x74, 0x76, 0x61, 0x6C, 0x75, 0x65]
      (List.replicate 10 true) 0 (fun k _ => secretMemory_ne_s _)
    exact (congrArg (List.take 10000) this)

/-- C9 (failing input): one committed page at 0x10000 holds `SECRETVALUE` at 0x10100 and
zero bytes elsewhere. The case-sensitive `scanForString` of `SECRETVALUE` returns exactly
0x10100, and the case-insensitive `scanForString` of `secretvalue` returns nothing. -/
theorem C9_scanForString_case_insensitive_finds_nothing :
    scanForString secretProcess secretBytes true = [0x10100] ∧
      scanForString secretProcess secretBytesLower false = [] :=
  scanForString_secretProcess

end MemoryScanner

namespace ErrorHandler

/-! ### `ErrorHandler::isAddressAccessible` -/

/-- C8 (failing input): the region queried for address 0x10000 is committed, read-write and
ends at 0x20000; with size `0xFFFFFFFFFFFFFFFF` the sum `address + size` passes both the
region end and `2 ^ 64`, and `isAddressAccessible` answers `true`. -/
theorem C8_isAddressAccessible_accepts_wrapping_size :
    safeVirtualQuery wrapProcess 0x10000 =
        some { BaseAddress := 0x10000, RegionSize := 0x10000, State := MEM_COMMIT,
               Protect := PAGE_READWRITE, Type_ := 0x20000 } ∧
      0x10000 + 0x10000 < 0x10000 + 0xFFFFFFFFFFFFFFFF ∧
      2 ^ 64 < 0x10000 + 0xFFFFFFFFFFFFFFFF ∧
      isAddressAccessible wrapProcess 0x10000 0xFFFFFFFFFFFFFFFF = true := by
  decide!

end ErrorHandler

/-! ### Pointer scans: `FindPointersTo` and `FindPointerChain` -/

theorem drop_take_bytesAt (mem : Nat → Nat) (a n k m : Nat) (h : k + m ≤ n) :
    ((bytesAt mem a n).drop k).take m = bytesAt mem (a + k) m := by
  apply List.ext_getElem
  · simp [bytesAt]; omega
  · intro i h1 h2
    simp [bytesAt, Nat.add_assoc]

namespace MemoryHelpers

theorem readPointer_bytesAt (mem : Nat → Nat) (a n k : Nat) (h : k + 8 ≤ n) :
    readPointer (bytesAt mem a n) k =
      littleEndian [mem (a + k), mem (a + k + 1), mem (a + k + 2), mem (a + k + 3),
        mem (a + k + 4), mem (a + k + 5), mem (a + k + 6), mem (a + k + 7)] := by
  unfold readPointer
  rw [drop_take_bytesAt _ _ _ _ _ h]
  rfl

theorem slotLoop_no_match (start targetAddress : Nat) (buffer : List Nat)
    (hb : 8 ≤ buffer.length) (h64 : buffer.length < 2 ^ 64) :
    ∀ (fuel i : Nat) (results : List PointerResult),
      (∀ k, i ≤ k → k + 8 ≤ buffer.length → readPointer buffer k ≠ targetAddress) →
      FindPointersTo.slotLoop start targetAddress buffer fuel i results = some results := by
  intro fuel
  induction fuel with
  | zero => intro i results _; rfl
  | succ fuel ih =>
    intro i results h
    unfold FindPointersTo.slotLoop
    rw [usub64_of_le _ _ hb h64]
    by_cases hi : i ≤ buffer.length - 8
    · have hin : ¬ (i + 8 > buffer.length) := by omega
      have hne : ¬ ((readPointer buffer i == targetAddress) = true) := by
        simpa using h i (Nat.le_refl _) (by omega)
      rw [if_pos hi, if_neg hin, if_neg hne]
      exact ih (i + 8) results (fun k hk hk' => h k (by omega) hk')
    · rw [if_neg hi]

theorem FindPointersTo_regionLoop_scan (p : TargetProcess) (targetAddress : Nat)
    (region : MemoryRegionEx) (rest : List MemoryRegionEx) (results : List PointerResult)
    (buffer : List Nat) (h1 : region.startAddress < region.endAddress)
    (h2 : region.endAddress - region.startAddress ≤ MAX_SCAN_SIZE)
    (hb : ReadMemoryChunk p region.startAddress (region.endAddress - region.startAddress)
      = buffer)
    (hne : buffer ≠ []) :
    FindPointersTo.regionLoop p targetAddress 0 0 (region :: rest) results =
      (FindPointersTo.slotLoop region.startAddress targetAddress buffer
        (buffer.length / 8 + 1) 0 results).bind fun results' =>
          if results'.length ≥ MAX_RESULTS then some results'
          else FindPointersTo.regionLoop p targetAddress 0 0 rest results' := by
  rw [FindPointersTo.regionLoop]
  have e0 : ¬ (0 > 0) := by omega
  simp only [if_neg e0]
  have e1 : ¬ (region.startAddress ≥ region.endAddress) := by omega
  have e2 : ¬ (region.endAddress - region.startAddress > MAX_SCAN_SIZE) := by omega
  have e3 : ¬ (buffer.isEmpty = true) := by
    cases buffer with
    | nil => exact absurd rfl hne
    | cons _ _ => simp
  rw [if_neg e1, if_neg e2, hb, if_neg e3]

theorem FindPointersTo_selfPointer :
    FindPointersTo selfPointerProcess 0x10000 0 0 =
      some [{ address := 0x10000, pointsTo := 0x10000, offset := 0 }] := by
  have hg : GetMemoryRegions selfPointerProcess false false =
      [{ startAddress := 0x10000, endAddress := 0x11000, size := 0x1000,
         protection := PAGE_READWRITE, type := 0x20000 }] := by decide!
  have hbuf : ReadMemoryChunk selfPointerProcess 0x10000 (0x11000 - 0x10000)
      = bytesAt selfPointerMemory 0x10000 0x1000 :=
    ReadMemoryChunk_ofMemory _ _ _ _ (by decide!)
  have hlen : (bytesAt selfPointerMemory 0x10000 0x1000).length = 4096 := length_bytesAt _ _ _
  have hne : bytesAt selfPointerMemory 0x10000 0x1000 ≠ [] := by
    intro e
    rw [e] at hlen
    exact absurd hlen (by decide)
  unfold FindPointersTo
  rw [hg, FindPointersTo_regionLoop_scan selfPointerProcess 0x10000
    { startAddress := 0x10000, endAddress := 0x11000, size := 0x1000,
      protection := PAGE_READWRITE, type := 0x20000 } [] []
    (bytesAt selfPointerMemory 0x10000 0x1000) (by decide) (by decide) hbuf hne, hlen]
  have hfuel : 4096 / 8 + 1 = 512 + 1 := by decide
  rw [hfuel, FindPointersTo.slotLoop, usub64_of_le _ _ (by omega) (by rw [hlen]; norm_num),
    hlen]
  have hp0 : readPointer (bytesAt selfPointerMemory 0x10000 0x1000) 0 = 0x10000 := by
    rw [readPointer_bytesAt _ _ _ _ (by decide)]
    decide
  rw [if_pos (show 0 ≤ 4096 - 8 by decide), if_neg (show ¬ (0 + 8 > 4096) by decide), hp0]
  simp only [beq_self_eq_true, if_true, List.nil_append, List.length_singleton]
  rw [if_neg (show ¬ (1 ≥ MAX_RESULTS) by decide),
    slotLoop_no_match _ _ _ (by rw [hlen]; decide) (by rw [hlen]; norm_num)]
  · rfl
  · intro k hk hk'
    rw [hlen] at hk'
    rw [readPointer_bytesAt _ _ _ _ hk']
    unfold selfPointerMemory
    have e : ∀ j, j < 8 → ¬ (0x10000 + k + j = 0x10002) := by intro j hj; omega
    rw [if_neg (by have := e 0 (by decide); omega), if_neg (e 1 (by decide)),
      if_neg (e 2 (by decide)), if_neg (e 3 (by decide)), if_neg (e 4 (by decide)),
      if_neg (e 5 (by decide)), if_neg (e 6 (by decide)), if_neg (e 7 (by decide))]
    decide

theorem expandLoop_self (p : TargetProcess) (finalAddress chainOffset : Nat)
    (r0 : PointerResult) (h : FindPointersTo p finalAddress 0 0 = some [r0]) :
    ∀ (results newResults : List PointerResult),
      (∀ e ∈ results, e.address = finalAddress) →
      FindPointerChain.expandLoop p finalAddress chainOffset results newResults =
        some (newResults ++ results.map fun _ =>
          { address := r0.address, pointsTo := finalAddress, offset := chainOffset }) := by
  intro results
  induction results with
  | nil => intro newResults _; simp [FindPointerChain.expandLoop]
  | cons e rest ih =>
    intro newResults hall
    rw [FindPointerChain.expandLoop, hall e (List.mem_cons_self _ _), h]
    simp only []
    rw [ih _ (fun x hx => hall x (List.mem_cons_of_mem _ hx))]
    simp

theorem depthLoop_self (p : TargetProcess) (finalAddress : Nat) (maxDepth : Int)
    (offsets : List Nat) (r0 : PointerResult)
    (h : FindPointersTo p finalAddress 0 0 = some [r0]) (hr : r0.address = finalAddress) :
    ∀ (fuel depth : Nat) (results : List PointerResult),
      (∀ e ∈ results, e.address = finalAddress) →
      ∃ l, FindPointerChain.depthLoop p finalAddress maxDepth offsets fuel depth results
          = some l ∧ l.length = doublingLength maxDepth fuel depth results.length := by
  intro fuel
  induction fuel with
  | zero => intro depth results _; exact ⟨results, rfl, rfl⟩
  | succ fuel ih =>
    intro depth results hall
    rw [FindPointerChain.depthLoop, doublingLength]
    by_cases hd : (depth : Int) < maxDepth
    · rw [if_pos hd, if_pos hd]
      simp only []
      rw [expandLoop_self p finalAddress _ r0 h results [] hall]
      simp only [List.nil_append, List.length_append, List.length_map]
      by_cases hc : results.length + results.length ≥ MAX_RESULTS
      · rw [if_pos hc, if_pos hc]
        exact ⟨_, rfl, by simp⟩
      · rw [if_neg hc, if_neg hc]
        have := ih (depth + 1) (results ++ results.map fun _ =>
          { address := r0.address, pointsTo := finalAddress,
            offset := if depth < offsets.length then offsets.getD depth 0 else 0 }) (by
            intro e he
            rcases List.mem_append.mp he with he | he
            · exact hall e he
            · obtain ⟨_, _, rfl⟩ := List.mem_map.mp he
              exact hr)
        simpa using this
    · rw [if_neg hd, if_neg hd]
      exact ⟨results, rfl, rfl⟩

theorem FindPointerChain_of_direct (p : TargetProcess) (finalAddress : Nat) (maxDepth : Int)
    (offsets : List Nat) (directPointers : List PointerResult)
    (h : FindPointersTo p finalAddress 0 0 = some directPointers)
    (hc : (!offsets.isEmpty && decide (maxDepth > 1)) = true) :
    FindPointerChain p finalAddress maxDepth offsets =
      FindPointerChain.depthLoop p finalAddress maxDepth offsets maxDepth.toNat 1
        directPointers := by
  unfold FindPointerChain
  rw [h]
  simp only []
  rw [if_pos hc]

theorem doublingLength_selfPointer : doublingLength 15 (15 : Int).toNat 1 1 = 16384 := by
  decide!

/-- C5 (failing input): one page whose first pointer slot holds its own address 0x10000.
`FindPointerChain(0x10000, maxDepth = 15, offsets = {0})` returns 16384 entries, more than
`MAX_RESULTS = 10000`. -/
theorem C5_FindPointerChain_exceeds_cap :
    ∃ l, FindPointerChain selfPointerProcess 0x10000 15 [0] = some l ∧
      l.length = 16384 ∧ MAX_RESULTS < 16384 := by
  obtain ⟨l, hl, hlen⟩ := depthLoop_self selfPointerProcess 0x10000 15 [0] _
    FindPointersTo_selfPointer rfl (15 : Int).toNat 1
    [{ address := 0x10000, pointsTo := 0x10000, offset := 0 }]
    (by intro e he; rw [List.mem_singleton.mp he])
  refine ⟨l, ?_, hlen.trans doublingLength_selfPointer, by decide⟩
  rw [FindPointerChain_of_direct selfPointerProcess 0x10000 15 [0] _
    FindPointersTo_selfPointer (by decide)]
  exact hl

end MemoryHelpers

/-! ### Capped collection over stepped offsets, and the slot loop of `FindPointersTo` -/

theorem filter_stepped_skip (step i m : Nat) (f : Nat → Bool) (hstep : 0 < step)
    (hi : i % step = 0) :
    ((List.range' (i + 1) m).filter fun k => decide (k % step = 0) && f k) =
      (List.range' (i + step) (m - (step - 1))).filter fun k => decide (k % step = 0) && f k := by
  have hnot : ∀ k, i < k → k < i + step → ¬ (k % step = 0) := by
    intro k h1 h2 h0
    obtain ⟨q, hq⟩ : ∃ q, i = step * q := ⟨i / step, by
      have := Nat.div_add_mod i step; omega⟩
    obtain ⟨q', hq'⟩ : ∃ q', k = step * q' := ⟨k / step, by
      have := Nat.div_add_mod k step; omega⟩
    subst hq hq'
    have h3 : q < q' := Nat.lt_of_mul_lt_mul_left h1
    have h4 : step * (q + 1) ≤ step * q' := Nat.mul_le_mul_left _ h3
    rw [Nat.mul_add, Nat.mul_one] at h4
    omega
  by_cases hm : m ≤ step - 1
  · have h0 : m - (step - 1) = 0 := by omega
    rw [h0, List.range'_zero, List.filter_nil, List.filter_eq_nil_iff]
    intro k hk
    rw [List.mem_range'_1] at hk
    simp only [Bool.and_eq_true, decide_eq_true_eq, not_and]
    intro h
    exact absurd h (hnot k (by omega) (by omega))
  · have hsplit : m = (m - (step - 1)) + (step - 1) := by omega
    have happ := List.range'_append_1 (i + 1) (step - 1) (m - (step - 1))
    have hs : i + 1 + (step - 1) = i + step := by omega
    rw [hs, ← hsplit] at happ
    rw [← happ, List.filter_append]
    have hnil : ((List.range' (i + 1) (step - 1)).filter
        fun k => decide (k % step = 0) && f k) = [] := by
      rw [List.filter_eq_nil_iff]
      intro k hk
      rw [List.mem_range'_1] at hk
      simp only [Bool.and_eq_true, decide_eq_true_eq, not_and]
      intro h
      exact absurd h (hnot k (by omega) (by omega))
    rw [hnil, List.nil_append]

theorem cappedCollect_eq {α : Type} (limit step cap : Nat) (test : Nat → Bool) (mk : Nat → α)
    (hstep : 0 < step) :
    ∀ (fuel i : Nat) (results : List α), i % step = 0 → results.length < cap →
      limit ≤ i + step * fuel →
      cappedCollect limit step cap test mk fuel i results =
        results ++ (((List.range' i (limit - i)).filter
          fun k => decide (k % step = 0) && test k).take (cap - results.length)).map mk := by
  intro fuel
  induction fuel with
  | zero =>
    intro i results _ _ hf
    have : limit - i = 0 := by omega
    simp [cappedCollect, this]
  | succ fuel ih =>
    intro i results hi hlen hf
    have hf' : limit ≤ i + step + step * fuel := by
      rw [Nat.mul_add, Nat.mul_one] at hf; omega
    unfold cappedCollect
    by_cases hlt : i < limit
    · have hr : limit - i = (limit - i - 1) + 1 := by omega
      have hnext : (i + step) % step = 0 := by
        rw [Nat.add_mod_right]; exact hi
      have hskip := filter_stepped_skip step i (limit - i - 1) test hstep hi
      have hcnt : limit - i - 1 - (step - 1) = limit - (i + step) := by omega
      rw [hcnt] at hskip
      rw [if_pos hlt, hr, List.range'_succ, List.filter_cons]
      by_cases ht : test i = true
      · have hc : (decide (i % step = 0) && test i) = true := by simp [hi, ht]
        rw [if_pos ht, if_pos hc, hskip, MemoryHelpers.take_sub_cons _ _ _ _ hlen]
        simp only [List.map_cons]
        by_cases hcap : (results ++ [mk i]).length ≥ cap
        · have hz : cap - (results.length + 1) = 0 := by
            simp at hcap; omega
          rw [if_pos hcap, hz]
          simp
        · rw [if_neg hcap, ih (i + step) _ hnext (by simp at hcap ⊢; omega) hf']
          simp
      · have hc : ¬ ((decide (i % step = 0) && test i) = true) := by simp [ht]
        rw [if_neg ht, if_neg hc, hskip, ih (i + step) results hnext hlen hf']
    · have : limit - i = 0 := by omega
      rw [if_neg hlt, this]
      simp

namespace MemoryHelpers

theorem FindPointersTo_slotLoop_collect (start targetAddress : Nat) (buffer : List Nat)
    (hb : 8 ≤ buffer.length) (h64 : buffer.length < 2 ^ 64) :
    ∀ (fuel i : Nat) (results : List PointerResult),
      FindPointersTo.slotLoop start targetAddress buffer fuel i results =
        some (cappedCollect (buffer.length - 8 + 1) 8 MAX_RESULTS
          (fun k => readPointer buffer k == targetAddress)
          (fun k => { address := wrap64 (start + k), pointsTo := targetAddress, offset := 0 })
          fuel i results) := by
  intro fuel
  induction fuel with
  | zero => intro i results; rfl
  | succ fuel ih =>
    intro i results
    unfold FindPointersTo.slotLoop cappedCollect
    rw [usub64_of_le _ _ hb h64]
    by_cases hi : i ≤ buffer.length - 8
    · have hlt : i < buffer.length - 8 + 1 := by omega
      have hin : ¬ (i + 8 > buffer.length) := by omega
      rw [if_pos hi, if_pos hlt, if_neg hin]
      by_cases ht : (readPointer buffer i == targetAddress) = true
      · rw [if_pos ht, if_pos ht]
        simp only []
        split
        · rfl
        · exact ih _ _
      · rw [if_neg ht, if_neg ht]
        exact ih _ _
    · have hlt : ¬ (i < buffer.length - 8 + 1) := by omega
      rw [if_neg hi, if_neg hlt]

theorem ReadMemoryChunk_length_le (p : TargetProcess) (a n : Nat) :
    (ReadMemoryChunk p a n).length ≤ n := by
  unfold ReadMemoryChunk ErrorHandler.safeReadMemory
  split
  · simp
  · rename_i bytes h
    split at h
    · exact absurd h (by simp)
    · split at h
      · exact absurd h (by simp)
      · split at h
        · exact absurd h (by simp)
        · rename_i bs _
          have : bytes = bs.take n := by simpa using h.symm
          rw [this, List.length_take]
          omega

theorem MAX_SCAN_SIZE_lt : MAX_SCAN_SIZE < 2 ^ 64 := by decide

/-! ### Claims on the pointer scans, the code scans and the regular-expression scan -/

/-- C11: for every process, final address and offsets vector, `FindPointerChain` with
`maxDepth = 1` returns what the direct scan `FindPointersTo` over the unbounded range
returns (the same list, or the same failure of a slot read). -/
theorem C11_FindPointerChain_depth_one_is_direct_scan (p : TargetProcess) (finalAddress : Nat)
    (offsets : List Nat) :
    FindPointerChain p finalAddress 1 offsets = FindPointersTo p finalAddress 0 0 := by
  unfold FindPointerChain
  cases FindPointersTo p finalAddress 0 0 with
  | none => rfl
  | some directPointers =>
    have hc : ¬ ((!offsets.isEmpty && decide ((1 : Int) > 1)) = true) := by simp
    simp only []
    rw [if_neg hc]

/-- C13 (failing input): one read-write page at 0x10000 in which the 8 bytes at 0x10004 and
the aligned slot at 0x10010 hold 0x10000. `FindPointersTo(0x10000, 0x10004, 0x10024)` reports
the address 0x10004, which is not a multiple of 8, and does not report the aligned slot
0x10010, which lies inside the bound and holds the target. -/
theorem C13_FindPointersTo_strides_from_searchStart :
    FindPointersTo strideProcess 0x10000 0x10004 0x10024 =
        some [{ address := 0x10004, pointsTo := 0x10000, offset := 0 }] ∧
      0x10004 % 8 ≠ 0 ∧
      0x10010 % 8 = 0 ∧ 0x10004 ≤ 0x10010 ∧ 0x10010 + 8 ≤ 0x10024 ∧
      readPointer (ReadMemoryChunk strideProcess 0x10010 8) 0 = 0x10000 := by
  decide!

/-- C16 (failing input): an executable page at 0x10000 whose last five bytes are
`E8 00 F0 FF FF`, a call at 0x10FFB to 0x10000. `FindCallInstructions(0x10000, 0x10FF0, 0)`
fetches the 16 bytes from 0x10FF0, the call site is at offset 11 with 11 + 5 = 16 inside the
buffer and its target is the requested address, yet the result is empty. -/
theorem C16_FindCallInstructions_misses_last_call_site :
    FindCallInstructions lastCallProcess 0x10000 0x10FF0 0 = some [] ∧
      (ReadMemoryChunk lastCallProcess 0x10FF0 0x10).length = 16 ∧
      (ReadMemoryChunk lastCallProcess 0x10FF0 0x10).getD 11 0 = 0xE8 ∧
      wrap64 (0x10FF0 + 11 + 5 + signExtend32 (littleEndian
        (((ReadMemoryChunk lastCallProcess 0x10FF0 0x10).drop (11 + 1)).take 4))) = 0x10000 ∧
      (GetMemoryRegions lastCallProcess true false).map (fun r => (r.startAddress, r.endAddress))
        = [(0x10000, 0x11000)] := by
  decide!

/-- C19 (failing input): a process whose only committed page is a read-write data page
holding `55 8B EC` at 0x10010. `ScanForCode({55 8B EC}, 0x10000, 0x10020)` returns the match
at 0x10010, although the page has no execute flag and the enumeration of the executable
regions is empty. -/
theorem C19_ScanForCode_scans_data_pages :
    ScanForCode dataPageProcess [0x55, 0x8B, 0xEC] 0x10000 0x10020 =
        [{ address := 0x10010, size := 3, data := [0x55, 0x8B, 0xEC] }] ∧
      (GetMemoryRegions dataPageProcess false false).map
        (fun r => (r.startAddress, r.endAddress, hasExecuteFlag r.protection))
        = [(0x10000, 0x11000, false)] ∧
      GetMemoryRegions dataPageProcess true false = [] := by
  decide!

/-- C20 (counterexample): with the `literalEngine`, the text `(` does not compile and the
text `Z` compiles and has no match in the zero bytes of `[0x10000, 0x10010)`; the two
requests return the same value, the empty list. -/
theorem C20_counterexample_same_outcome :
    literalEngine.compile [0x28] = none ∧
      literalEngine.compile [0x5A] = some [0x5A] ∧
      SearchRegexPattern literalEngine strideProcess [0x28] 0x10000 0x10010 = [] ∧
      SearchRegexPattern literalEngine strideProcess [0x5A] 0x10000 0x10010 = [] := by
  decide!

theorem SearchRegexPattern_regionLoop_no_match {R : Type} (engine : RegexEngine R)
    (p : TargetProcess) (regex : R) (searchStart searchEnd : Nat)
    (h : ∀ start size, engine.findAll regex (ReadMemoryChunk p start size) = []) :
    ∀ (regions : List MemoryRegionEx),
      SearchRegexPattern.regionLoop engine p regex searchStart searchEnd regions [] = [] := by
  intro regions
  induction regions with
  | nil => rfl
  | cons region rest ih =>
    rw [SearchRegexPattern.regionLoop]
    simp only [h, SearchRegexPattern.matchLoop, ih, ite_self]

theorem mem_ReadMemoryChunk_ofMemory (layout : List MEMORY_BASIC_INFORMATION) (mem : Nat → Nat)
    (a n b : Nat) (h : b ∈ ReadMemoryChunk (TargetProcess.ofMemory layout mem) a n) :
    ∃ x, b = mem x := by
  unfold ReadMemoryChunk ErrorHandler.safeReadMemory at h
  split at h
  · exact absurd h (List.not_mem_nil _)
  · rename_i bytes hb
    split at hb
    · exact absurd hb (by simp)
    · split at hb
      · exact absurd hb (by simp)
      · simp only [TargetProcess.ofMemory, Option.some.injEq] at hb
        rw [← hb] at h
        have h2 := List.mem_of_mem_take h
        unfold bytesAt at h2
        obtain ⟨k, _, hk⟩ := List.mem_map.mp h2
        exact ⟨_, hk.symm⟩

theorem literalEngine_absent_byte (c : Nat) (text : List Nat) (h : c ∉ text) :
    literalEngine.findAll [c] text = [] := by
  simp only [literalEngine, List.isEmpty_cons, Bool.false_eq_true, if_false, List.length_singleton,
    List.map_eq_nil_iff, List.filter_eq_nil_iff]
  intro i _ hi
  have hi2 : (text.drop i).take 1 = [c] := by simpa using hi
  have hc : c ∈ (text.drop i).take 1 := by rw [hi2]; exact List.mem_singleton_self c
  exact h (List.mem_of_mem_drop (List.mem_of_mem_take hc))

/-- C20 (amended): when the regex text does not compile, `SearchRegexPattern` returns the
empty match list (the error is caught and logged), which is also what it returns for a regex
that compiles and has no match in the memory it reads. -/
theorem C20_malformed_regex_returns_empty_list {R : Type} (engine : RegexEngine R)
    (p : TargetProcess) (bad good : List Nat) (regex : R) (searchStart searchEnd : Nat)
    (hbad : engine.compile bad = none) (hgood : engine.compile good = some regex)
    (hnone : ∀ start size, engine.findAll regex (ReadMemoryChunk p start size) = []) :
    SearchRegexPattern engine p bad searchStart searchEnd = [] ∧
      SearchRegexPattern engine p good searchStart searchEnd = [] := by
  unfold SearchRegexPattern
  rw [hbad, hgood]
  exact ⟨rfl, SearchRegexPattern_regionLoop_no_match engine p regex searchStart searchEnd
    hnone _⟩

theorem C20_witness :
    literalEngine.compile [0x28] = none ∧ literalEngine.compile [0x5A] = some [0x5A] ∧
      SearchRegexPattern literalEngine strideProcess [0x28] 0 0 = [] ∧
      SearchRegexPattern literalEngine strideProcess [0x5A] 0 0 = [] :=
  ⟨by decide, by decide,
    C20_malformed_regex_returns_empty_list literalEngine strideProcess [0x28] [0x5A] [0x5A] 0 0
      (by decide) (by decide) (by
        intro start size
        apply literalEngine_absent_byte
        intro hmem
        obtain ⟨x, hx⟩ := mem_ReadMemoryChunk_ofMemory _ _ _ _ _ hmem
        unfold strideMemory at hx
        split at hx
        · exact absurd hx (by decide)
        · split at hx
          · exact absurd hx (by decide)
          · exact absurd hx (by decide))⟩

/-! ### `CompareMemoryRegions` -/

theorem diffLoop_collect (region1Start : Nat) (buffer1 buffer2 : List Nat) :
    ∀ (fuel i : Nat) (differences : List Nat),
      CompareMemoryRegions.diffLoop region1Start buffer1 buffer2 fuel i differences =
        cappedCollect buffer1.length 1 MAX_RESULTS
          (fun k => buffer1.getD k 0 != buffer2.getD k 0)
          (fun k => wrap64 (region1Start + k)) fuel i differences := by
  intro fuel
  induction fuel with
  | zero => intro i differences; rfl
  | succ fuel ih =>
    intro i differences
    unfold CompareMemoryRegions.diffLoop cappedCollect
    simp only [ih]

theorem filter_step_one (test : Nat → Bool) (l : List Nat) :
    (l.filter fun k => decide (k % 1 = 0) && test k) = l.filter test := by
  congr 1
  funext k
  simp [Nat.mod_one]

theorem map_wrap64_of_lt (start n : Nat) (l : List Nat) (h : start + n ≤ 2 ^ 64)
    (hl : ∀ k ∈ l, k < n) : (l.map fun k => wrap64 (start + k)) = l.map fun k => start + k := by
  apply List.map_congr_left
  intro k hk
  have := hl k hk
  unfold wrap64
  exact Nat.mod_eq_of_lt (by omega)

/-- C15: for two fully readable ranges of the same length `n ≤ MAX_SCAN_SIZE` starting at
`r1` and `r2` that differ at fewer than 10000 offsets, `CompareMemoryRegions(r1, r2, n)`
returns exactly the addresses `r1 + i`, by ascending `i`, of the offsets `i < n` at which
the two ranges differ; for identical ranges it returns the empty list. -/
theorem C15_CompareMemoryRegions_reports_differing_offsets (p : TargetProcess)
    (r1 r2 n : Nat) (hn : n ≤ MAX_SCAN_SIZE)
    (h1 : (ReadMemoryChunk p r1 n).length = n) (h2 : (ReadMemoryChunk p r2 n).length = n)
    (hr : r1 + n ≤ 2 ^ 64)
    (hd : ((List.range n).filter fun i =>
      (ReadMemoryChunk p r1 n).getD i 0 != (ReadMemoryChunk p r2 n).getD i 0).length
        < MAX_RESULTS) :
    CompareMemoryRegions p r1 r2 n =
        ((List.range n).filter fun i =>
          (ReadMemoryChunk p r1 n).getD i 0 != (ReadMemoryChunk p r2 n).getD i 0).map
          (fun i => r1 + i) ∧
      (ReadMemoryChunk p r1 n = ReadMemoryChunk p r2 n → CompareMemoryRegions p r1 r2 n = []) := by
  have key : CompareMemoryRegions p r1 r2 n =
      ((List.range n).filter fun i =>
        (ReadMemoryChunk p r1 n).getD i 0 != (ReadMemoryChunk p r2 n).getD i 0).map
        (fun i => r1 + i) := by
    unfold CompareMemoryRegions
    have e1 : ¬ (n > MAX_SCAN_SIZE) := by omega
    rw [if_neg e1]
    simp only []
    generalize ReadMemoryChunk p r1 n = b1 at h1 hd ⊢
    generalize ReadMemoryChunk p r2 n = b2 at h2 hd ⊢
    have e2 : ¬ ((b1.length != b2.length) = true) := by simp [h1, h2]
    rw [if_neg e2, diffLoop_collect,
      cappedCollect_eq _ _ _ _ _ (by decide) _ _ _ (Nat.mod_one 0) (by decide) (by omega),
      filter_step_one, h1]
    simp only [Nat.sub_zero, ← List.range_eq_range', List.nil_append, List.length_nil]
    rw [List.take_of_length_le (by omega)]
    apply map_wrap64_of_lt r1 n _ hr
    intro k hk
    exact List.mem_range.mp (List.mem_of_mem_filter hk)
  refine ⟨key, ?_⟩
  intro heq
  rw [key, heq]
  simp

/-- The data page of `dataPageProcess` holds `55 8B EC` at 0x10010 and zeros at 0x10020: the
16-byte ranges at 0x10010 and 0x10020 differ at exactly the offsets 0, 1 and 2. -/
theorem C15_witness :
    CompareMemoryRegions dataPageProcess 0x10010 0x10020 16 = [0x10010, 0x10011, 0x10012] ∧
      CompareMemoryRegions dataPageProcess 0x10020 0x10030 16 = [] :=
  ⟨(C15_CompareMemoryRegions_reports_differing_offsets dataPageProcess 0x10010 0x10020 16
      (by decide) (by decide!) (by decide!) (by decide) (by decide!)).1.trans (by decide!),
    (C15_CompareMemoryRegions_reports_differing_offsets dataPageProcess 0x10020 0x10030 16
      (by decide) (by decide!) (by decide!) (by decide) (by decide!)).2 (by decide!)⟩

/-! ### `FindNullPointers` -/

theorem FindNullPointers_slotLoop_collect (start : Nat) (buffer : List Nat)
    (hb : 8 ≤ buffer.length) (h64 : buffer.length < 2 ^ 64) :
    ∀ (fuel i : Nat) (results : List Nat),
      FindNullPointers.slotLoop start buffer fuel i results =
        some (cappedCollect (buffer.length - 8 + 1) 8 MAX_RESULTS
          (fun k => readPointer buffer k == 0) (fun k => wrap64 (start + k))
          fuel i results) := by
  intro fuel
  induction fuel with
  | zero => intro i results; rfl
  | succ fuel ih =>
    intro i results
    unfold FindNullPointers.slotLoop cappedCollect
    rw [usub64_of_le _ _ hb h64]
    by_cases hi : i ≤ buffer.length - 8
    · have hlt : i < buffer.length - 8 + 1 := by omega
      have hin : ¬ (i + 8 > buffer.length) := by omega
      rw [if_pos hi, if_pos hlt, if_neg hin]
      by_cases ht : (readPointer buffer i == 0) = true
      · rw [if_pos ht, if_pos ht]
        simp only []
        split
        · rfl
        · exact ih _ _
      · rw [if_neg ht, if_neg ht]
        exact ih _ _
    · have hlt : ¬ (i < buffer.length - 8 + 1) := by omega
      rw [if_neg hi, if_neg hlt]

theorem FindNullPointers_regionLoop_skip (p : TargetProcess) (searchStart searchEnd : Nat)
    (rest : List MemoryRegionEx) (results : List Nat) :
    ∀ (skipped : List MemoryRegionEx),
      (∀ r ∈ skipped, r.endAddress ≤ searchStart ∨ searchEnd ≤ r.startAddress) →
      FindNullPointers.regionLoop p searchStart searchEnd (skipped ++ rest) results =
        FindNullPointers.regionLoop p searchStart searchEnd rest results := by
  intro skipped
  induction skipped with
  | nil => intro _; rfl
  | cons r more ih =>
    intro h
    have hr := h r (List.mem_cons_self _ _)
    have hskip : max searchStart r.startAddress ≥ min searchEnd r.endAddress := by omega
    rw [List.cons_append, FindNullPointers.regionLoop]
    simp only []
    rw [if_pos hskip]
    exact ih fun x hx => h x (List.mem_cons_of_mem _ hx)

theorem nullSlots_of_zero_block :
    ((List.range' 0 (128 - 8 + 1 - 0)).filter fun k =>
      decide (k % 8 = 0) && (readPointer (List.replicate 128 0) k == 0)) =
      (List.range 16).map fun k => 8 * k := by
  decide!

/-- C14: when the enumerated region holding `[B, B + 128)` reads back 128 zero bytes there
(16 zero-initialised pointer slots) and no other enumerated region meets that range,
`FindNullPointers(B, B + 128)` returns exactly the 16 addresses `B + 8 * k`, `k = 0..15`, in
ascending order. -/
theorem C14_FindNullPointers_sixteen_zero_slots (p : TargetProcess) (B : Nat)
    (before after : List MemoryRegionEx) (region : MemoryRegionEx)
    (hregions : GetMemoryRegions p false false = before ++ region :: after)
    (hstart : region.startAddress ≤ B) (hend : B + 128 ≤ region.endAddress)
    (hothers : ∀ r ∈ before ++ after, r.endAddress ≤ B ∨ B + 128 ≤ r.startAddress)
    (hspace : B + 128 ≤ 2 ^ 64)
    (hread : ReadMemoryChunk p B 128 = List.replicate 128 0) :
    FindNullPointers p B (B + 128) = some ((List.range 16).map fun k => B + 8 * k) := by
  unfold FindNullPointers
  rw [hregions, FindNullPointers_regionLoop_skip p B (B + 128) _ _ before
    (fun r hr => hothers r (List.mem_append_left _ hr)), FindNullPointers.regionLoop]
  have e1 : max B region.startAddress = B := by omega
  have e2 : min (B + 128) region.endAddress = B + 128 := by omega
  simp only []
  rw [e1, e2]
  have e3 : ¬ (B ≥ B + 128) := by omega
  have e4 : B + 128 - B = 128 := by omega
  have e5 : ¬ (128 > MAX_SCAN_SIZE) := by decide
  rw [if_neg e3, e4, if_neg e5, hread]
  have e6 : ¬ ((List.replicate 128 0).isEmpty = true) := by decide
  have hlen : (List.replicate 128 0).length = 128 := List.length_replicate _ _
  rw [if_neg e6, FindNullPointers_slotLoop_collect B _ (by rw [hlen]; decide)
    (by rw [hlen]; norm_num),
    cappedCollect_eq _ _ _ _ _ (by decide) _ _ _ (by rfl) (by decide)
      (by rw [hlen]; decide), hlen, nullSlots_of_zero_block]
  have hmap : ((((List.range 16).map fun k => 8 * k).take (MAX_RESULTS - ([] : List Nat).length)).map
      fun k => wrap64 (B + k)) = (List.range 16).map fun k => B + 8 * k := by
    rw [List.take_of_length_le (by simp [MAX_RESULTS]), List.map_map]
    apply List.map_congr_left
    intro k hk
    have := List.mem_range.mp hk
    unfold wrap64
    exact Nat.mod_eq_of_lt (by simp only [Function.comp]; omega)
  rw [hmap, List.nil_append, Option.some_bind,
    if_neg (by simp [MAX_RESULTS]),
    ← List.append_nil after, FindNullPointers_regionLoop_skip p B (B + 128) [] _ after
      (fun r hr => hothers r (List.mem_append_right _ hr))]
  rfl

/-- The data page of `dataPageProcess` is zero from 0x10020 on: the 16 slots from there. -/
theorem C14_witness :
    FindNullPointers dataPageProcess 0x10020 (0x10020 + 128) =
      some ((List.range 16).map fun k => 0x10020 + 8 * k) :=
  C14_FindNullPointers_sixteen_zero_slots dataPageProcess 0x10020 [] []
    { startAddress := 0x10000, endAddress := 0x11000, size := 0x1000,
      protection := PAGE_READWRITE, type := 0x20000 }
    (by decide!) (by decide) (by decide) (by simp) (by decide) (by decide!)

/-! ### The numeric scans `SearchInt32` and `SearchInt64` -/

theorem length_encodeLE (width : Nat) : ∀ n, (encodeLE width n).length = width := by
  induction width with
  | zero => intro n; rfl
  | succ width ih => intro n; rw [encodeLE, List.length_cons, ih]

theorem SearchBytePattern_allTrue_data (p : TargetProcess) (pattern : List Nat)
    (searchStart searchEnd : Nat) (m : PatternMatch)
    (h : m ∈ SearchBytePattern p pattern (List.replicate pattern.length true) searchStart
      searchEnd) : m.data = pattern := by
  unfold SearchBytePattern at h
  split at h
  · exact absurd h (List.not_mem_nil _)
  · rw [regionLoop_eq _ _ _ _ _ _ _ (by decide), List.nil_append] at h
    have h2 := List.mem_of_mem_take h
    obtain ⟨ms, hms, hm⟩ := List.mem_flatten.mp h2
    obtain ⟨region, _, rfl⟩ := List.mem_map.mp hms
    unfold SearchBytePattern.regionMatches at hm
    simp only [] at hm
    generalize (if searchStart > 0 then max searchStart region.startAddress
      else region.startAddress) = start at hm
    generalize (if searchEnd > 0 then min searchEnd region.endAddress
      else region.endAddress) = end_ at hm
    generalize ReadMemoryChunk p start (end_ - start) = buffer at hm
    by_cases h1 : start ≥ end_
    · rw [if_pos h1] at hm
      exact absurd hm (List.not_mem_nil _)
    rw [if_neg h1] at hm
    by_cases h2 : end_ - start > MAX_SCAN_SIZE
    · rw [if_pos h2] at hm
      exact absurd hm (List.not_mem_nil _)
    rw [if_neg h2] at hm
    by_cases h3 : (buffer.isEmpty || decide (buffer.length < pattern.length)) = true
    · rw [if_pos h3] at hm
      exact absurd hm (List.not_mem_nil _)
    rw [if_neg h3] at hm
    obtain ⟨i, hi, rfl⟩ := List.mem_map.mp hm
    obtain ⟨hir, hmatch⟩ := List.mem_filter.mp hi
    have hlt := List.mem_range.mp hir
    have hlen : ¬ (buffer.length < pattern.length) := by
      intro hc
      exact h3 (by simp [hc])
    have hd : pattern.length ≤ (buffer.drop i).length := by
      rw [List.length_drop]; omega
    exact (MatchesPattern_allTrue _ _ hd).mp hmatch

theorem mem_matchLoop (a : Nat) :
    ∀ (found : List PatternMatch) (results : List Nat),
      a ∈ FindFunctionPrologs.matchLoop found results →
        a ∈ results ∨ ∃ m ∈ found, m.address = a := by
  intro found
  induction found with
  | nil => intro results h; exact Or.inl h
  | cons m rest ih =>
    intro results h
    rw [FindFunctionPrologs.matchLoop] at h
    have hpush : a ∈ results ++ [m.address] → a ∈ results ∨ ∃ x ∈ m :: rest, x.address = a := by
      intro hx
      rcases List.mem_append.mp hx with hx | hx
      · exact Or.inl hx
      · exact Or.inr ⟨m, List.mem_cons_self _ _, (List.mem_singleton.mp hx).symm⟩
    split at h
    · exact hpush h
    · rcases ih _ h with h' | ⟨x, hx, hxa⟩
      · exact hpush h'
      · exact Or.inr ⟨x, List.mem_cons_of_mem _ hx, hxa⟩

theorem mem_patternLoop (p : TargetProcess) (searchStart searchEnd a : Nat) :
    ∀ (patterns : List (List Nat)) (results : List Nat),
      a ∈ FindFunctionPrologs.patternLoop p searchStart searchEnd patterns results →
        a ∈ results ∨ ∃ pattern ∈ patterns,
          ∃ m ∈ SearchBytePattern p pattern (List.replicate pattern.length true) searchStart
            searchEnd, m.address = a := by
  intro patterns
  induction patterns with
  | nil => intro results h; exact Or.inl h
  | cons pattern rest ih =>
    intro results h
    rw [FindFunctionPrologs.patternLoop] at h
    have hfound : a ∈ FindFunctionPrologs.matchLoop
        (SearchBytePattern p pattern (List.replicate pattern.length true) searchStart searchEnd)
        results →
        a ∈ results ∨ ∃ q ∈ pattern :: rest,
          ∃ m ∈ SearchBytePattern p q (List.replicate q.length true) searchStart searchEnd,
            m.address = a := by
      intro hx
      rcases mem_matchLoop a _ _ hx with hx | ⟨m, hm, hma⟩
      · exact Or.inl hx
      · exact Or.inr ⟨pattern, List.mem_cons_self _ _, m, hm, hma⟩
    split at h
    · exact hfound h
    · rcases ih _ h with h' | ⟨q, hq, hm⟩
      · exact hfound h'
      · exact Or.inr ⟨q, List.mem_cons_of_mem _ hq, hm⟩

theorem mem_eraseUnique (a : Nat) : ∀ (l : List Nat), a ∈ eraseUnique l → a ∈ l
  | [], h => h
  | [_], h => h
  | x :: y :: rest, h => by
    rw [eraseUnique] at h
    split at h
    · exact List.mem_cons_of_mem _ (mem_eraseUnique a (y :: rest) h)
    · rcases List.mem_cons.mp h with h | h
      · rw [h]; exact List.mem_cons_self _ _
      · exact List.mem_cons_of_mem _ (mem_eraseUnique a (y :: rest) h)

theorem sorted_eraseUnique : ∀ (l : List Nat), l.Sorted (· ≤ ·) → (eraseUnique l).Sorted (· < ·)
  | [], _ => List.sorted_nil
  | [a], _ => List.sorted_singleton a
  | x :: y :: rest, h => by
    have hcons := List.sorted_cons.mp h
    have ih := sorted_eraseUnique (y :: rest) hcons.2
    rw [eraseUnique]
    split
    · exact ih
    · rename_i hne
      apply List.sorted_cons.mpr
      refine ⟨?_, ih⟩
      intro b hb
      have hb' := mem_eraseUnique b _ hb
      have hxy : x ≤ y := hcons.1 y (List.mem_cons_self _ _)
      have hyb : y ≤ b := by
        rcases List.mem_cons.mp hb' with e | e
        · rw [e]
        · exact (List.sorted_cons.mp hcons.2).1 b e
      show x < b
      omega

/-- C17: for every process and caller bound, the list returned by `FindFunctionPrologs` is
strictly ascending (sorted, no address twice), and every element is the address of a match
that `SearchBytePattern` reports for one of the four prologue sequences `55 8B EC`,
`48 89 5C 24`, `48 83 EC`, `55 48 89 E5` under the all-true mask, the bytes copied at that
address being the sequence itself. -/
theorem C17_FindFunctionPrologs_strictly_ascending_prolog_addresses (p : TargetProcess)
    (searchStart searchEnd : Nat) :
    prologPatterns =
        [[0x55, 0x8B, 0xEC], [0x48, 0x89, 0x5C, 0x24], [0x48, 0x83, 0xEC],
         [0x55, 0x48, 0x89, 0xE5]] ∧
      (FindFunctionPrologs p searchStart searchEnd).Sorted (· < ·) ∧
      ∀ a ∈ FindFunctionPrologs p searchStart searchEnd,
        ∃ pattern ∈ prologPatterns,
          ∃ m ∈ SearchBytePattern p pattern (List.replicate pattern.length true) searchStart
            searchEnd, m.address = a ∧ m.data = pattern := by
  refine ⟨rfl, ?_, ?_⟩
  · exact sorted_eraseUnique _ (List.sorted_insertionSort _ _)
  · intro a ha
    have h1 := mem_eraseUnique a _ ha
    have h2 := (List.perm_insertionSort _ _).mem_iff.mp h1
    rcases mem_patternLoop p searchStart searchEnd a _ _ h2 with h3 | ⟨pattern, hp, m, hm, hma⟩
    · exact absurd h3 (List.not_mem_nil _)
    · exact ⟨pattern, hp, m, hm, hma, SearchBytePattern_allTrue_data p pattern _ _ m hm⟩

/-! ### The unbounded pointer scan and `FindPointerChain` -/

theorem FindPointersTo_regionLoop_total (p : TargetProcess) (targetAddress : Nat) :
    ∀ (regions : List MemoryRegionEx) (results : List PointerResult),
      results.length < MAX_RESULTS →
      (∀ region ∈ regions,
        ReadMemoryChunk p region.startAddress (region.endAddress - region.startAddress) = [] ∨
          8 ≤ (ReadMemoryChunk p region.startAddress
            (region.endAddress - region.startAddress)).length) →
      FindPointersTo.regionLoop p targetAddress 0 0 regions results =
        some (results ++ ((regions.map (FindPointersTo.regionMatches p targetAddress 0
          0)).flatten).take (MAX_RESULTS - results.length)) := by
  intro regions
  induction regions with
  | nil =>
    intro results _ _
    simp [FindPointersTo.regionLoop]
  | cons region rest ih =>
    intro results hlen hbuf
    have hrest := fun r hr => hbuf r (List.mem_cons_of_mem _ hr)
    have hb := hbuf region (List.mem_cons_self _ _)
    rw [FindPointersTo.regionLoop, List.map_cons, List.flatten_cons,
      FindPointersTo.regionMatches]
    simp only [gt_iff_lt, Nat.lt_irrefl, if_false]
    by_cases h1 : region.startAddress ≥ region.endAddress
    · rw [if_pos h1, if_pos h1]
      simpa using ih results hlen hrest
    rw [if_neg h1, if_neg h1]
    by_cases h2 : MAX_SCAN_SIZE < region.endAddress - region.startAddress
    · rw [if_pos h2, if_pos h2]
      simpa using ih results hlen hrest
    rw [if_neg h2, if_neg h2]
    have hle := ReadMemoryChunk_length_le p region.startAddress
      (region.endAddress - region.startAddress)
    generalize ReadMemoryChunk p region.startAddress
      (region.endAddress - region.startAddress) = buffer at hb hle ⊢
    have h64 : buffer.length < 2 ^ 64 := by
      have := MAX_SCAN_SIZE_lt
      omega
    by_cases h3 : buffer.isEmpty = true
    · have hz : buffer.length < 8 := by
        rw [List.isEmpty_iff] at h3
        rw [h3]; decide
      rw [if_pos h3, if_pos hz]
      simpa using ih results hlen hrest
    have h8 : 8 ≤ buffer.length := by
      rcases hb with hb | hb
      · rw [hb] at h3
        exact absurd rfl h3
      · exact hb
    have h4 : ¬ (buffer.length < 8) := by omega
    rw [if_neg h3, if_neg h4, FindPointersTo_slotLoop_collect _ _ _ h8 h64,
      cappedCollect_eq _ _ _ _ _ (by decide) _ _ _ (by rfl) hlen (by omega)]
    simp only [Nat.sub_zero, ← List.range_eq_range', List.map_take, Option.some_bind]
    generalize (((List.range (buffer.length - 8 + 1)).filter fun k =>
      decide (k % 8 = 0) && readPointer buffer k == targetAddress).map
      fun k => ({ address := wrap64 (region.startAddress + k), pointsTo := targetAddress,
                  offset := 0 } : PointerResult)) = ms
    by_cases h5 : MAX_RESULTS ≤ (results ++ ms.take (MAX_RESULTS - results.length)).length
    · rw [if_pos h5, capped_append_full _ _ _ _ h5]
    · rw [if_neg h5]
      have h5' := Nat.lt_of_not_le h5
      obtain ⟨e1, e2⟩ := capped_append_more _ _
        ((rest.map (FindPointersTo.regionMatches p targetAddress 0 0)).flatten) _ h5'
      rw [ih _ h5' hrest, e2, e1, List.append_assoc]

theorem FindPointersTo_total (p : TargetProcess) (targetAddress : Nat) (h : WholeSlotReads p) :
    FindPointersTo p targetAddress 0 0 =
      some ((FindPointersTo.allMatches p targetAddress).take MAX_RESULTS) := by
  unfold FindPointersTo FindPointersTo.allMatches
  rw [FindPointersTo_regionLoop_total p targetAddress _ [] (by decide) h]
  rfl

theorem mem_allMatches_of_PointerSlot (p : TargetProcess) (address value : Nat)
    (h : PointerSlot p address value) :
    ({ address := address, pointsTo := value, offset := 0 } : PointerResult) ∈
      FindPointersTo.allMatches p value := by
  obtain ⟨region, hregion, hlt, hsize, i, hi8, hin, haddr, hval⟩ := h
  unfold FindPointersTo.allMatches
  apply List.mem_flatten.mpr
  refine ⟨_, List.mem_map.mpr ⟨region, hregion, rfl⟩, ?_⟩
  unfold FindPointersTo.regionMatches
  simp only [gt_iff_lt, Nat.lt_irrefl, if_false]
  have h1 : ¬ (region.startAddress ≥ region.endAddress) := by omega
  have h2 : ¬ (MAX_SCAN_SIZE < region.endAddress - region.startAddress) := by omega
  rw [if_neg h1, if_neg h2]
  generalize ReadMemoryChunk p region.startAddress
    (region.endAddress - region.startAddress) = buffer at hin hval ⊢
  have h4 : ¬ (buffer.length < 8) := by omega
  rw [if_neg h4]
  apply List.mem_map.mpr
  refine ⟨i, List.mem_filter.mpr ⟨List.mem_range.mpr (by omega), ?_⟩, ?_⟩
  · simp [hi8, hval]
  · rw [haddr]

theorem expandLoop_total (p : TargetProcess) (finalAddress chainOffset : Nat)
    (h : WholeSlotReads p) :
    ∀ (results newResults : List PointerResult),
      FindPointerChain.expandLoop p finalAddress chainOffset results newResults =
        some (newResults ++ (results.map fun existingPtr =>
          ((FindPointersTo.allMatches p existingPtr.address).take MAX_RESULTS).map
            fun chainPtr => ({ address := chainPtr.address, pointsTo := finalAddress,
                               offset := chainOffset } : PointerResult)).flatten) := by
  intro results
  induction results with
  | nil => intro newResults; simp [FindPointerChain.expandLoop]
  | cons e rest ih =>
    intro newResults
    rw [FindPointerChain.expandLoop, FindPointersTo_total p e.address h]
    simp only []
    rw [ih, List.map_cons, List.flatten_cons, List.append_assoc]

theorem depthLoop_total (p : TargetProcess) (finalAddress : Nat) (maxDepth : Int)
    (offsets : List Nat) (h : WholeSlotReads p) :
    ∀ (fuel depth : Nat) (results : List PointerResult),
      ∃ l, FindPointerChain.depthLoop p finalAddress maxDepth offsets fuel depth results
          = some l ∧ results <+: l ∧
        (0 < fuel → (depth : Int) < maxDepth →
          ∃ chainOffset, (results ++ (results.map fun existingPtr =>
            ((FindPointersTo.allMatches p existingPtr.address).take MAX_RESULTS).map
              fun chainPtr => ({ address := chainPtr.address, pointsTo := finalAddress,
                                 offset := chainOffset } : PointerResult)).flatten) <+: l) := by
  intro fuel
  induction fuel with
  | zero =>
    intro depth results
    exact ⟨results, rfl, List.prefix_refl _, fun h0 => absurd h0 (Nat.lt_irrefl 0)⟩
  | succ fuel ih =>
    intro depth results
    rw [FindPointerChain.depthLoop]
    by_cases hd : (depth : Int) < maxDepth
    · rw [if_pos hd]
      simp only []
      rw [expandLoop_total p finalAddress _ h results []]
      simp only [List.nil_append]
      generalize (if depth < offsets.length then offsets.getD depth 0 else 0) = chainOffset
      generalize hnew : (results.map fun existingPtr =>
        ((FindPointersTo.allMatches p existingPtr.address).take MAX_RESULTS).map
          fun chainPtr => ({ address := chainPtr.address, pointsTo := finalAddress,
                             offset := chainOffset } : PointerResult)).flatten = newResults
      by_cases hc : (results ++ newResults).length ≥ MAX_RESULTS
      · rw [if_pos hc]
        refine ⟨_, rfl, List.prefix_append _ _, fun _ _ => ⟨chainOffset, ?_⟩⟩
        rw [hnew]
      · rw [if_neg hc]
        obtain ⟨l, hl, hpre, _⟩ := ih (depth + 1) (results ++ newResults)
        refine ⟨l, hl, (List.prefix_append _ _).trans hpre, fun _ _ => ⟨chainOffset, ?_⟩⟩
        rw [hnew]
        exact hpre
    · rw [if_neg hd]
      exact ⟨results, rfl, List.prefix_refl _, fun _ hlt => absurd hlt hd⟩

theorem take_eq_self_of_length_lt {α : Type} (l : List α) (n : Nat)
    (h : (l.take n).length < n) : l.take n = l := by
  rw [List.length_take] at h
  exact List.take_of_length_le (by omega)

theorem length_le_flatten_of_mem {α β : Type} (f : α → List β) (e : α) :
    ∀ (l : List α), e ∈ l → (f e).length ≤ ((l.map f).flatten).length := by
  intro l
  induction l with
  | nil => intro h; exact absurd h (List.not_mem_nil _)
  | cons x rest ih =>
    intro h
    rw [List.map_cons, List.flatten_cons, List.length_append]
    rcases List.mem_cons.mp h with h | h
    · rw [h]; omega
    · have := ih h
      omega

/-- C12 (amended): for every process whose region reads transfer nothing or at least one
whole slot, every final address `F`, every `maxDepth ≥ 2` and every non-empty offsets vector,
if a slot `P` fetched by the unbounded scan holds `F` and a slot `Q` fetched by it holds `P`,
then `FindPointerChain(F, maxDepth, offsets)` returns a list which, when the result cap is
not reached, contains an entry with address `Q` pointing to `F`. -/
theorem C12_FindPointerChain_finds_depth_two_link (p : TargetProcess) (F P Q : Nat)
    (maxDepth : Int) (offsets : List Nat) (hdepth : 2 ≤ maxDepth) (hoffsets : offsets ≠ [])
    (hreads : WholeSlotReads p) (hP : PointerSlot p P F) (hQ : PointerSlot p Q P) :
    ∃ l, FindPointerChain p F maxDepth offsets = some l ∧
      (l.length < MAX_RESULTS → ∃ e ∈ l, e.address = Q ∧ e.pointsTo = F) := by
  have hc : (!offsets.isEmpty && decide (maxDepth > 1)) = true := by
    have h1 : offsets.isEmpty = false := by
      cases offsets with
      | nil => exact absurd rfl hoffsets
      | cons _ _ => rfl
    have h2 : maxDepth > 1 := by omega
    simp [h1, h2]
  obtain ⟨l, hl, hpre, hnext⟩ := depthLoop_total p F maxDepth offsets hreads maxDepth.toNat 1
    ((FindPointersTo.allMatches p F).take MAX_RESULTS)
  refine ⟨l, ?_, ?_⟩
  · rw [FindPointerChain_of_direct p F maxDepth offsets _ (FindPointersTo_total p F hreads) hc]
    exact hl
  · intro hlen
    obtain ⟨chainOffset, hpre2⟩ := hnext (by omega) (by omega)
    have hlen1 := hpre.length_le
    have hdirect := take_eq_self_of_length_lt (FindPointersTo.allMatches p F) MAX_RESULTS
      (by omega)
    rw [hdirect] at hpre2
    have hPmem := mem_allMatches_of_PointerSlot p P F hP
    have hQmem := mem_allMatches_of_PointerSlot p Q P hQ
    have hlen2 := hpre2.length_le
    rw [List.length_append] at hlen2
    have hlen3 := length_le_flatten_of_mem (fun existingPtr : PointerResult =>
      ((FindPointersTo.allMatches p existingPtr.address).take MAX_RESULTS).map
        fun chainPtr => ({ address := chainPtr.address, pointsTo := F,
                           offset := chainOffset } : PointerResult)) _ _ hPmem
    simp only [List.length_map] at hlen3
    have hchain := take_eq_self_of_length_lt (FindPointersTo.allMatches p P) MAX_RESULTS
      (by omega)
    refine ⟨{ address := Q, pointsTo := F, offset := chainOffset }, ?_, rfl, rfl⟩
    apply hpre2.subset
    apply List.mem_append_right
    apply List.mem_flatten.mpr
    refine ⟨_, List.mem_map.mpr ⟨_, hPmem, rfl⟩, ?_⟩
    simp only []
    rw [hchain]
    exact List.mem_map.mpr ⟨_, hQmem, rfl⟩

/-! ### The two-link chain of `chainProcess` -/

theorem regionMatches_scan (p : TargetProcess) (targetAddress : Nat) (region : MemoryRegionEx)
    (buffer : List Nat) (h1 : region.startAddress < region.endAddress)
    (h2 : region.endAddress - region.startAddress ≤ MAX_SCAN_SIZE)
    (hb : ReadMemoryChunk p region.startAddress (region.endAddress - region.startAddress)
      = buffer) (h8 : 8 ≤ buffer.length) :
    FindPointersTo.regionMatches p targetAddress 0 0 region =
      ((List.range (buffer.length - 8 + 1)).filter fun k =>
        decide (k % 8 = 0) && readPointer buffer k == targetAddress).map
        fun k => { address := wrap64 (region.startAddress + k), pointsTo := targetAddress,
                   offset := 0 } := by
  unfold FindPointersTo.regionMatches
  simp only [gt_iff_lt, Nat.lt_irrefl, if_false]
  have e1 : ¬ (region.startAddress ≥ region.endAddress) := by omega
  have e2 : ¬ (MAX_SCAN_SIZE < region.endAddress - region.startAddress) := by omega
  have e3 : ¬ (buffer.length < 8) := by omega
  rw [if_neg e1, if_neg e2, hb, if_neg e3]

theorem PointerSlot_of_region (p : TargetProcess) (region : MemoryRegionEx) (buffer : List Nat)
    (i address value : Nat) (hmem : region ∈ GetMemoryRegions p false false)
    (h1 : region.startAddress < region.endAddress)
    (h2 : region.endAddress - region.startAddress ≤ MAX_SCAN_SIZE)
    (hb : ReadMemoryChunk p region.startAddress (region.endAddress - region.startAddress)
      = buffer)
    (hi : i % 8 = 0) (hin : i + 8 ≤ buffer.length)
    (haddr : address = wrap64 (region.startAddress + i))
    (hval : readPointer buffer i = value) : PointerSlot p address value := by
  refine ⟨region, hmem, h1, h2, i, hi, ?_, haddr, ?_⟩
  · rw [hb]; exact hin
  · rw [hb]; exact hval

theorem chainMemory_zero (a : Nat) (h1 : a ≠ 0x1000A) (h2 : a ≠ 0x10010) (h3 : a ≠ 0x10012) :
    chainMemory a = 0 := by
  unfold chainMemory
  rw [if_neg h1, if_neg h2, if_neg h3]

theorem chainProcess_regions :
    GetMemoryRegions chainProcess false false =
      [{ startAddress := 0x10000, endAddress := 0x11000, size := 0x1000,
         protection := PAGE_READWRITE, type := 0x20000 }] := by
  decide!

theorem chainProcess_buffer :
    ReadMemoryChunk chainProcess 0x10000 (0x11000 - 0x10000) =
      bytesAt chainMemory 0x10000 0x1000 :=
  ReadMemoryChunk_ofMemory _ _ _ _ (by decide!)

theorem chainProcess_readPointer (i : Nat) (hi : i + 8 ≤ 0x1000) (h8 : i % 8 = 0) :
    readPointer (bytesAt chainMemory 0x10000 0x1000) i =
      if i = 8 then 0x10000 else if i = 16 then 0x10008 else 0 := by
  rw [readPointer_bytesAt _ _ _ _ hi]
  by_cases e8 : i = 8
  · subst e8
    decide
  by_cases e16 : i = 16
  · subst e16
    decide
  rw [if_neg e8, if_neg e16,
    chainMemory_zero (0x10000 + i) (by omega) (by omega) (by omega),
    chainMemory_zero (0x10000 + i + 1) (by omega) (by omega) (by omega),
    chainMemory_zero (0x10000 + i + 2) (by omega) (by omega) (by omega),
    chainMemory_zero (0x10000 + i + 3) (by omega) (by omega) (by omega),
    chainMemory_zero (0x10000 + i + 4) (by omega) (by omega) (by omega),
    chainMemory_zero (0x10000 + i + 5) (by omega) (by omega) (by omega),
    chainMemory_zero (0x10000 + i + 6) (by omega) (by omega) (by omega),
    chainMemory_zero (0x10000 + i + 7) (by omega) (by omega) (by omega)]
  decide

theorem chainProcess_WholeSlotReads : WholeSlotReads chainProcess := by
  intro region hregion
  rw [chainProcess_regions] at hregion
  rw [List.mem_singleton.mp hregion]
  right
  show 8 ≤ (ReadMemoryChunk chainProcess 0x10000 (0x11000 - 0x10000)).length
  rw [chainProcess_buffer, length_bytesAt]
  decide

theorem chainProcess_slot (i address value : Nat) (hi : i % 8 = 0) (hin : i + 8 ≤ 0x1000)
    (haddr : address = 0x10000 + i)
    (hval : readPointer (bytesAt chainMemory 0x10000 0x1000) i = value) :
    PointerSlot chainProcess address value := by
  apply PointerSlot_of_region chainProcess
    { startAddress := 0x10000, endAddress := 0x11000, size := 0x1000,
      protection := PAGE_READWRITE, type := 0x20000 }
    (bytesAt chainMemory 0x10000 0x1000) i address value
  · rw [chainProcess_regions]
    exact List.mem_singleton_self _
  · decide
  · decide
  · exact chainProcess_buffer
  · exact hi
  · rw [length_bytesAt]; exact hin
  · rw [haddr]
    show 0x10000 + i = wrap64 (0x10000 + i)
    unfold wrap64
    exact (Nat.mod_eq_of_lt (by omega)).symm
  · exact hval

theorem chainProcess_allMatches :
    FindPointersTo.allMatches chainProcess 0x10000 =
      [{ address := 0x10008, pointsTo := 0x10000, offset := 0 }] := by
  unfold FindPointersTo.allMatches
  rw [chainProcess_regions, List.map_singleton, List.flatten_singleton,
    regionMatches_scan chainProcess 0x10000
      { startAddress := 0x10000, endAddress := 0x11000, size := 0x1000,
        protection := PAGE_READWRITE, type := 0x20000 }
      (bytesAt chainMemory 0x10000 0x1000)
      (by decide) (by decide) chainProcess_buffer (by rw [length_bytesAt]; decide),
    length_bytesAt,
    MemoryScanner.filter_range_of_unique _ 8 _ (by
      intro i hi
      by_cases h8 : i % 8 = 0
      · rw [chainProcess_readPointer i (by omega) h8]
        by_cases e8 : i = 8
        · simp [e8]
        · by_cases e16 : i = 16
          · simp [e16]
          · simp [h8, e8, e16]
      · have : ¬ (i = 8) := by omega
        simp [h8, this])]
  rfl

theorem FindPointerChain_of_empty_offsets (p : TargetProcess) (finalAddress : Nat)
    (maxDepth : Int) (directPointers : List PointerResult)
    (h : FindPointersTo p finalAddress 0 0 = some directPointers) :
    FindPointerChain p finalAddress maxDepth [] = some directPointers := by
  unfold FindPointerChain
  rw [h]
  rfl

theorem take_MAX_RESULTS_singleton (e : PointerResult) : [e].take MAX_RESULTS = [e] := rfl

/-- C12 as stated fails for the empty offsets vector, the default: in `chainProcess` the
slot `P = 0x10008` holds `F = 0x10000` and the slot `Q = 0x10010` holds `P`, yet
`FindPointerChain(F, maxDepth = 2, offsets = {})` returns the direct pointer alone, far below
the result cap, and no entry has the address `Q`. -/
theorem C12_counterexample_empty_offsets :
    PointerSlot chainProcess 0x10008 0x10000 ∧ PointerSlot chainProcess 0x10010 0x10008 ∧
      FindPointerChain chainProcess 0x10000 2 [] =
        some [{ address := 0x10008, pointsTo := 0x10000, offset := 0 }] ∧
      ¬ ∃ e ∈ [({ address := 0x10008, pointsTo := 0x10000, offset := 0 } : PointerResult)],
        e.address = 0x10010 := by
  refine ⟨?_, ?_, ?_, ?_⟩
  · exact chainProcess_slot 8 _ _ (by decide) (by decide) rfl
      (by rw [chainProcess_readPointer 8 (by decide) (by decide)]; rfl)
  · exact chainProcess_slot 16 _ _ (by decide) (by decide) rfl
      (by rw [chainProcess_readPointer 16 (by decide) (by decide)]; rfl)
  · rw [FindPointerChain_of_empty_offsets chainProcess 0x10000 2 _
      (FindPointersTo_total chainProcess 0x10000 chainProcess_WholeSlotReads),
      chainProcess_allMatches, take_MAX_RESULTS_singleton]
  · decide

/-- With the offsets vector `{0}` the chain of `chainProcess` is followed: the result of
`FindPointerChain(0x10000, 2, {0})` holds an entry with address `Q = 0x10010`. -/
theorem C12_witness :
    ∃ l, FindPointerChain chainProcess 0x10000 2 [0] = some l ∧
      (l.length < MAX_RESULTS → ∃ e ∈ l, e.address = 0x10010 ∧ e.pointsTo = 0x10000) :=
  C12_FindPointerChain_finds_depth_two_link chainProcess 0x10000 0x10008 0x10010 2 [0]
    (by decide) (by decide) chainProcess_WholeSlotReads
    (chainProcess_slot 8 _ _ (by decide) (by decide) rfl
      (by rw [chainProcess_readPointer 8 (by decide) (by decide)]; rfl))
    (chainProcess_slot 16 _ _ (by decide) (by decide) rfl
      (by rw [chainProcess_readPointer 16 (by decide) (by decide)]; rfl))

end MemoryHelpers

namespace MemoryHelpers

/-! ### Region filters, short buffers and the bound 0 of `FindNullPointers` -/

/-- C21 (failing input): a mapped image with a committed `PAGE_EXECUTE_WRITECOPY` page at
0x10000 and a committed `PAGE_WRITECOPY` page at 0x11000. `GetMemoryRegions` returns neither
for `executableOnly` nor for `writableOnly`, although both pass when no filter is set, while
`MemoryScanner::getExecutableRegions` returns the first and `getWritableRegions` both. -/
theorem C21_GetMemoryRegions_misses_copy_on_write_pages :
    GetMemoryRegions copyOnWriteProcess true false = [] ∧
      GetMemoryRegions copyOnWriteProcess false true = [] ∧
      (GetMemoryRegions copyOnWriteProcess false false).map
          (fun r => (r.startAddress, r.endAddress, r.protection)) =
        [(0x10000, 0x11000, PAGE_EXECUTE_WRITECOPY), (0x11000, 0x12000, PAGE_WRITECOPY)] ∧
      (MemoryScanner.getExecutableRegions copyOnWriteProcess).map
          (fun r => (r.baseAddress, r.protection)) =
        [(0x10000, PAGE_EXECUTE_WRITECOPY)] ∧
      (MemoryScanner.getWritableRegions copyOnWriteProcess).map
          (fun r => (r.baseAddress, r.protection)) =
        [(0x10000, PAGE_EXECUTE_WRITECOPY), (0x11000, PAGE_WRITECOPY)] := by
  decide!

/-- An executable page at 0x10000 with the opcode `E8` at 0x10FFD:
`FindCallInstructions(target, 0x10FFD, 0)` fetches the 3 bytes `E8 00 00`; the loop bound
`buffer.size() - 5` wraps to 2^64 - 2, the opcode at offset 0 is examined, and the
displacement is read from the offsets 1..4, beyond the 3 bytes of the buffer, so no list is
returned. -/
theorem FindCallInstructions_short_buffer :
    FindCallInstructions shortCallProcess 0x10000 0x10FFD 0 = none ∧
      ReadMemoryChunk shortCallProcess 0x10FFD (0x11000 - 0x10FFD) = [0xE8, 0, 0] ∧
      usub64 ([0xE8, 0, 0] : List Nat).length 5 = 2 ^ 64 - 2 ∧
      ¬ (0 + 5 ≤ ([0xE8, 0, 0] : List Nat).length) := by
  decide!

/-- C27 (failing input): with the caller bound starting 2 bytes before the end of the page,
the fetched buffer has 2 bytes and the pattern `ABC` has 3: the loop bound
`buffer.size() - pattern.size()` wraps to 2^64 - 1, offset 0 is examined and the window
`[0, 3)` leaves the buffer. The same happens in the UTF-16 path for a 1-byte buffer and the
pattern `A` (2 bytes wide). -/
theorem C27_SearchStringPattern_reads_past_short_buffer :
    SearchStringPattern strideProcess [0x41, 0x42, 0x43] true false 0x10FFE 0 = none ∧
      ReadMemoryChunk strideProcess 0x10FFE (0x11000 - 0x10FFE) = [0, 0] ∧
      usub64 ([0, 0] : List Nat).length ([0x41, 0x42, 0x43] : List Nat).length = 2 ^ 64 - 1 ∧
      SearchStringPattern strideProcess [0x41] true true 0x10FFF 0 = none ∧
      ReadMemoryChunk strideProcess 0x10FFF (0x11000 - 0x10FFF) = [0] ∧
      usub64 ([0] : List Nat).length (widePatternBytes [0x41]).length = 2 ^ 64 - 1 := by
  decide!

/-- C28 (failing input): with the caller bound starting 4 bytes before the end of the page,
the fetched buffer has 4 bytes: the loop bound `buffer.size() - sizeof(uintptr_t)` wraps to
2^64 - 4, and both `FindPointersTo` and `FindNullPointers` read the slot `[0, 8)`, which
leaves the buffer. -/
theorem C28_pointer_scans_read_past_short_buffer :
    FindPointersTo strideProcess 0x10000 0x10FFC 0 = none ∧
      FindNullPointers strideProcess 0x10FFC 0x11000 = none ∧
      ReadMemoryChunk strideProcess 0x10FFC (0x11000 - 0x10FFC) = [0, 0, 0, 0] ∧
      usub64 ([0, 0, 0, 0] : List Nat).length 8 = 2 ^ 64 - 4 ∧
      ¬ (0 + 8 ≤ ([0, 0, 0, 0] : List Nat).length) := by
  decide!

/-- C29: for every process and every `searchStart`, `FindNullPointers(searchStart, 0)`
returns the empty list: every region is intersected with the range `[searchStart, 0)`. -/
theorem C29_FindNullPointers_searchEnd_zero_is_empty (p : TargetProcess) (searchStart : Nat) :
    FindNullPointers p searchStart 0 = some [] := by
  unfold FindNullPointers
  rw [← List.append_nil (GetMemoryRegions p false false),
    FindNullPointers_regionLoop_skip p searchStart 0 [] [] (GetMemoryRegions p false false)
      (fun r _ => Or.inr (Nat.zero_le _))]
  rfl

end MemoryHelpers

namespace MemoryHelpers

/-! ### `GetAlignment` -/

theorem GetAlignment_loop_exit (a : Nat) :
    ∀ (n j fuel : Nat), j + n = 13 → n < fuel →
      ∃ J, j ≤ J ∧ J ≤ 13 ∧ GetAlignment.loop a fuel (2 ^ j) = some (2 ^ J) ∧
        (∀ i, j ≤ i → i < J → 2 ^ i ∣ a) ∧ (J < 13 → ¬ 2 ^ J ∣ a) := by
  intro n
  induction n with
  | zero =>
    intro j fuel hj hfuel
    obtain ⟨fuel, rfl⟩ : ∃ f, fuel = f + 1 := ⟨fuel - 1, by omega⟩
    have e : j = 13 := by omega
    subst e
    refine ⟨13, Nat.le_refl _, Nat.le_refl _, ?_, fun i h1 h2 => by omega, fun h => by omega⟩
    rw [GetAlignment.loop]
    have hc : ¬ (((a &&& usub64 (2 ^ 13) 1) == 0 && decide (2 ^ 13 ≤ 4096)) = true) := by
      simp
    rw [if_neg hc]
  | succ n ih =>
    intro j fuel hj hfuel
    obtain ⟨fuel, rfl⟩ : ∃ f, fuel = f + 1 := ⟨fuel - 1, by omega⟩
    have hj12 : j ≤ 12 := by omega
    have hpow : 2 ^ j ≤ 2 ^ 12 := Nat.pow_le_pow_right (by decide) hj12
    have hpos : 1 ≤ 2 ^ j := Nat.one_le_two_pow
    have hsub : usub64 (2 ^ j) 1 = 2 ^ j - 1 := usub64_of_le _ _ hpos (by norm_num at hpow ⊢; omega)
    have hshift : wrap64 (2 ^ j <<< 1) = 2 ^ (j + 1) := by
      rw [Nat.shiftLeft_eq, ← Nat.pow_succ]
      unfold wrap64
      apply Nat.mod_eq_of_lt
      have : 2 ^ (j + 1) ≤ 2 ^ 13 := Nat.pow_le_pow_right (by decide) (by omega)
      norm_num at this ⊢
      omega
    rw [GetAlignment.loop, hsub, Nat.and_pow_two_sub_one_eq_mod, hshift]
    by_cases hdiv : 2 ^ j ∣ a
    · have hc : ((a % 2 ^ j == 0) && decide (2 ^ j ≤ 4096)) = true := by
        have h0 : a % 2 ^ j = 0 := Nat.mod_eq_zero_of_dvd hdiv
        have h1 : 2 ^ j ≤ 4096 := by norm_num at hpow; exact hpow
        simp [h0, h1]
      rw [if_pos hc]
      obtain ⟨J, hJ1, hJ2, hJ3, hJ4, hJ5⟩ := ih (j + 1) fuel (by omega) (by omega)
      refine ⟨J, by omega, hJ2, hJ3, ?_, hJ5⟩
      intro i h1 h2
      by_cases e : i = j
      · rw [e]; exact hdiv
      · exact hJ4 i (by omega) h2
    · have hc : ¬ (((a % 2 ^ j == 0) && decide (2 ^ j ≤ 4096)) = true) := by
        have h0 : ¬ (a % 2 ^ j = 0) := fun h => hdiv (Nat.dvd_of_mod_eq_zero h)
        simp [h0]
      rw [if_neg hc]
      exact ⟨j, Nat.le_refl _, by omega, rfl, fun i h1 h2 => by omega, fun _ => hdiv⟩

theorem GetAlignment_exit (a : Nat) (ha : a ≠ 0) :
    ∃ J, J ≤ 12 ∧ GetAlignment a = some (2 ^ J) ∧ 2 ^ J ∣ a ∧ (J < 12 → ¬ 2 ^ (J + 1) ∣ a) := by
  obtain ⟨J, _, hJ2, hJ3, hJ4, hJ5⟩ := GetAlignment_loop_exit a 13 0 64 (by decide) (by decide)
  have hJ1 : 1 ≤ J := by
    by_contra h
    have e : J = 0 := by omega
    subst e
    exact hJ5 (by decide) (Nat.one_dvd a)
  obtain ⟨K, rfl⟩ : ∃ K, J = K + 1 := ⟨J - 1, by omega⟩
  refine ⟨K, by omega, ?_, hJ4 K (Nat.zero_le _) (by omega), fun h => hJ5 (by omega)⟩
  unfold GetAlignment
  have e0 : ¬ ((a == 0) = true) := by simpa using ha
  have hJ3' : GetAlignment.loop a 64 1 = some (2 ^ (K + 1)) := hJ3
  rw [if_neg e0, hJ3', Option.map_some', Nat.shiftRight_eq_div_pow, Nat.pow_one, Nat.pow_succ,
    Nat.mul_div_cancel _ (by decide : 0 < 2)]

/-- C24 as stated fails at the address 0: every power of two divides 0, so the largest one
capped at 4096 is 4096, but `GetAlignment(0)` returns 0, which is not a power of two. -/
theorem C24_counterexample_zero :
    GetAlignment 0 = some 0 ∧ 4096 ∣ 0 ∧ ¬ ∃ j, 0 = 2 ^ j := by
  refine ⟨rfl, Nat.dvd_zero _, ?_⟩
  rintro ⟨j, hj⟩
  exact absurd hj.symm (Nat.pos_iff_ne_zero.mp (Nat.two_pow_pos j))

/-- C24 (amended): for every non-zero address `a`, `GetAlignment(a)` returns the largest power
of two that divides `a`, capped at 4096: a power of two of at most 4096 that divides `a` and
is at least every power of two of at most 4096 that divides `a`. For the address 0 it
returns 0. -/
theorem C24_GetAlignment_largest_dividing_power_capped (a : Nat) (ha : a ≠ 0) :
    (∃ r, GetAlignment a = some r ∧ (∃ j, r = 2 ^ j) ∧ r ≤ 4096 ∧ r ∣ a ∧
      ∀ j, 2 ^ j ≤ 4096 → 2 ^ j ∣ a → 2 ^ j ≤ r) ∧
    GetAlignment 0 = some 0 := by
  refine ⟨?_, rfl⟩
  obtain ⟨J, hJ1, hJ2, hJ3, hJ4⟩ := GetAlignment_exit a ha
  have hle : 2 ^ J ≤ 2 ^ 12 := Nat.pow_le_pow_right (by decide) hJ1
  refine ⟨2 ^ J, hJ2, ⟨J, rfl⟩, by norm_num at hle ⊢; exact hle, hJ3, ?_⟩
  intro j hj hdiv
  apply Nat.pow_le_pow_right (by decide)
  by_contra hlt
  have hJj : J + 1 ≤ j := by omega
  have hj12 : j ≤ 12 := by
    by_contra h13
    have : 2 ^ 13 ≤ 2 ^ j := Nat.pow_le_pow_right (by decide) (by omega)
    norm_num at this
    omega
  exact hJ4 (by omega) (Nat.dvd_trans (Nat.pow_dvd_pow 2 hJj) hdiv)

theorem C24_witness :
    (∃ r, GetAlignment 0x10008 = some r ∧ (∃ j, r = 2 ^ j) ∧ r ≤ 4096 ∧ r ∣ 0x10008 ∧
      ∀ j, 2 ^ j ≤ 4096 → 2 ^ j ∣ 0x10008 → 2 ^ j ≤ r) ∧
    GetAlignment 0 = some 0 :=
  C24_GetAlignment_largest_dividing_power_capped 0x10008 (by decide)

/-- C30: for every non-zero address `a`, `GetAlignment(a)` ends and returns `min(2^k, 4096)`,
where `2^k` is the largest power of two dividing `a`; the result is a power of two between 1
and 4096 that divides `a`. For `a = 0` it returns 0. -/
theorem C30_GetAlignment_is_min_of_two_part_and_4096 (a : Nat) (ha : a ≠ 0) :
    (∃ k, 2 ^ k ∣ a ∧ ¬ 2 ^ (k + 1) ∣ a ∧ GetAlignment a = some (min (2 ^ k) 4096) ∧
      (∃ j, min (2 ^ k) 4096 = 2 ^ j) ∧ 1 ≤ min (2 ^ k) 4096 ∧ min (2 ^ k) 4096 ≤ 4096 ∧
      min (2 ^ k) 4096 ∣ a) ∧
    GetAlignment 0 = some 0 := by
  refine ⟨?_, rfl⟩
  obtain ⟨J, hJ1, hJ2, hJ3, hJ4⟩ := GetAlignment_exit a ha
  obtain ⟨k, m, hm, hkm⟩ := Nat.exists_eq_two_pow_mul_odd ha
  have hk1 : 2 ^ k ∣ a := ⟨m, hkm⟩
  have hk2 : ¬ 2 ^ (k + 1) ∣ a := by
    rw [hkm, Nat.pow_succ]
    intro h
    have h2 : 2 ∣ m := (Nat.mul_dvd_mul_iff_left (Nat.two_pow_pos k)).mp h
    have := Nat.odd_iff.mp hm
    omega
  have hJk : J ≤ k := by
    by_contra h
    exact hk2 (Nat.dvd_trans (Nat.pow_dvd_pow 2 (by omega)) hJ3)
  have hle : 2 ^ J ≤ 2 ^ 12 := Nat.pow_le_pow_right (by decide) hJ1
  have hmin : min (2 ^ k) 4096 = 2 ^ J := by
    by_cases h12 : J < 12
    · have hkJ : k ≤ J := by
        by_contra h
        exact hJ4 h12 (Nat.dvd_trans (Nat.pow_dvd_pow 2 (by omega)) hk1)
      have e : k = J := by omega
      rw [e]
      norm_num at hle
      omega
    · have e : J = 12 := by omega
      rw [e]
      have : 2 ^ 12 ≤ 2 ^ k := Nat.pow_le_pow_right (by decide) (by omega)
      norm_num at this ⊢
      omega
  refine ⟨k, hk1, hk2, ?_, ⟨J, hmin⟩, ?_, ?_, ?_⟩
  · rw [hmin]; exact hJ2
  · rw [hmin]; exact Nat.one_le_two_pow
  · exact Nat.min_le_right _ _
  · rw [hmin]; exact hJ3

theorem C30_witness :
    (∃ k, 2 ^ k ∣ 0x30000 ∧ ¬ 2 ^ (k + 1) ∣ 0x30000 ∧
      GetAlignment 0x30000 = some (min (2 ^ k) 4096) ∧
      (∃ j, min (2 ^ k) 4096 = 2 ^ j) ∧ 1 ≤ min (2 ^ k) 4096 ∧ min (2 ^ k) 4096 ≤ 4096 ∧
      min (2 ^ k) 4096 ∣ 0x30000) ∧
    GetAlignment 0 = some 0 :=
  C30_GetAlignment_is_min_of_two_part_and_4096 0x30000 (by decide)

end MemoryHelpers

namespace MemoryHelpers

/-! ### The depths of `FindPointerChain` on `chainProcess` -/

theorem chainProcess_allMatches_at (T k : Nat)
    (hT : ∀ i, i < 4096 - 8 + 1 → i % 8 = 0 →
      ((if i = 8 then 0x10000 else if i = 16 then 0x10008 else 0) = T ↔ i = k))
    (hk : k % 8 = 0 ∨ 4096 - 8 + 1 ≤ k) :
    FindPointersTo.allMatches chainProcess T =
      (if k < 4096 - 8 + 1 then [k] else []).map
        fun i => { address := wrap64 (0x10000 + i), pointsTo := T, offset := 0 } := by
  unfold FindPointersTo.allMatches
  rw [chainProcess_regions, List.map_singleton, List.flatten_singleton,
    regionMatches_scan chainProcess T
      { startAddress := 0x10000, endAddress := 0x11000, size := 0x1000,
        protection := PAGE_READWRITE, type := 0x20000 }
      (bytesAt chainMemory 0x10000 0x1000)
      (by decide) (by decide) chainProcess_buffer (by rw [length_bytesAt]; decide),
    length_bytesAt,
    MemoryScanner.filter_range_of_unique _ k _ (by
      intro i hi
      by_cases h8 : i % 8 = 0
      · rw [chainProcess_readPointer i (by omega) h8]
        have := hT i hi h8
        simp only [Bool.and_eq_true, decide_eq_true_eq, beq_iff_eq]
        constructor
        · intro h; exact this.mp h.2
        · intro h; exact ⟨h8, this.mpr h⟩
      · have hne : ¬ (i = k) := by
          intro e
          rcases hk with hk | hk
          · rw [e] at h8; exact h8 hk
          · omega
        simp [h8, hne])]

theorem expandLoop_cons (p : TargetProcess) (finalAddress chainOffset : Nat)
    (existingPtr : PointerResult) (rest newResults chainPointers : List PointerResult)
    (h : FindPointersTo p existingPtr.address 0 0 = some chainPointers) :
    FindPointerChain.expandLoop p finalAddress chainOffset (existingPtr :: rest) newResults =
      FindPointerChain.expandLoop p finalAddress chainOffset rest
        (newResults ++ chainPointers.map fun chainPtr =>
          { address := chainPtr.address, pointsTo := finalAddress, offset := chainOffset }) := by
  rw [FindPointerChain.expandLoop, h]

theorem expandLoop_nil (p : TargetProcess) (finalAddress chainOffset : Nat)
    (newResults : List PointerResult) :
    FindPointerChain.expandLoop p finalAddress chainOffset [] newResults = some newResults :=
  rfl

theorem depthLoop_step (p : TargetProcess) (finalAddress : Nat) (maxDepth : Int)
    (offsets : List Nat) (fuel depth : Nat) (results newResults : List PointerResult)
    (hfuel : 0 < fuel) (hd : (depth : Int) < maxDepth)
    (hexp : FindPointerChain.expandLoop p finalAddress
      (if depth < offsets.length then offsets.getD depth 0 else 0) results [] = some newResults)
    (hcap : (results ++ newResults).length < MAX_RESULTS) :
    FindPointerChain.depthLoop p finalAddress maxDepth offsets fuel depth results =
      FindPointerChain.depthLoop p finalAddress maxDepth offsets (fuel - 1) (depth + 1)
        (results ++ newResults) := by
  obtain ⟨fuel, rfl⟩ : ∃ f, fuel = f + 1 := ⟨fuel - 1, by omega⟩
  rw [FindPointerChain.depthLoop, if_pos hd]
  simp only []
  rw [hexp]
  simp only []
  rw [if_neg (by omega)]
  rfl

theorem depthLoop_done (p : TargetProcess) (finalAddress : Nat) (maxDepth : Int)
    (offsets : List Nat) (depth : Nat) (results : List PointerResult)
    (hd : ¬ ((depth : Int) < maxDepth)) :
    ∀ fuel, FindPointerChain.depthLoop p finalAddress maxDepth offsets fuel depth results =
      some results := by
  intro fuel
  cases fuel with
  | zero => rfl
  | succ fuel => rw [FindPointerChain.depthLoop, if_neg hd]

theorem chainProcess_pointers_to_F :
    FindPointersTo chainProcess 0x10000 0 0 =
      some [{ address := 0x10008, pointsTo := 0x10000, offset := 0 }] := by
  rw [FindPointersTo_total chainProcess 0x10000 chainProcess_WholeSlotReads,
    chainProcess_allMatches, take_MAX_RESULTS_singleton]

theorem chainProcess_pointers_to_P :
    FindPointersTo chainProcess 0x10008 0 0 =
      some [{ address := 0x10010, pointsTo := 0x10008, offset := 0 }] := by
  rw [FindPointersTo_total chainProcess 0x10008 chainProcess_WholeSlotReads,
    chainProcess_allMatches_at 0x10008 16 (by
      intro i hi _
      by_cases e8 : i = 8
      · rw [if_pos e8]; omega
      · by_cases e16 : i = 16
        · rw [if_neg e8, if_pos e16]; omega
        · rw [if_neg e8, if_neg e16]; omega) (by decide)]
  rfl

theorem chainProcess_pointers_to_Q :
    FindPointersTo chainProcess 0x10010 0 0 = some [] := by
  rw [FindPointersTo_total chainProcess 0x10010 chainProcess_WholeSlotReads,
    chainProcess_allMatches_at 0x10010 (4096 - 8 + 1) (by
      intro i hi _
      by_cases e8 : i = 8
      · rw [if_pos e8]; omega
      · by_cases e16 : i = 16
        · rw [if_neg e8, if_pos e16]; omega
        · rw [if_neg e8, if_neg e16]; omega)
      (by decide)]
  rfl

theorem chainProcess_expand_first :
    FindPointerChain.expandLoop chainProcess 0x10000 0
        [{ address := 0x10008, pointsTo := 0x10000, offset := 0 }] [] =
      some [{ address := 0x10010, pointsTo := 0x10000, offset := 0 }] := by
  rw [expandLoop_cons chainProcess 0x10000 0 { address := 0x10008, pointsTo := 0x10000, offset := 0 } [] []
      [{ address := 0x10010, pointsTo := 0x10008, offset := 0 }] chainProcess_pointers_to_P,
    expandLoop_nil]
  rfl

theorem chainProcess_expand_second :
    FindPointerChain.expandLoop chainProcess 0x10000 0
        ([{ address := 0x10008, pointsTo := 0x10000, offset := 0 }] ++
          [{ address := 0x10010, pointsTo := 0x10000, offset := 0 }]) [] =
      some [{ address := 0x10010, pointsTo := 0x10000, offset := 0 }] := by
  rw [List.singleton_append,
    expandLoop_cons chainProcess 0x10000 0 { address := 0x10008, pointsTo := 0x10000, offset := 0 }
      [{ address := 0x10010, pointsTo := 0x10000, offset := 0 }] []
      [{ address := 0x10010, pointsTo := 0x10008, offset := 0 }] chainProcess_pointers_to_P,
    expandLoop_cons chainProcess 0x10000 0 { address := 0x10010, pointsTo := 0x10000, offset := 0 } [] _ []
      chainProcess_pointers_to_Q,
    expandLoop_nil]
  rfl

/-- C25 as stated fails: in `chainProcess` the slot 0x10008 holds `F = 0x10000`, the slot
0x10010 holds 0x10008 and nothing points to 0x10010, so `D = [0x10008]`, `P(D) = [0x10010]`
and `P(P(D)) = []`. `FindPointerChain(F, maxDepth = 3, offsets = {0})` returns the addresses
0x10008, 0x10010, 0x10010 and not `D ++ P(D) ++ P(P(D))`: the second depth scans the whole
result vector again, the entry of depth 1 included, and reports 0x10010 a second time. -/
theorem C25_counterexample_rescan :
    FindPointersTo chainProcess 0x10000 0 0 =
        some [{ address := 0x10008, pointsTo := 0x10000, offset := 0 }] ∧
      FindPointersTo chainProcess 0x10008 0 0 =
        some [{ address := 0x10010, pointsTo := 0x10008, offset := 0 }] ∧
      FindPointersTo chainProcess 0x10010 0 0 = some [] ∧
      FindPointerChain chainProcess 0x10000 3 [0] =
        some [{ address := 0x10008, pointsTo := 0x10000, offset := 0 },
              { address := 0x10010, pointsTo := 0x10000, offset := 0 },
              { address := 0x10010, pointsTo := 0x10000, offset := 0 }] ∧
      ([0x10008, 0x10010, 0x10010] : List Nat) ≠ [0x10008] ++ [0x10010] ++ [] := by
  refine ⟨chainProcess_pointers_to_F, chainProcess_pointers_to_P, chainProcess_pointers_to_Q,
    ?_, by decide⟩
  rw [FindPointerChain_of_direct chainProcess 0x10000 3 [0] _ chainProcess_pointers_to_F
      (by decide),
    depthLoop_step chainProcess 0x10000 3 [0] _ 1 _ _ (by decide) (by decide)
      chainProcess_expand_first (by decide),
    depthLoop_step chainProcess 0x10000 3 [0] _ (1 + 1) _ _ (by decide) (by decide)
      chainProcess_expand_second (by decide),
    depthLoop_done chainProcess 0x10000 3 [0] (1 + 1 + 1) _ (by decide)]
  rfl

end MemoryHelpers

namespace MemoryHelpers

/-! ### `ParseBytePattern` and `ParsePatternMask` -/

theorem stoul16_hex_digit :
    ∀ c ∈ hexChars, stoul16 [c] = some (hexTokenValue [c]) ∧ hexTokenValue [c] < 256 ∧
      isWildcardToken [c] = false := by
  decide!

theorem stoul16_hex_pair :
    ∀ c ∈ hexChars, ∀ d ∈ hexChars,
      stoul16 [c, d] = some (hexTokenValue [c, d]) ∧ hexTokenValue [c, d] < 256 ∧
        isWildcardToken [c, d] = false := by
  decide!

theorem stoul16_of_isHexByteToken (token : List Char) (h : isHexByteToken token = true) :
    stoul16 token = some (hexTokenValue token) ∧ hexTokenValue token < 256 ∧
      isWildcardToken token = false := by
  match token, h with
  | [c], h =>
    exact stoul16_hex_digit c (by simpa [isHexByteToken] using h)
  | [c, d], h =>
    have h2 : c ∈ hexChars ∧ d ∈ hexChars := by simpa [isHexByteToken] using h
    exact stoul16_hex_pair c h2.1 d h2.2

theorem ParseBytePattern_loop_eq :
    ∀ (tokens : List (List Char)) (bytes : List Nat),
      (∀ t ∈ tokens, isWildcardToken t = true ∨ isHexByteToken t = true) →
      ParseBytePattern.loop tokens bytes = bytes ++ tokens.map patternByte := by
  intro tokens
  induction tokens with
  | nil => intro bytes _; simp [ParseBytePattern.loop]
  | cons t rest ih =>
    intro bytes h
    have hrest := fun x hx => h x (List.mem_cons_of_mem _ hx)
    rw [ParseBytePattern.loop, List.map_cons]
    by_cases hw : isWildcardToken t = true
    · have hw' : t = ['?'] ∨ t = ['?', '?'] := by simpa [isWildcardToken] using hw
      rw [if_pos hw', ih _ hrest, patternByte, if_pos hw, List.append_assoc]
      rfl
    · have hw' : ¬ (t = ['?'] ∨ t = ['?', '?']) := by simpa [isWildcardToken] using hw
      have hx : isHexByteToken t = true := by
        rcases h t (List.mem_cons_self _ _) with h1 | h1
        · exact absurd h1 hw
        · exact h1
      obtain ⟨h1, h2, _⟩ := stoul16_of_isHexByteToken t hx
      rw [if_neg hw', h1]
      simp only []
      rw [ih _ hrest, patternByte, if_neg hw, Nat.mod_eq_of_lt h2, List.append_assoc]
      rfl

theorem ParsePatternMask_loop_eq :
    ∀ (tokens : List (List Char)) (mask : List Bool),
      ParsePatternMask.loop tokens mask = mask ++ tokens.map patternMaskBit := by
  intro tokens
  induction tokens with
  | nil => intro mask; simp [ParsePatternMask.loop]
  | cons t rest ih =>
    intro mask
    rw [ParsePatternMask.loop, List.map_cons]
    by_cases hw : isWildcardToken t = true
    · have hw' : t = ['?'] ∨ t = ['?', '?'] := by simpa [isWildcardToken] using hw
      rw [if_pos hw', ih, List.append_assoc]
      simp [patternMaskBit, hw]
    · have hw' : ¬ (t = ['?'] ∨ t = ['?', '?']) := by simpa [isWildcardToken] using hw
      rw [if_neg hw', ih, List.append_assoc]
      simp [patternMaskBit, hw]

/-- C22 as stated fails for a text with a token that is not hexadecimal: for `AA ZZ BB`
`ParseBytePattern` skips `ZZ` and returns 2 bytes, `ParsePatternMask` returns 3 entries. -/
theorem C22_counterexample_invalid_token :
    extractTokens "AA ZZ BB".toList = ["AA".toList, "ZZ".toList, "BB".toList] ∧
      ParseBytePattern "AA ZZ BB".toList = [0xAA, 0xBB] ∧
      ParsePatternMask "AA ZZ BB".toList = [true, true, true] ∧
      (ParseBytePattern "AA ZZ BB".toList).length ≠
        (ParsePatternMask "AA ZZ BB".toList).length := by
  decide!

/-- C22 (amended): for every pattern text whose tokens are each `?`, `??` or one or two
hexadecimal digits, `ParseBytePattern` and `ParsePatternMask` return parallel arrays with one
entry per token: mask `false` and byte 0 for a wildcard token, mask `true` and the
hexadecimal value of the token otherwise. -/
theorem C22_pattern_text_parses_to_parallel_arrays (text : List Char)
    (hvalid : ∀ t ∈ extractTokens text, isWildcardToken t = true ∨ isHexByteToken t = true) :
    ParseBytePattern text = (extractTokens text).map patternByte ∧
      ParsePatternMask text = (extractTokens text).map patternMaskBit ∧
      (ParseBytePattern text).length = (ParsePatternMask text).length ∧
      (ParseBytePattern text).length = (extractTokens text).length := by
  have h1 : ParseBytePattern text = (extractTokens text).map patternByte := by
    unfold ParseBytePattern
    rw [ParseBytePattern_loop_eq _ _ hvalid, List.nil_append]
  have h2 : ParsePatternMask text = (extractTokens text).map patternMaskBit := by
    unfold ParsePatternMask
    rw [ParsePatternMask_loop_eq, List.nil_append]
  refine ⟨h1, h2, ?_, ?_⟩
  · rw [h1, h2, List.length_map, List.length_map]
  · rw [h1, List.length_map]

/-- The text `AA ?? BB` gives the bytes `AA 00 BB` and the mask `true false true`. -/
theorem C22_witness :
    ParseBytePattern "AA ?? BB".toList = [0xAA, 0x00, 0xBB] ∧
      ParsePatternMask "AA ?? BB".toList = [true, false, true] :=
  ⟨(C22_pattern_text_parses_to_parallel_arrays "AA ?? BB".toList (by decide!)).1.trans
      (by decide!),
    (C22_pattern_text_parses_to_parallel_arrays "AA ?? BB".toList (by decide!)).2.1.trans
      (by decide!)⟩

end MemoryHelpers

namespace MemoryScanner

/-! ### `bytesToHexString` and `hexStringToBytes` -/

theorem lowerHexDigit_pair :
    ∀ hi ∈ List.range 16, ∀ lo ∈ List.range 16,
      isspace (lowerHexDigit hi) = false ∧ isspace (lowerHexDigit lo) = false ∧
        stoi16 [lowerHexDigit hi, lowerHexDigit lo] = some ((16 * hi + lo : Nat) : Int) := by
  decide!

theorem extractTokens_go_char (c : Char) (rest current : List Char)
    (hc : isspace c = false) :
    extractTokens.go (c :: rest) current = extractTokens.go rest (current ++ [c]) := by
  have e : ¬ (isspace c = true) := by rw [hc]; decide
  rw [extractTokens.go, if_neg e]

theorem extractTokens_go_space (c d : Char) (rest : List Char) :
    extractTokens.go (' ' :: rest) [c, d] = [c, d] :: extractTokens.go rest [] := by
  have e1 : isspace ' ' = true := by decide
  have e2 : ¬ (([c, d] : List Char).isEmpty = true) := by simp
  rw [extractTokens.go, if_pos e1, if_neg e2]

theorem extractTokens_go_digit_pair (c d : Char) (rest : List Char)
    (hc : isspace c = false) (hd : isspace d = false) :
    extractTokens.go (c :: d :: ' ' :: rest) [] = [c, d] :: extractTokens.go rest [] := by
  rw [extractTokens_go_char c _ _ hc, extractTokens_go_char d _ _ hd]
  exact extractTokens_go_space c d rest

theorem hexStringToBytes_loop_bytes :
    ∀ (bytes acc : List Nat), (∀ x ∈ bytes, x < 256) →
      hexStringToBytes.loop (extractTokens.go (bytesToHexString bytes) []) acc =
        some (acc ++ bytes) := by
  intro bytes
  induction bytes with
  | nil => intro acc _; simp [bytesToHexString, extractTokens.go, hexStringToBytes.loop]
  | cons b rest ih =>
    intro acc h
    have hb := h b (List.mem_cons_self _ _)
    obtain ⟨h1, h2, h3⟩ := lowerHexDigit_pair (b / 16) (List.mem_range.mpr (by omega))
      (b % 16) (List.mem_range.mpr (Nat.mod_lt _ (by decide)))
    have hval : 16 * (b / 16) + b % 16 = b := Nat.div_add_mod b 16
    rw [hval] at h3
    have hcast : (((b : Nat) : Int) % 256).toNat = b := by omega
    have hstr : bytesToHexString (b :: rest) =
        lowerHexDigit (b / 16) :: lowerHexDigit (b % 16) :: ' ' :: bytesToHexString rest := rfl
    rw [hstr, extractTokens_go_digit_pair _ _ _ h1 h2, hexStringToBytes.loop]
    have hlen : (([lowerHexDigit (b / 16), lowerHexDigit (b % 16)] : List Char).length == 2)
        = true := rfl
    rw [if_pos hlen, h3]
    simp only []
    rw [hcast, ih _ (fun x hx => h x (List.mem_cons_of_mem _ hx)), List.append_assoc]
    rfl

/-- C23: for every vector of bytes, `hexStringToBytes(bytesToHexString(b)) = b`, where
`bytesToHexString` writes each byte as its two lowercase hexadecimal digits followed by one
space. -/
theorem C23_hexStringToBytes_inverts_bytesToHexString (b : List Nat) (hb : ∀ x ∈ b, x < 256) :
    hexStringToBytes (bytesToHexString b) = some b ∧
      bytesToHexString b =
        (b.map fun x => [lowerHexDigit (x / 16), lowerHexDigit (x % 16), ' ']).flatten ∧
      (List.range 16).map lowerHexDigit = "0123456789abcdef".toList := by
  refine ⟨?_, rfl, by decide⟩
  unfold hexStringToBytes extractTokens
  rw [hexStringToBytes_loop_bytes b [] hb, List.nil_append]

theorem C23_witness :
    bytesToHexString [0x00, 0x0A, 0xDE, 0xFF] = "00 0a de ff ".toList ∧
      hexStringToBytes "00 0a de ff ".toList = some [0x00, 0x0A, 0xDE, 0xFF] :=
  ⟨by decide,
    (congrArg hexStringToBytes (show "00 0a de ff ".toList =
      bytesToHexString [0x00, 0x0A, 0xDE, 0xFF] by decide)).trans
      (C23_hexStringToBytes_inverts_bytesToHexString [0x00, 0x0A, 0xDE, 0xFF] (by decide)).1⟩

end MemoryScanner

namespace MemoryHelpers

/-! ### Soundness of `FindCallInstructions` -/

theorem mem_GetMemoryRegions_loop (p : TargetProcess) (executableOnly writableOnly : Bool)
    (region : MemoryRegionEx) :
    ∀ (fuel address : Nat),
      region ∈ GetMemoryRegions.loop p executableOnly writableOnly fuel address →
      region.endAddress < 2 ^ 64 ∧
        (executableOnly = true → region.protection &&&
          (PAGE_EXECUTE ||| PAGE_EXECUTE_READ ||| PAGE_EXECUTE_READWRITE) ≠ 0) ∧
        ∃ mbi ∈ p.layout, mbi.State = MEM_COMMIT ∧ mbi.BaseAddress = region.startAddress ∧
          mbi.Protect = region.protection := by
  intro fuel
  induction fuel with
  | zero => intro address h; exact absurd h (List.not_mem_nil _)
  | succ fuel ih =>
    intro address h
    rw [GetMemoryRegions.loop] at h
    split at h
    · exact absurd h (List.not_mem_nil _)
    · rename_i mbi hq
      have hmem : mbi ∈ p.layout := List.mem_of_find?_eq_some hq
      simp only [] at h
      by_cases hs : (mbi.State == MEM_COMMIT) = true
      · rw [if_pos hs] at h
        split at h
        · rename_i hinc
          rcases List.mem_cons.mp h with h | h
          · subst h
            refine ⟨Nat.mod_lt _ (by norm_num), ?_, mbi, hmem, by simpa using hs, rfl, rfl⟩
            intro he
            subst he
            simp only [Bool.true_and, Bool.and_eq_true, Bool.not_eq_true', beq_eq_false_iff_ne,
              ne_eq] at hinc
            exact hinc.1
          · exact ih _ h
        · exact ih _ h
      · rw [if_neg hs] at h
        exact ih _ h

theorem FindCallInstructions_offsetLoop_succ (start targetAddress : Nat) (buffer : List Nat)
    (fuel i : Nat) (results : List Nat) :
    FindCallInstructions.offsetLoop start targetAddress buffer (fuel + 1) i results =
      if i < usub64 buffer.length 5 then
        if i ≥ buffer.length then none
        else if buffer.getD i 0 == 0xE8 then
          if i + 5 > buffer.length then none
          else
            if wrap64 (start + i + 5 + signExtend32
                (littleEndian ((buffer.drop (i + 1)).take 4))) == targetAddress then
              if (results ++ [wrap64 (start + i)]).length ≥ MAX_RESULTS then
                some (results ++ [wrap64 (start + i)])
              else FindCallInstructions.offsetLoop start targetAddress buffer fuel (i + 1)
                (results ++ [wrap64 (start + i)])
            else FindCallInstructions.offsetLoop start targetAddress buffer fuel (i + 1) results
        else FindCallInstructions.offsetLoop start targetAddress buffer fuel (i + 1) results
      else some results :=
  rfl

theorem FindCallInstructions_offsetLoop_collect (start targetAddress : Nat) (buffer : List Nat)
    (hb : 5 ≤ buffer.length) (h64 : buffer.length < 2 ^ 64) :
    ∀ (fuel i : Nat) (results : List Nat),
      FindCallInstructions.offsetLoop start targetAddress buffer fuel i results =
        some (cappedCollect (buffer.length - 5) 1 MAX_RESULTS
          (fun k => buffer.getD k 0 == 0xE8 &&
            wrap64 (start + k + 5 + signExtend32 (littleEndian ((buffer.drop (k + 1)).take 4)))
              == targetAddress)
          (fun k => wrap64 (start + k)) fuel i results) := by
  intro fuel
  induction fuel with
  | zero => intro i results; rfl
  | succ fuel ih =>
    intro i results
    rw [FindCallInstructions_offsetLoop_succ, cappedCollect]
    rw [usub64_of_le _ _ hb h64]
    by_cases hi : i < buffer.length - 5
    · have h1 : ¬ (i ≥ buffer.length) := by omega
      have h2 : ¬ (i + 5 > buffer.length) := by omega
      rw [if_pos hi, if_pos hi, if_neg h1]
      by_cases hop : (buffer.getD i 0 == 0xE8) = true
      · rw [if_pos hop, if_neg h2]
        simp only [hop, Bool.true_and]
        by_cases ht : (wrap64 (start + i + 5 + signExtend32
            (littleEndian ((buffer.drop (i + 1)).take 4))) == targetAddress) = true
        · rw [if_pos ht, if_pos ht]
          split
          · rfl
          · exact ih _ _
        · rw [if_neg ht, if_neg ht]
          exact ih _ _
      · rw [if_neg hop]
        have hf : ¬ ((buffer.getD i 0 == 0xE8 &&
            wrap64 (start + i + 5 + signExtend32 (littleEndian ((buffer.drop (i + 1)).take 4)))
              == targetAddress) = true) := by
          simp only [Bool.and_eq_true, not_and]
          intro h
          exact absurd h hop
        rw [if_neg hf]
        exact ih _ _
    · rw [if_neg hi, if_neg hi]

theorem FindCallInstructions_offsetLoop_short (start targetAddress : Nat) (buffer : List Nat)
    (h0 : 0 < buffer.length) (hb : buffer.length < 5) :
    ∀ (fuel i : Nat) (results : List Nat), i ≤ buffer.length → buffer.length < i + fuel →
      FindCallInstructions.offsetLoop start targetAddress buffer fuel i results = none := by
  intro fuel
  induction fuel with
  | zero => intro i results h1 h2; omega
  | succ fuel ih =>
    intro i results h1 h2
    rw [FindCallInstructions_offsetLoop_succ]
    have hlt : i < usub64 buffer.length 5 := by
      unfold usub64
      omega
    rw [if_pos hlt]
    by_cases hi : i ≥ buffer.length
    · rw [if_pos hi]
    · rw [if_neg hi]
      have h5 : i + 5 > buffer.length := by omega
      by_cases hop : (buffer.getD i 0 == 0xE8) = true
      · rw [if_pos hop, if_pos h5]
      · rw [if_neg hop]
        exact ih _ _ (by omega) (by omega)

end MemoryHelpers

namespace MemoryHelpers

theorem FindCallInstructions_regionLoop_spec (p : TargetProcess)
    (targetAddress searchStart searchEnd : Nat) :
    ∀ (regions : List MemoryRegionEx) (results : List Nat),
      results.length < MAX_RESULTS →
      (∀ out, FindCallInstructions.regionLoop p targetAddress searchStart searchEnd regions
          results = some out →
        out = results ++ ((regions.map (FindCallInstructions.regionSites p targetAddress
          searchStart searchEnd)).flatten).take (MAX_RESULTS - results.length)) ∧
      ((∀ region ∈ regions,
          ReadMemoryChunk p
            (if searchStart > 0 then max searchStart region.startAddress
              else region.startAddress)
            ((if searchEnd > 0 then min searchEnd region.endAddress else region.endAddress) -
              (if searchStart > 0 then max searchStart region.startAddress
                else region.startAddress)) = [] ∨
          5 ≤ (ReadMemoryChunk p
            (if searchStart > 0 then max searchStart region.startAddress
              else region.startAddress)
            ((if searchEnd > 0 then min searchEnd region.endAddress else region.endAddress) -
              (if searchStart > 0 then max searchStart region.startAddress
                else region.startAddress))).length) →
        ∃ out, FindCallInstructions.regionLoop p targetAddress searchStart searchEnd regions
          results = some out) := by
  intro regions
  induction regions with
  | nil =>
    intro results _
    refine ⟨?_, fun _ => ⟨results, rfl⟩⟩
    intro out h
    simp only [FindCallInstructions.regionLoop, Option.some.injEq] at h
    simp [h]
  | cons region rest ih =>
    intro results hlen
    rw [FindCallInstructions.regionLoop, List.map_cons, List.flatten_cons,
      FindCallInstructions.regionSites]
    simp only [List.mem_cons, forall_eq_or_imp]
    generalize (if searchStart > 0 then max searchStart region.startAddress
      else region.startAddress) = start
    generalize (if searchEnd > 0 then min searchEnd region.endAddress
      else region.endAddress) = end_
    by_cases h1 : start ≥ end_
    · rw [if_pos h1, if_pos h1, List.nil_append]
      exact ⟨(ih results hlen).1, fun h => (ih results hlen).2 h.2⟩
    rw [if_neg h1, if_neg h1]
    by_cases h2 : end_ - start > MAX_SCAN_SIZE
    · rw [if_pos h2, if_pos h2, List.nil_append]
      exact ⟨(ih results hlen).1, fun h => (ih results hlen).2 h.2⟩
    rw [if_neg h2, if_neg h2]
    have hle := ReadMemoryChunk_length_le p start (end_ - start)
    generalize ReadMemoryChunk p start (end_ - start) = buffer at hle ⊢
    have h64 : buffer.length < 2 ^ 64 := by
      have := MAX_SCAN_SIZE_lt
      omega
    by_cases h3 : buffer.isEmpty = true
    · have hz : buffer.length < 5 := by
        rw [List.isEmpty_iff] at h3
        rw [h3]; decide
      rw [if_pos h3, if_pos hz, List.nil_append]
      exact ⟨(ih results hlen).1, fun h => (ih results hlen).2 h.2⟩
    rw [if_neg h3]
    have hpos : 0 < buffer.length := by
      cases buffer with
      | nil => exact absurd rfl h3
      | cons _ _ => simp
    by_cases h4 : buffer.length < 5
    · rw [FindCallInstructions_offsetLoop_short _ _ _ hpos h4 _ _ _ (Nat.zero_le _) (by omega)]
      refine ⟨fun out h => absurd h (by simp), ?_⟩
      rintro ⟨hb | hb, _⟩
      · rw [hb] at h3
        exact absurd rfl h3
      · omega
    rw [if_neg h4, FindCallInstructions_offsetLoop_collect _ _ _ (by omega) h64,
      cappedCollect_eq _ _ _ _ _ (by decide) _ _ _ (Nat.mod_one 0) hlen (by omega),
      filter_step_one]
    simp only [Nat.sub_zero, ← List.range_eq_range', List.map_take, Option.some_bind]
    generalize (((List.range (buffer.length - 5)).filter fun k =>
      buffer.getD k 0 == 0xE8 &&
        wrap64 (start + k + 5 + signExtend32 (littleEndian ((buffer.drop (k + 1)).take 4)))
          == targetAddress).map fun k => wrap64 (start + k)) = ms
    by_cases h5 : MAX_RESULTS ≤ (results ++ ms.take (MAX_RESULTS - results.length)).length
    · rw [if_pos h5, capped_append_full _ _ _ _ h5]
      exact ⟨fun out h => (Option.some.inj h).symm, fun _ => ⟨_, rfl⟩⟩
    · rw [if_neg h5]
      have h5' := Nat.lt_of_not_le h5
      obtain ⟨e1, e2⟩ := capped_append_more _ _
        ((rest.map (FindCallInstructions.regionSites p targetAddress searchStart
          searchEnd)).flatten) _ h5'
      refine ⟨?_, fun h => (ih _ h5').2 h.2⟩
      intro out h
      rw [(ih _ h5').1 out h, e2, e1, List.append_assoc]

end MemoryHelpers

namespace MemoryHelpers

theorem regionSites_eq_of_mem (p : TargetProcess) (targetAddress searchStart searchEnd : Nat)
    (region : MemoryRegionEx) (hregion : region ∈ GetMemoryRegions p true false)
    (start end_ : Nat)
    (hstart : start = (if searchStart > 0 then max searchStart region.startAddress
      else region.startAddress))
    (hend : end_ = (if searchEnd > 0 then min searchEnd region.endAddress
      else region.endAddress)) :
    FindCallInstructions.regionSites p targetAddress searchStart searchEnd region = [] ∨
      (5 ≤ (ReadMemoryChunk p start (end_ - start)).length ∧
        start + (ReadMemoryChunk p start (end_ - start)).length ≤ end_ ∧ end_ < 2 ^ 64 ∧
        FindCallInstructions.regionSites p targetAddress searchStart searchEnd region =
          ((List.range ((ReadMemoryChunk p start (end_ - start)).length - 5)).filter fun i =>
            (ReadMemoryChunk p start (end_ - start)).getD i 0 == 0xE8 &&
              wrap64 (start + i + 5 + signExtend32 (littleEndian
                (((ReadMemoryChunk p start (end_ - start)).drop (i + 1)).take 4)))
                == targetAddress).map fun i => start + i) := by
  have hend64 : region.endAddress < 2 ^ 64 :=
    (mem_GetMemoryRegions_loop p true false region _ _ hregion).1
  have he : end_ ≤ region.endAddress := by
    rw [hend]
    split
    · exact Nat.min_le_right _ _
    · exact Nat.le_refl _
  unfold FindCallInstructions.regionSites
  simp only []
  rw [← hstart, ← hend]
  by_cases h1 : start ≥ end_
  · left; rw [if_pos h1]
  rw [if_neg h1]
  by_cases h2 : end_ - start > MAX_SCAN_SIZE
  · left; rw [if_pos h2]
  rw [if_neg h2]
  have hle := ReadMemoryChunk_length_le p start (end_ - start)
  by_cases h4 : (ReadMemoryChunk p start (end_ - start)).length < 5
  · left; rw [if_pos h4]
  right
  rw [if_neg h4]
  refine ⟨by omega, by omega, by omega, ?_⟩
  apply map_wrap64_of_lt start (ReadMemoryChunk p start (end_ - start)).length _ (by omega)
  intro k hk
  have := List.mem_range.mp (List.mem_of_mem_filter hk)
  omega

theorem CallSite_of_mem_regionSites (p : TargetProcess)
    (targetAddress searchStart searchEnd : Nat) (region : MemoryRegionEx)
    (hregion : region ∈ GetMemoryRegions p true false) (s : Nat)
    (hs : s ∈ FindCallInstructions.regionSites p targetAddress searchStart searchEnd region) :
    CallSite p targetAddress searchStart searchEnd s := by
  obtain ⟨_, hexec, hmbi⟩ := mem_GetMemoryRegions_loop p true false region _ _ hregion
  rcases regionSites_eq_of_mem p targetAddress searchStart searchEnd region hregion _ _ rfl rfl
    with h | ⟨h5, hfit, _, h⟩
  · rw [h] at hs
    exact absurd hs (List.not_mem_nil _)
  · rw [h] at hs
    obtain ⟨i, hi, rfl⟩ := List.mem_map.mp hs
    obtain ⟨hir, hcond⟩ := List.mem_filter.mp hi
    have hlt := List.mem_range.mp hir
    simp only [Bool.and_eq_true, beq_iff_eq] at hcond
    exact ⟨region, hregion, hmbi, hexec rfl, _, _, i, rfl, rfl, rfl, by omega, by omega,
      hcond.1, hcond.2⟩

theorem regionSites_sorted (p : TargetProcess) (targetAddress searchStart searchEnd : Nat)
    (region : MemoryRegionEx) (hregion : region ∈ GetMemoryRegions p true false) :
    (FindCallInstructions.regionSites p targetAddress searchStart searchEnd region).Sorted
      (· < ·) := by
  rcases regionSites_eq_of_mem p targetAddress searchStart searchEnd region hregion _ _ rfl rfl
    with h | ⟨_, _, _, h⟩
  · rw [h]; exact List.sorted_nil
  · rw [h]
    show List.Pairwise (· < ·) _
    exact List.Pairwise.map _ (fun a b hab => Nat.add_lt_add_left hab _)
      (List.Pairwise.filter _ (List.pairwise_lt_range _))

/-- C26: for every process, target and caller bound, every address `s` in the list that
`FindCallInstructions` returns is a call site to the target (in a committed region with an
execute flag, the five bytes from `s` on inside the bound and the fetched buffer, the opcode
`E8`, and `s + 5 + d = target` modulo `2 ^ 64` for the sign-extended displacement `d`); the
list is made of the sites of the enumerated regions in turn, up to the result cap, and the
sites of each region are ascending. The list is returned whenever each region read yields
nothing or at least 5 bytes. -/
theorem C26_FindCallInstructions_reports_call_sites_to_target (p : TargetProcess)
    (targetAddress searchStart searchEnd : Nat) :
    (∀ l, FindCallInstructions p targetAddress searchStart searchEnd = some l →
      l = (((GetMemoryRegions p true false).map (FindCallInstructions.regionSites p
        targetAddress searchStart searchEnd)).flatten).take MAX_RESULTS ∧
      ∀ s ∈ l, CallSite p targetAddress searchStart searchEnd s) ∧
    (∀ region ∈ GetMemoryRegions p true false,
      (FindCallInstructions.regionSites p targetAddress searchStart searchEnd region).Sorted
        (· < ·)) ∧
    ((∀ region ∈ GetMemoryRegions p true false,
        ReadMemoryChunk p
          (if searchStart > 0 then max searchStart region.startAddress
            else region.startAddress)
          ((if searchEnd > 0 then min searchEnd region.endAddress else region.endAddress) -
            (if searchStart > 0 then max searchStart region.startAddress
              else region.startAddress)) = [] ∨
        5 ≤ (ReadMemoryChunk p
          (if searchStart > 0 then max searchStart region.startAddress
            else region.startAddress)
          ((if searchEnd > 0 then min searchEnd region.endAddress else region.endAddress) -
            (if searchStart > 0 then max searchStart region.startAddress
              else region.startAddress))).length) →
      ∃ l, FindCallInstructions p targetAddress searchStart searchEnd = some l) := by
  have hspec := FindCallInstructions_regionLoop_spec p targetAddress searchStart searchEnd
    (GetMemoryRegions p true false) [] (by decide)
  refine ⟨?_, regionSites_sorted p targetAddress searchStart searchEnd, hspec.2⟩
  intro l hl
  have hl2 := hspec.1 l hl
  rw [List.nil_append] at hl2
  refine ⟨hl2, ?_⟩
  intro s hs
  rw [hl2] at hs
  obtain ⟨sites, hsites, hmem⟩ := List.mem_flatten.mp (List.mem_of_mem_take hs)
  obtain ⟨region, hregion, rfl⟩ := List.mem_map.mp hsites
  exact CallSite_of_mem_regionSites p targetAddress searchStart searchEnd region hregion s hmem

/-- In `callProcess` the call `E8 01 F0 FF FF` at 0x10FFA leads to 0x10000: the scan of
`[0x10FF0, end of the page)` returns that site, and it is a call site to 0x10000. -/
theorem C26_witness :
    FindCallInstructions callProcess 0x10000 0x10FF0 0 = some [0x10FFA] ∧
      CallSite callProcess 0x10000 0x10FF0 0 0x10FFA :=
  ⟨by decide!,
    ((C26_FindCallInstructions_reports_call_sites_to_target callProcess 0x10000 0x10FF0 0).1
      [0x10FFA] (by decide!)).2 0x10FFA (List.mem_singleton_self _)⟩

end MemoryHelpers

namespace MemoryHelpers

/-! ### The depths of `FindPointerChain` in general -/

theorem pointerAddresses_eq (p : TargetProcess) (target : Nat) (h : WholeSlotReads p) :
    pointerAddresses p target =
      ((FindPointersTo.allMatches p target).take MAX_RESULTS).map fun r => r.address := by
  unfold pointerAddresses
  rw [FindPointersTo_total p target h]

theorem addresses_of_expansion (p : TargetProcess) (finalAddress chainOffset : Nat)
    (h : WholeSlotReads p) :
    ∀ (results : List PointerResult),
      ((results.map fun existingPtr =>
        ((FindPointersTo.allMatches p existingPtr.address).take MAX_RESULTS).map
          fun chainPtr => ({ address := chainPtr.address, pointsTo := finalAddress,
                             offset := chainOffset } : PointerResult)).flatten).map
        (fun r => r.address) =
      pointersToAll p (results.map fun r => r.address) := by
  intro results
  induction results with
  | nil => rfl
  | cons e rest ih =>
    rw [List.map_cons, List.flatten_cons, List.map_append, ih, List.map_cons]
    unfold pointersToAll
    rw [List.map_cons, List.flatten_cons, pointerAddresses_eq p e.address h, List.map_map]
    rfl

theorem expandLoop_addresses (p : TargetProcess) (finalAddress chainOffset : Nat)
    (h : WholeSlotReads p) (results : List PointerResult) :
    ∃ newResults,
      FindPointerChain.expandLoop p finalAddress chainOffset results [] = some newResults ∧
      newResults.map (fun r => r.address) = pointersToAll p (results.map fun r => r.address) :=
  ⟨_, (expandLoop_total p finalAddress chainOffset h results []).trans
      (congrArg some (List.nil_append _)),
    addresses_of_expansion p finalAddress chainOffset h results⟩

theorem pointersToAll_append (p : TargetProcess) (xs ys : List Nat) :
    pointersToAll p (xs ++ ys) = pointersToAll p xs ++ pointersToAll p ys := by
  unfold pointersToAll
  rw [List.map_append, List.flatten_append]

theorem depthLoop_last (p : TargetProcess) (finalAddress : Nat) (maxDepth : Int)
    (offsets : List Nat) (fuel depth : Nat) (results newResults : List PointerResult)
    (hfuel : 0 < fuel) (hd : (depth : Int) < maxDepth)
    (hlast : ¬ (((depth + 1 : Nat) : Int) < maxDepth))
    (hexp : FindPointerChain.expandLoop p finalAddress
      (if depth < offsets.length then offsets.getD depth 0 else 0) results [] = some newResults) :
    FindPointerChain.depthLoop p finalAddress maxDepth offsets fuel depth results =
      some (results ++ newResults) := by
  obtain ⟨fuel, rfl⟩ : ∃ f, fuel = f + 1 := ⟨fuel - 1, by omega⟩
  rw [FindPointerChain.depthLoop, if_pos hd]
  simp only []
  rw [hexp]
  simp only []
  split
  · rfl
  · exact depthLoop_done p finalAddress maxDepth offsets (depth + 1) _ hlast fuel

/-- C25 (amended): for every process whose region reads transfer nothing or at least one
whole slot, every final address `F` and every non-empty offsets vector, each depth of
`FindPointerChain` expands every entry collected so far: with `D` the addresses of
`FindPointersTo(F)` and `P(X)` the concatenation over `x` in `X` of the addresses of
`FindPointersTo(x)`, `FindPointerChain(F, 3, offsets)` returns the addresses `D`, then
`P(D)`, then `P(D ++ P(D)) = P(D) ++ P(P(D))`, when `D ++ P(D)` is below the result cap. -/
theorem C25_FindPointerChain_depth_three_expands_all_results (p : TargetProcess) (F : Nat)
    (offsets : List Nat) (hreads : WholeSlotReads p) (hoffsets : offsets ≠ [])
    (hcap : (pointerAddresses p F ++ pointersToAll p (pointerAddresses p F)).length
      < MAX_RESULTS) :
    ∃ l, FindPointerChain p F 3 offsets = some l ∧
      l.map (fun r => r.address) =
        pointerAddresses p F ++ pointersToAll p (pointerAddresses p F) ++
          pointersToAll p (pointerAddresses p F ++ pointersToAll p (pointerAddresses p F)) ∧
      pointersToAll p (pointerAddresses p F ++ pointersToAll p (pointerAddresses p F)) =
        pointersToAll p (pointerAddresses p F) ++
          pointersToAll p (pointersToAll p (pointerAddresses p F)) := by
  have hc : (!offsets.isEmpty && decide ((3 : Int) > 1)) = true := by
    cases offsets with
    | nil => exact absurd rfl hoffsets
    | cons _ _ => rfl
  have hD := pointerAddresses_eq p F hreads
  generalize hD0 : (FindPointersTo.allMatches p F).take MAX_RESULTS = D0 at hD
  have hdirect : FindPointersTo p F 0 0 = some D0 := by
    rw [FindPointersTo_total p F hreads, hD0]
  obtain ⟨new1, hexp1, ha1⟩ := expandLoop_addresses p F
    (if 1 < offsets.length then offsets.getD 1 0 else 0) hreads D0
  obtain ⟨new2, hexp2', ha2'⟩ := expandLoop_addresses p F
    (if 1 + 1 < offsets.length then offsets.getD (1 + 1) 0 else 0) hreads (D0 ++ new1)
  rw [← hD] at ha1
  rw [List.map_append, ← hD, ha1] at ha2'
  have hlen : (D0 ++ new1).length < MAX_RESULTS := by
    have e : (D0 ++ new1).length =
        (pointerAddresses p F ++ pointersToAll p (pointerAddresses p F)).length := by
      rw [← ha1, hD, List.length_append, List.length_append, List.length_map, List.length_map]
    rw [e]
    exact hcap
  refine ⟨D0 ++ new1 ++ new2, ?_, ?_, pointersToAll_append p _ _⟩
  · rw [FindPointerChain_of_direct p F 3 offsets D0 hdirect hc,
      depthLoop_step p F 3 offsets _ 1 D0 new1 (by decide) (by decide) hexp1 hlen,
      depthLoop_last p F 3 offsets _ (1 + 1) (D0 ++ new1) new2 (by decide) (by decide)
        (by decide) hexp2']
  · rw [List.map_append, List.map_append, ha2', ha1, ← hD]

theorem pointerAddresses_of_some (p : TargetProcess) (target : Nat)
    (found : List PointerResult) (h : FindPointersTo p target 0 0 = some found) :
    pointerAddresses p target = found.map fun r => r.address := by
  unfold pointerAddresses
  rw [h]

theorem chainProcess_addresses_F : pointerAddresses chainProcess 0x10000 = [0x10008] :=
  (pointerAddresses_of_some chainProcess 0x10000 _ chainProcess_pointers_to_F).trans rfl

theorem chainProcess_addresses_P : pointerAddresses chainProcess 0x10008 = [0x10010] :=
  (pointerAddresses_of_some chainProcess 0x10008 _ chainProcess_pointers_to_P).trans rfl

theorem chainProcess_addresses_Q : pointerAddresses chainProcess 0x10010 = [] :=
  (pointerAddresses_of_some chainProcess 0x10010 _ chainProcess_pointers_to_Q).trans rfl

/-- In `chainProcess`, `D = [0x10008]`, `P(D) = [0x10010]` and `P(D ++ P(D)) = [0x10010]`:
`FindPointerChain(0x10000, 3, {0})` returns the addresses 0x10008, 0x10010, 0x10010. -/
theorem C25_witness :
    ∃ l, FindPointerChain chainProcess 0x10000 3 [0] = some l ∧
      l.map (fun r => r.address) = [0x10008, 0x10010, 0x10010] := by
  obtain ⟨l, h1, h2, _⟩ := C25_FindPointerChain_depth_three_expands_all_results chainProcess
    0x10000 [0] chainProcess_WholeSlotReads (by decide) (by
      simp only [pointersToAll, chainProcess_addresses_F, chainProcess_addresses_P,
        List.map_cons, List.map_nil, List.flatten_cons, List.flatten_nil]
      decide)
  refine ⟨l, h1, ?_⟩
  rw [h2]
  simp only [pointersToAll, chainProcess_addresses_F, chainProcess_addresses_P,
    chainProcess_addresses_Q, List.map_cons, List.map_nil, List.flatten_cons, List.flatten_nil,
    List.cons_append, List.nil_append, List.append_nil]

end MemoryHelpers
